import Mathlib

/-!
The classes `RawMemory<T>` and `Vector<T>` of advanced-vector (vector.h).

A shallow embedding of `src/advanced-vector/vector.h`.

* A block of raw memory obtained from `operator new` is a list of slots; a slot is
  `none` while it is uninitialised and `some x` while an object of value `x` lives in it.
* `RawMemory<T>` is non-copyable and owns its block exclusively, so the pointer
  `buffer_` is modelled by the block it points to (`none` is `nullptr`).  A `T*` into a
  block is the index of the slot it points to.
* The element type `T` is a template parameter: what the code asks of it (its size, the
  two type traits used by `InitUninitData`, which of its constructors and assignments
  throw, what a move leaves behind) is collected in `Env`, together with the behaviour of
  `operator new`.  A copy or a move that does not throw builds an object of the value of
  its source.
* The algorithms of `<memory>` and `<algorithm>` the code calls are written out as the
  loops the standard describes, with the rollback of the `uninitialized_*` family.
* `size_t` arithmetic that can wrap (`size_ * 2`, `n * sizeof(T)`) is taken modulo `2^64`.
  Subtractions that the preconditions keep from wrapping (`--size_`, `size_ - new_size`,
  iterator distances) are truncated subtractions of naturals.
* A violated `assert`, a read of a slot that holds no object and a write outside a block
  end a call with `Err.assert_fail` / `Err.undefined`.
* A destructor call on a slot that holds no object, or lies outside the block, is
  undefined behaviour unless `T` is trivially destructible (then it runs no code).  From
  a container that holds its elements such a call is reached in `Erase`, which calls
  `std::destroy_n` on slot `size_ + 1`, and can be reached in the second `catch (...)`
  of `Emplace`, after the first one has destroyed the new element; at both places the
  call ends with `Err.undefined` when a slot it targets holds no object and `T` is not
  trivially destructible.  Every other `std::destroy_n` of the source is then applied
  to slots that hold objects, and only its effect on the slots is recorded.
* A call returns the container as it is left, the value returned or the failure that
  reaches the caller, and bookkeeping of what happened during the call (relocation
  constructions, blocks handed to `Deallocate` with their slots at that moment).
-/

namespace AdvancedVector

/-- Ways in which a call does not return normally. -/
inductive Err where
  /-- Thrown by `operator new`: `std::bad_alloc`. -/
  | bad_alloc
  /-- A constructor or an assignment operator of `T` threw. -/
  | elem_throw
  /-- An `assert(...)` of the source was violated. -/
  | assert_fail
  /-- Undefined behaviour: a raw slot was read, or memory outside a block was written. -/
  | undefined
  deriving DecidableEq, Repr

/-- Equality of outcomes is decidable when it is for results and failures. -/
instance instDecidableEqExcept {ε α : Type} [DecidableEq ε] [DecidableEq α] :
    DecidableEq (Except ε α)
  | .ok a, .ok b => if h : a = b then isTrue (by rw [h]) else isFalse (by intro h2; cases h2; exact h rfl)
  | .error a, .error b =>
    if h : a = b then isTrue (by rw [h]) else isFalse (by intro h2; cases h2; exact h rfl)
  | .ok _, .error _ => isFalse (by intro h; cases h)
  | .error _, .ok _ => isFalse (by intro h; cases h)

/-- The element type `T` as the code sees it, and the allocator underneath. -/
structure Env (T : Type) where
  /-- Size of an object: `sizeof(T)`. -/
  sizeofT : Nat
  /-- Trait `std::is_nothrow_move_constructible_v<T>`. -/
  is_nothrow_move_constructible : Bool
  /-- Trait `std::is_copy_constructible_v<T>`. -/
  is_copy_constructible : Bool
  /-- Trait `std::is_trivially_destructible_v<T>`: the destructor of `T` runs no code. -/
  is_trivially_destructible : Bool
  /-- Copy construction from an object of this value throws. -/
  copyThrows : T → Bool
  /-- Move construction from an object of this value throws. -/
  moveThrows : T → Bool
  /-- Value left in an object after it has been moved from. -/
  movedFrom : T → T
  /-- Copy assignment from an object of this value throws. -/
  copyAssignThrows : T → Bool
  /-- Move assignment from an object of this value throws. -/
  moveAssignThrows : T → Bool
  /-- Value-initialisation `T()`: the value built, `none` when it throws. -/
  valueInit : Option T
  /-- Whether `operator new(bytes)` throws `std::bad_alloc` for this request. -/
  newThrows : Nat → Bool

/-- A block of raw memory: one entry per slot, `none` = uninitialised, `some x` = live. -/
abbrev Block (T : Type) := List (Option T)

/-- Number of values of `size_t`. -/
def SIZE_MOD : Nat := 2 ^ 64

/-- Algorithm `std::destroy_n(p, n)`, its effect on the block: the lifetime of the objects
in slots `p .. p+n-1` ends.  A slot that holds no object, or lies outside the block, is
left as it is; whether the destructor call made on it is defined is `destroy_defined`. -/
def destroy_n {T : Type} : Block T → Nat → Nat → Block T
  | b, _, 0 => b
  | b, p, n + 1 => destroy_n (b.set p none) (p + 1) n

/-- Whether a slot of the block holds an object. -/
def isLive {T : Type} (b : Block T) (p : Nat) : Bool :=
  match b[p]? with
  | some (some _) => true
  | _ => false

/-- Placement new `new (p) T(args...)` into slot `p` of block `b`; `args` is the value
the constructor call produces, `none` when the constructor throws. -/
def construct_at {T : Type} (b : Block T) (p : Nat) (args : Option T) : Except Err (Block T) :=
  match args with
  | none => .error .elem_throw
  | some x => if p < b.length then .ok (b.set p (some x)) else .error .undefined

/-- The two constructors of `T` that build an object from another object. -/
inductive CtorKind where
  /-- The copy constructor `T(const T&)`. -/
  | copy
  /-- The move constructor `T(T&&)`. -/
  | move
  deriving DecidableEq, Repr

/-- Outcome of a bulk construction from a source block into a destination block. -/
structure Xfer (T : Type) where
  /-- Source block afterwards. -/
  src : Block T
  /-- Destination block afterwards. -/
  dst : Block T
  /-- Number of constructor calls that completed, each building one object in the
  destination. -/
  built : Nat
  /-- Failure that leaves the algorithm, `none` when it completed. -/
  err : Option Err
  /-- The constructor the algorithm called on the source objects. -/
  kind : CtorKind
  deriving DecidableEq, Repr

/-- Common loop of `std::uninitialized_copy_n` / `std::uninitialized_move_n`:
constructs `dst[d+i]` from `src[s+i]` for `i = done, done+1, ...` (`n` more objects).
The constructor of `T` that the loop calls is `kind`, and `build x` is what that
constructor does on a source object of value `x`: the value built and the value left in
the source, or `none` when it throws.  `done` counts the constructor calls that have
completed; the outcome records it together with the constructor called.  When a
construction throws, the objects built so far are destroyed and the exception is
rethrown. -/
def uninitialized_loop {T : Type} (kind : CtorKind) (build : T → Option (T × T)) (s d : Nat) :
    Nat → Nat → Block T → Block T → Xfer T
  | 0, done, src, dst => ⟨src, dst, done, none, kind⟩
  | n + 1, done, src, dst =>
    match src[s + done]? with
    | some (some x) =>
      if d + done < dst.length then
        match build x with
        | none => ⟨src, destroy_n dst d done, done, some .elem_throw, kind⟩
        | some (y, r) =>
          uninitialized_loop kind build s d n (done + 1)
            (src.set (s + done) (some r)) (dst.set (d + done) (some y))
      else ⟨src, dst, done, some .undefined, kind⟩
    | _ => ⟨src, dst, done, some .undefined, kind⟩

/-- Whether `std::destroy_n(p, n)` has defined behaviour: it calls the destructor of `T`
on each of the slots `p .. p+n-1`, which is undefined on a slot that holds no object or
lies outside the block, unless `T` is trivially destructible (then no code is run). -/
def destroy_defined {T : Type} (E : Env T) (b : Block T) (p n : Nat) : Bool :=
  E.is_trivially_destructible || (List.range n).all (fun k => isLive b (p + k))

/-- Copy constructor of `T` applied to an object of value `x`. -/
def Env.copyCtor {T : Type} (E : Env T) (x : T) : Option (T × T) :=
  if E.copyThrows x then none else some (x, x)

/-- Move constructor of `T` applied to an object of value `x`. -/
def Env.moveCtor {T : Type} (E : Env T) (x : T) : Option (T × T) :=
  if E.moveThrows x then none else some (x, E.movedFrom x)

/-- Algorithm `std::uninitialized_copy_n(src + s, n, dst + d)`: each object is built by
the copy constructor. -/
def uninitialized_copy_n {T : Type} (E : Env T) (src : Block T) (s n : Nat)
    (dst : Block T) (d : Nat) : Xfer T :=
  uninitialized_loop .copy E.copyCtor s d n 0 src dst

/-- Algorithm `std::uninitialized_move_n(src + s, n, dst + d)`: each object is built by
the move constructor. -/
def uninitialized_move_n {T : Type} (E : Env T) (src : Block T) (s n : Nat)
    (dst : Block T) (d : Nat) : Xfer T :=
  uninitialized_loop .move E.moveCtor s d n 0 src dst

/-- Loop of `std::uninitialized_value_construct_n(b + p0, n)`, `done` objects already built
from `p0` on: value-initialises the next `n` slots; when `T()` throws, the objects
built so far are destroyed and the exception is rethrown. -/
def uninitialized_value_construct_loop {T : Type} (E : Env T) (p0 : Nat) :
    Nat → Nat → Block T → Block T × Option Err
  | 0, _, b => (b, none)
  | n + 1, done, b =>
    if p0 + done < b.length then
      match E.valueInit with
      | none => (destroy_n b p0 done, some .elem_throw)
      | some x => uninitialized_value_construct_loop E p0 n (done + 1) (b.set (p0 + done) (some x))
    else (b, some .undefined)

/-- Algorithm `std::uninitialized_value_construct_n(b + p, n)`. -/
def uninitialized_value_construct_n {T : Type} (E : Env T) (b : Block T) (p n : Nat) :
    Block T × Option Err :=
  uninitialized_value_construct_loop E p n 0 b

/-- Algorithm `std::move(first, first + n, d_first)` inside one block: move-assigns
`b[first+k]` to `b[d_first+k]` for `k = 0 .. n-1`, in increasing order. -/
def move_range {T : Type} (E : Env T) : Block T → Nat → Nat → Nat → Block T × Option Err
  | b, _, _, 0 => (b, none)
  | b, first, d_first, n + 1 =>
    match b[first]?, b[d_first]? with
    | some (some x), some (some _) =>
      if E.moveAssignThrows x then (b, some .elem_throw)
      else move_range E ((b.set d_first (some x)).set first (some (E.movedFrom x)))
        (first + 1) (d_first + 1) n
    | _, _ => (b, some .undefined)

/-- Algorithm `std::move_backward(last - n, last, d_last)` inside one block: move-assigns
`b[last-k]` to `b[d_last-k]` for `k = 1 .. n`, in that order. -/
def move_backward {T : Type} (E : Env T) : Block T → Nat → Nat → Nat → Block T × Option Err
  | b, _, _, 0 => (b, none)
  | b, last, d_last, n + 1 =>
    match b[last - 1]?, b[d_last - 1]? with
    | some (some x), some (some _) =>
      if E.moveAssignThrows x then (b, some .elem_throw)
      else move_backward E ((b.set (d_last - 1) (some x)).set (last - 1) (some (E.movedFrom x)))
        (last - 1) (d_last - 1) n
    | _, _ => (b, some .undefined)

/-! ## RawMemory -/

/-- Class `RawMemory<T>`: the owned block (`none` = `nullptr`) and the capacity it was asked for. -/
structure RawMemory (T : Type) where
  /-- Member `T* buffer_ = nullptr`. -/
  buffer_ : Option (Block T) := none
  /-- Member `size_t capacity_ = 0`. -/
  capacity_ : Nat := 0
  deriving DecidableEq, Repr

namespace RawMemory

/-- Byte count `n * sizeof(T)` as computed in `size_t`. -/
def allocBytes {T : Type} (E : Env T) (n : Nat) : Nat :=
  (n * E.sizeofT) % SIZE_MOD

/-- Call `operator new(bytes)`: a fresh block of `bytes` bytes, all of it uninitialised; it
has room for `bytes / sizeof(T)` objects. -/
def operator_new {T : Type} (E : Env T) (bytes : Nat) : Except Err (Block T) :=
  if E.newThrows bytes then .error .bad_alloc
  else .ok (List.replicate (bytes / E.sizeofT) none)

/-- Method `static T* Allocate(size_t n)`. -/
def Allocate {T : Type} (E : Env T) (n : Nat) : Except Err (Option (Block T)) :=
  if n ≠ 0 then
    match operator_new E (allocBytes E n) with
    | .ok b => .ok (some b)
    | .error e => .error e
  else .ok none

/-- Method `static void Deallocate(T* buf)`: the blocks released (none for `nullptr`), with
their slots as they are at that moment. -/
def Deallocate {T : Type} (buf : Option (Block T)) : List (Block T) :=
  buf.toList

/-- Constructor `explicit RawMemory(size_t capacity)`. -/
def create {T : Type} (E : Env T) (capacity : Nat) : Except Err (RawMemory T) :=
  match Allocate E capacity with
  | .ok buf => .ok ⟨buf, capacity⟩
  | .error e => .error e

/-- Method `void Swap(RawMemory& other)`: returns `(*this, other)` afterwards. -/
def Swap {T : Type} (this other : RawMemory T) : RawMemory T × RawMemory T :=
  (⟨other.buffer_, other.capacity_⟩, ⟨this.buffer_, this.capacity_⟩)

/-- Constructor `RawMemory(RawMemory&& other)`: the new object is default-initialised and swapped
with `other`; returns `(new object, other)` afterwards. -/
def moveCtor {T : Type} (other : RawMemory T) : RawMemory T × RawMemory T :=
  Swap {} other

/-- Operator `RawMemory& operator=(RawMemory&& other)`: returns `(*this, other)` afterwards. -/
def moveAssign {T : Type} (this other : RawMemory T) : RawMemory T × RawMemory T :=
  Swap this other

/-- Destructor `~RawMemory()`: the blocks released. -/
def destroy {T : Type} (this : RawMemory T) : List (Block T) :=
  Deallocate this.buffer_

/-- Operator `T* operator+(size_t offset)`. -/
def add {T : Type} (this : RawMemory T) (offset : Nat) : Except Err Nat :=
  if offset ≤ this.capacity_ then .ok offset else .error .assert_fail

/-- Operator `T& operator[](size_t index)`: the slot referred to. -/
def index {T : Type} (this : RawMemory T) (index : Nat) : Except Err Nat :=
  if index < this.capacity_ then .ok index else .error .assert_fail

/-- Method `size_t Capacity() const`. -/
def Capacity {T : Type} (this : RawMemory T) : Nat :=
  this.capacity_

/-- Slots reachable through `GetAddress()` (none through `nullptr`). -/
def slots {T : Type} (this : RawMemory T) : Block T :=
  this.buffer_.getD []

/-- The same `RawMemory` after the memory behind `buffer_` has been changed to `b`. -/
def put {T : Type} (this : RawMemory T) (b : Block T) : RawMemory T :=
  ⟨this.buffer_.map (fun _ => b), this.capacity_⟩

end RawMemory

/-! ## Vector -/

/-- Class `Vector<T>`: the storage and the number of live elements. -/
structure Vector (T : Type) where
  /-- Member `RawMemory<T> data_`. -/
  data_ : RawMemory T := {}
  /-- Member `size_t size_ = 0`. -/
  size_ : Nat := 0
  deriving DecidableEq, Repr

/-- What a call on a container leaves behind. -/
structure Res (T R : Type) where
  /-- The container after the call. -/
  vec : Vector T
  /-- The value returned, or the failure that reaches the caller. -/
  ret : Except Err R
  /-- Copy constructor calls completed inside `InitUninitData` during the call. -/
  copies : Nat
  /-- Move constructor calls completed inside `InitUninitData` during the call. -/
  moves : Nat
  /-- Blocks handed to `Deallocate` during the call, with their slots at that moment. -/
  freed : List (Block T)
  deriving DecidableEq

namespace Vector

/-- A call that relocated nothing and released nothing. -/
def plain {T R : Type} (v : Vector T) (r : Except Err R) : Res T R :=
  ⟨v, r, 0, 0, []⟩

/-- Slots reachable through `data_.GetAddress()`. -/
def slots {T : Type} (this : Vector T) : Block T :=
  this.data_.slots

/-- The container after the memory of its block has been changed to `b`. -/
def put {T : Type} (this : Vector T) (b : Block T) : Vector T :=
  ⟨this.data_.put b, this.size_⟩

/-- Method `size_t Size() const noexcept`. -/
def Size {T : Type} (this : Vector T) : Nat :=
  this.size_

/-- Method `size_t Capacity() const noexcept`. -/
def Capacity {T : Type} (this : Vector T) : Nat :=
  this.data_.Capacity

/-- Method `iterator begin() noexcept`. -/
def begin_ {T : Type} (_this : Vector T) : Nat :=
  0

/-- Method `iterator end() noexcept`: `data_ + size_`. -/
def end_ {T : Type} (this : Vector T) : Except Err Nat :=
  this.data_.add this.size_

/-- The condition of `if constexpr` in `InitUninitData`. -/
def relocateByMove {T : Type} (E : Env T) : Bool :=
  E.is_nothrow_move_constructible || !E.is_copy_constructible

/-- Method `void InitUninitData(iterator source_pos, size_t len, iterator destion_pos)`,
from slot `source_pos` of block `src` to slot `destion_pos` of block `dst`. -/
def InitUninitData {T : Type} (E : Env T) (src : Block T) (source_pos len : Nat)
    (dst : Block T) (destion_pos : Nat) : Xfer T :=
  if relocateByMove E then uninitialized_move_n E src source_pos len dst destion_pos
  else uninitialized_copy_n E src source_pos len dst destion_pos

/-- Copy constructor calls that completed in a bulk construction, as its outcome
records them. -/
def copiesOf {T : Type} (x : Xfer T) : Nat :=
  match x.kind with
  | .copy => x.built
  | .move => 0

/-- Move constructor calls that completed in a bulk construction, as its outcome
records them. -/
def movesOf {T : Type} (x : Xfer T) : Nat :=
  match x.kind with
  | .copy => 0
  | .move => x.built

/-- Constructor `Vector() noexcept = default`. -/
def empty {T : Type} : Vector T :=
  {}

/-- Constructor `explicit Vector(size_t size)`. -/
def create {T : Type} (E : Env T) (size : Nat) : Except Err (Vector T) :=
  match RawMemory.create E size with
  | .error e => .error e
  | .ok data =>
    match uninitialized_value_construct_n E data.slots 0 size with
    | (b, none) => .ok ⟨data.put b, size⟩
    | (_, some e) => .error e

/-- Constructor `Vector(const Vector& other)`: returns the new object, or the failure,
and `other` afterwards. -/
def copyCtor {T : Type} (E : Env T) (other : Vector T) : Except Err (Vector T) × Vector T :=
  match RawMemory.create E other.size_ with
  | .error e => (.error e, other)
  | .ok data =>
    let x := uninitialized_copy_n E other.data_.slots 0 other.size_ data.slots 0
    match x.err with
    | none => (.ok ⟨data.put x.dst, other.size_⟩, other.put x.src)
    | some e => (.error e, other.put x.src)

/-- Constructor `Vector(Vector&& other) noexcept`: returns `(new object, other)` afterwards. -/
def moveCtor {T : Type} (other : Vector T) : Vector T × Vector T :=
  let m := RawMemory.moveCtor other.data_
  (⟨m.1, other.size_⟩, ⟨m.2, 0⟩)

/-- Destructor `~Vector()`, followed by the destructor of `data_`: the blocks released. -/
def destroy {T : Type} (this : Vector T) : List (Block T) :=
  (this.data_.put (destroy_n this.data_.slots 0 this.size_)).destroy

/-- Operator `T& operator[](size_t index) noexcept`: the slot referred to. -/
def index {T : Type} (this : Vector T) (index : Nat) : Except Err Nat :=
  if index < this.size_ then this.data_.index index else .error .assert_fail

/-- Reading through `operator[]`: the value of the element at `index`. -/
def read {T : Type} (this : Vector T) (index : Nat) : Except Err T :=
  match this.index index with
  | .error e => .error e
  | .ok p =>
    match this.slots[p]? with
    | some (some x) => .ok x
    | _ => .error .undefined

/-- Writing through `operator[]`: `v[index] = x`. -/
def write {T : Type} (this : Vector T) (index : Nat) (x : T) : Except Err (Vector T) :=
  match this.index index with
  | .error e => .error e
  | .ok p =>
    match this.slots[p]? with
    | some (some _) => .ok (this.put (this.slots.set p (some x)))
    | _ => .error .undefined

/-- The loop `for (size_t i = 0; i < n; ++i) data_[i] = other[i];` of copy assignment:
`i` is the current index, the first argument the number of iterations left. -/
def copy_assign_loop {T : Type} (E : Env T) (other : Vector T) (cap : Nat) :
    Nat → Nat → Block T → Block T × Option Err
  | 0, _, b => (b, none)
  | n + 1, i, b =>
    match other.index i with
    | .error e => (b, some e)
    | .ok q =>
      if i < cap then
        match other.slots[q]?, b[i]? with
        | some (some x), some (some _) =>
          if E.copyAssignThrows x then (b, some .elem_throw)
          else copy_assign_loop E other cap n (i + 1) (b.set i (some x))
        | _, _ => (b, some .undefined)
      else (b, some .assert_fail)

/-- Method `void Swap(Vector& other) noexcept`: returns `(*this, other)` afterwards. -/
def Swap {T : Type} (this other : Vector T) : Vector T × Vector T :=
  let m := this.data_.Swap other.data_
  (⟨m.1, other.size_⟩, ⟨m.2, this.size_⟩)

/-- Operator `Vector& operator=(const Vector& other)`; `same` says that `this == &other`.
Returns what the call leaves of `*this`, and `other` afterwards. -/
def copyAssign {T : Type} (E : Env T) (this other : Vector T) (same : Bool) :
    Res T Unit × Vector T :=
  if same then (plain this (.ok ()), other)
  else if this.data_.Capacity < other.size_ then
    match copyCtor E other with
    | (.error e, other1) => (plain this (.error e), other1)
    | (.ok copy, other1) =>
      (⟨(this.Swap copy).1, .ok (), 0, 0, (this.Swap copy).2.destroy⟩, other1)
  else if this.size_ ≥ other.size_ then
    match copy_assign_loop E other this.data_.capacity_ other.size_ 0 this.slots with
    | (b, some e) => (plain (this.put b) (.error e), other)
    | (b, none) =>
      (plain ⟨this.data_.put (destroy_n b other.size_ (this.size_ - other.size_)), other.size_⟩
        (.ok ()), other)
  else
    match copy_assign_loop E other this.data_.capacity_ this.size_ 0 this.slots with
    | (b, some e) => (plain (this.put b) (.error e), other)
    | (b, none) =>
      let x := uninitialized_copy_n E other.data_.slots this.size_ (other.size_ - this.size_)
        b this.size_
      match x.err with
      | some e => (plain (this.put x.dst) (.error e), other.put x.src)
      | none => (plain ⟨this.data_.put x.dst, other.size_⟩ (.ok ()), other.put x.src)

/-- Operator `Vector& operator=(Vector&& other) noexcept` on two distinct objects:
returns `(*this, other)` afterwards. -/
def moveAssign {T : Type} (this other : Vector T) : Vector T × Vector T :=
  let m := this.data_.moveAssign other.data_
  (⟨m.1, other.size_⟩, ⟨m.2, 0⟩)

/-- Operator `Vector& operator=(Vector&& other) noexcept` when `other` is `*this`. -/
def moveAssignSelf {T : Type} (this : Vector T) : Vector T :=
  ⟨(this.data_.moveAssign this.data_).1, 0⟩

/-- Method `void Reserve(size_t new_capacity)`. -/
def Reserve {T : Type} (E : Env T) (this : Vector T) (new_capacity : Nat) : Res T Unit :=
  if new_capacity ≤ this.data_.Capacity then plain this (.ok ())
  else
    match RawMemory.create E new_capacity with
    | .error e => plain this (.error e)
    | .ok new_data =>
      let x := InitUninitData E this.data_.slots 0 this.size_ new_data.slots 0
      match x.err with
      | some e =>
        ⟨this.put x.src, .error e, copiesOf x, movesOf x, (new_data.put x.dst).destroy⟩
      | none =>
        let old := this.data_.put (destroy_n x.src 0 this.size_)
        let m := old.Swap (new_data.put x.dst)
        ⟨⟨m.1, this.size_⟩, .ok (), copiesOf x, movesOf x, m.2.destroy⟩

/-- Method `void Resize(size_t new_size)`. -/
def Resize {T : Type} (E : Env T) (this : Vector T) (new_size : Nat) : Res T Unit :=
  if new_size < this.size_ then
    plain ⟨this.data_.put (destroy_n this.data_.slots new_size (this.size_ - new_size)), new_size⟩
      (.ok ())
  else if new_size > this.size_ then
    let r := Reserve E this new_size
    match r.ret with
    | .error e => ⟨r.vec, .error e, r.copies, r.moves, r.freed⟩
    | .ok _ =>
      match uninitialized_value_construct_n E r.vec.data_.slots this.size_
          (new_size - this.size_) with
      | (b, some e) => ⟨r.vec.put b, .error e, r.copies, r.moves, r.freed⟩
      | (b, none) => ⟨⟨r.vec.data_.put b, new_size⟩, .ok (), r.copies, r.moves, r.freed⟩
  else plain ⟨this.data_, new_size⟩ (.ok ())

/-- Capacity chosen when a full container grows: `size_ == 0 ? 1 : size_ * 2`. -/
def grownCapacity {T : Type} (this : Vector T) : Nat :=
  if this.size_ = 0 then 1 else (this.size_ * 2) % SIZE_MOD

/-- Method `T& EmplaceBack(Args&&... args)`; `args` is the value `T(args...)` builds,
`none` when that constructor throws.  Returns the slot of the new element. -/
def EmplaceBack {T : Type} (E : Env T) (this : Vector T) (args : Option T) : Res T Nat :=
  if this.size_ = this.Capacity then
    match RawMemory.create E this.grownCapacity with
    | .error e => plain this (.error e)
    | .ok new_data =>
      match new_data.add this.size_ with
      | .error e => ⟨this, .error e, 0, 0, new_data.destroy⟩
      | .ok ptr_new_elem =>
        match construct_at new_data.slots ptr_new_elem args with
        | .error e => ⟨this, .error e, 0, 0, new_data.destroy⟩
        | .ok b =>
          let x := InitUninitData E this.data_.slots 0 this.size_ b 0
          match x.err with
          | some e =>
            ⟨this.put x.src, .error e, copiesOf x, movesOf x, (new_data.put x.dst).destroy⟩
          | none =>
            let old := this.data_.put (destroy_n x.src 0 this.size_)
            let m := old.Swap (new_data.put x.dst)
            ⟨⟨m.1, this.size_ + 1⟩, .ok ptr_new_elem, copiesOf x, movesOf x, m.2.destroy⟩
  else
    match this.data_.add this.size_ with
    | .error e => plain this (.error e)
    | .ok ptr_new_elem =>
      match construct_at this.data_.slots ptr_new_elem args with
      | .error e => plain this (.error e)
      | .ok b => plain ⟨this.data_.put b, this.size_ + 1⟩ (.ok ptr_new_elem)

/-- Method `void PushBack(S&& value)` called with an lvalue: the element is copy-constructed. -/
def PushBack {T : Type} (E : Env T) (this : Vector T) (value : T) : Res T Unit :=
  let r := EmplaceBack E this ((E.copyCtor value).map Prod.fst)
  ⟨r.vec, r.ret.map (fun _ => ()), r.copies, r.moves, r.freed⟩

/-- Method `void PushBack(S&& value)` called with an rvalue: the element is move-constructed. -/
def PushBackMove {T : Type} (E : Env T) (this : Vector T) (value : T) : Res T Unit :=
  let r := EmplaceBack E this ((E.moveCtor value).map Prod.fst)
  ⟨r.vec, r.ret.map (fun _ => ()), r.copies, r.moves, r.freed⟩

/-- Method `void PopBack() noexcept` (precondition: the container is not empty). -/
def PopBack {T : Type} (this : Vector T) : Vector T :=
  ⟨this.data_.put (destroy_n this.data_.slots (this.size_ - 1) 1), this.size_ - 1⟩

/-- What the two `catch (...)` blocks of `Emplace` do with the outcome of a transfer:
an exception is handled by `std::destroy_n(p, n)` on the new block and is not rethrown. -/
def catchAll {T : Type} (E : Env T) (x : Xfer T) (p n : Nat) : Xfer T :=
  match x.err with
  | some .elem_throw =>
    if destroy_defined E x.dst p n then ⟨x.src, destroy_n x.dst p n, x.built, none, x.kind⟩
    else ⟨x.src, x.dst, x.built, some .undefined, x.kind⟩
  | _ => x

/-- Method `iterator Emplace(const_iterator pos, Args&&... args)`; `pos` is the slot the
iterator points to, `args` the value `T(args...)` builds (`none` when that constructor
throws).  Returns the slot of the new element. -/
def Emplace {T : Type} (E : Env T) (this : Vector T) (pos : Nat) (args : Option T) : Res T Nat :=
  let i_pos := pos - this.begin_
  let ptr_pos_elem := this.begin_ + i_pos
  if this.size_ = this.Capacity then
    match RawMemory.create E this.grownCapacity with
    | .error e => plain this (.error e)
    | .ok new_data =>
      match new_data.add i_pos with
      | .error e => ⟨this, .error e, 0, 0, new_data.destroy⟩
      | .ok ptr_new_elem =>
        match construct_at new_data.slots ptr_new_elem args with
        | .error e => ⟨this, .error e, 0, 0, new_data.destroy⟩
        | .ok b =>
          let x1 := catchAll E (InitUninitData E this.data_.slots this.begin_ i_pos b 0)
            ptr_new_elem 1
          match x1.err with
          | some e =>
            ⟨this.put x1.src, .error e, copiesOf x1, movesOf x1,
              (new_data.put x1.dst).destroy⟩
          | none =>
            match this.end_ with
            | .error e =>
              ⟨this.put x1.src, .error e, copiesOf x1, movesOf x1,
                (new_data.put x1.dst).destroy⟩
            | .ok cend =>
              let x2 := catchAll E (InitUninitData E x1.src ptr_pos_elem (cend - pos) x1.dst
                (ptr_new_elem + 1)) 0 (i_pos + 1)
              match x2.err with
              | some e =>
                ⟨this.put x2.src, .error e, copiesOf x1 + copiesOf x2,
                  movesOf x1 + movesOf x2, (new_data.put x2.dst).destroy⟩
              | none =>
                let old := this.data_.put (destroy_n x2.src 0 this.size_)
                let m := old.Swap (new_data.put x2.dst)
                ⟨⟨m.1, this.size_ + 1⟩, .ok ptr_new_elem, copiesOf x1 + copiesOf x2,
                  movesOf x1 + movesOf x2, m.2.destroy⟩
  else
    match this.end_ with
    | .error e => plain this (.error e)
    | .ok end_ =>
      if pos ≠ end_ then
        match args with
        | none => plain this (.error .elem_throw)
        | some tmp_new_elem =>
          match this.slots[end_ - 1]? with
          | some (some last) =>
            match construct_at this.slots end_ ((E.moveCtor last).map Prod.fst) with
            | .error e => plain this (.error e)
            | .ok b0 =>
              let b1 := b0.set (end_ - 1) (some (E.movedFrom last))
              match move_backward E b1 (end_ - 1) end_ (end_ - 1 - ptr_pos_elem) with
              | (b2, some e) => plain (this.put b2) (.error e)
              | (b2, none) =>
                match b2[ptr_pos_elem]? with
                | some (some _) =>
                  if E.moveAssignThrows tmp_new_elem then plain (this.put b2) (.error .elem_throw)
                  else
                    plain ⟨this.data_.put (b2.set ptr_pos_elem (some tmp_new_elem)),
                      this.size_ + 1⟩ (.ok ptr_pos_elem)
                | _ => plain (this.put b2) (.error .undefined)
          | _ => plain this (.error .undefined)
      else
        match construct_at this.slots ptr_pos_elem args with
        | .error e => plain this (.error e)
        | .ok b => plain ⟨this.data_.put b, this.size_ + 1⟩ (.ok ptr_pos_elem)

/-- Method `iterator Erase(const_iterator pos)`; `pos` is the slot the iterator points to.
Returns the slot that followed the erased element, now at `pos`.  The destructor call
`std::destroy_n(std::next(end()), 1)` is made on slot `size_ + 1`. -/
def Erase {T : Type} (E : Env T) (this : Vector T) (pos : Nat) : Res T Nat :=
  let i_pos := pos - this.begin_
  let ptr_pos_elem := this.begin_ + i_pos
  match this.end_ with
  | .error e => plain this (.error e)
  | .ok end_ =>
    match move_range E this.slots (ptr_pos_elem + 1) ptr_pos_elem (end_ - (ptr_pos_elem + 1)) with
    | (b, some e) => plain (this.put b) (.error e)
    | (b, none) =>
      if destroy_defined E b (end_ + 1) 1 then
        plain ⟨this.data_.put (destroy_n b (end_ + 1) 1), this.size_ - 1⟩ (.ok ptr_pos_elem)
      else plain (this.put b) (.error .undefined)

/-- Method `iterator Insert(const_iterator pos, const T& value)`; `value` is the value of
the object referred to when the call is made. -/
def Insert {T : Type} (E : Env T) (this : Vector T) (pos : Nat) (value : T) : Res T Nat :=
  Emplace E this pos ((E.copyCtor value).map Prod.fst)

/-- Method `iterator Insert(const_iterator pos, T&& value)`, for an object `value` that
is not an element of the container. -/
def InsertMove {T : Type} (E : Env T) (this : Vector T) (pos : Nat) (value : T) : Res T Nat :=
  Emplace E this pos ((E.moveCtor value).map Prod.fst)

/-- Calls `PushBack` with each value of the list in turn: the container at the end and
the capacity after each call. -/
def appendAll {T : Type} (E : Env T) : Vector T → List T → Vector T × List Nat
  | v, [] => (v, [])
  | v, x :: xs =>
    ((appendAll E (v.PushBack E x).vec xs).1,
      (v.PushBack E x).vec.Capacity :: (appendAll E (v.PushBack E x).vec xs).2)

/-- The values in slots `0 .. size_-1`, the logical content of the container. -/
def elems {T : Type} (this : Vector T) : List T :=
  (this.slots.take this.size_).reduceOption

end Vector
/-! ## Sequences of calls -/

/-- The call `Insert(begin() + i, x)` followed by `Erase(begin() + i)`: the container
afterwards, or the first failure. -/
def insertThenErase {T : Type} (E : Env T) (v : Vector T) (i : Nat) (x : T) :
    Except Err (Vector T) :=
  match (v.Insert E i x).ret with
  | .error e => .error e
  | .ok _ =>
    match ((v.Insert E i x).vec.Erase E i).ret with
    | .error e => .error e
    | .ok _ => .ok ((v.Insert E i x).vec.Erase E i).vec

/-- The pair of calls `insertThenErase` made `k` times in a row. -/
def roundTrips {T : Type} (E : Env T) (i : Nat) (x : T) : Nat → Vector T → Except Err (Vector T)
  | 0, v => .ok v
  | k + 1, v =>
    match insertThenErase E v i x with
    | .error e => .error e
    | .ok v1 => roundTrips E i x k v1

/-- What a run of appends did. -/
structure AppendStats (T : Type) where
  /-- The container at the end. -/
  vec : Vector T
  /-- Number of calls that found `size_ == Capacity()` and moved to new storage. -/
  reallocations : Nat
  /-- Number of existing elements relocated by `InitUninitData` over all the calls. -/
  transfers : Nat
  deriving DecidableEq

/-- Calls `EmplaceBack` with each value of the list in turn, counting the reallocations
and the elements they relocate; the first failure ends the run. -/
def appendCount {T : Type} (E : Env T) : Vector T → List T → Except Err (AppendStats T)
  | v, [] => .ok ⟨v, 0, 0⟩
  | v, x :: xs =>
    match (v.EmplaceBack E (some x)).ret with
    | .error e => .error e
    | .ok _ =>
      match appendCount E (v.EmplaceBack E (some x)).vec xs with
      | .error e => .error e
      | .ok s =>
        .ok ⟨s.vec, (if v.size_ = v.Capacity then 1 else 0) + s.reallocations,
          (v.EmplaceBack E (some x)).copies + (v.EmplaceBack E (some x)).moves + s.transfers⟩

/-! ## Predicates used to state the properties -/

/-- A request for storage of `n` elements goes through: `n * sizeof(T)` does not wrap
and `operator new` grants it. -/
def Env.AllocOk {T : Type} (E : Env T) (n : Nat) : Prop :=
  0 < E.sizeofT ∧ n * E.sizeofT < SIZE_MOD ∧ E.newThrows (n * E.sizeofT) = false

/-- The constructor `InitUninitData` relocates with: the move constructor when
`relocateByMove`, the copy constructor otherwise. -/
def Env.relocCtor {T : Type} (E : Env T) : T → Option (T × T) :=
  if Vector.relocateByMove E then E.moveCtor else E.copyCtor

/-- Which constructor that is. -/
def Env.relocKind {T : Type} (E : Env T) : CtorKind :=
  if Vector.relocateByMove E then .move else .copy

/-- Relocating the values of `l` does not throw. -/
def Env.RelocOk {T : Type} (E : Env T) (l : List T) : Prop :=
  ∀ a ∈ l, (E.relocCtor a).isSome = true

/-- Move-assigning from the values of `l` does not throw. -/
def Env.MoveAssignOk {T : Type} (E : Env T) (l : List T) : Prop :=
  ∀ a ∈ l, E.moveAssignThrows a = false

/-- Copying the values of `l`, by construction or by assignment, does not throw. -/
def Env.CopyOk {T : Type} (E : Env T) (l : List T) : Prop :=
  ∀ a ∈ l, E.copyThrows a = false ∧ E.copyAssignThrows a = false

/-- Moving the values of `l`, by construction or by assignment, does not throw. -/
def Env.MoveOk {T : Type} (E : Env T) (l : List T) : Prop :=
  ∀ a ∈ l, E.moveThrows a = false ∧ E.moveAssignThrows a = false

/-- The container holds exactly the elements `l`: its size is their number, its block
has `capacity_` slots, and slots `0 .. size_-1` hold live objects with the values of `l`. -/
def Vector.Holds {T : Type} (v : Vector T) (l : List T) : Prop :=
  v.size_ = l.length ∧ v.slots.length = v.data_.capacity_ ∧
    v.slots.take v.size_ = l.map some

/-- Whether a container holds `l` can be computed. -/
instance Vector.instDecidableHolds {T : Type} [DecidableEq T] (v : Vector T) (l : List T) :
    Decidable (v.Holds l) := by
  unfold Vector.Holds; infer_instance

/-- Whether a request goes through can be computed. -/
instance Env.instDecidableAllocOk {T : Type} (E : Env T) (n : Nat) : Decidable (E.AllocOk n) := by
  unfold Env.AllocOk; infer_instance

/-- Whether relocating the values of a list throws can be computed. -/
instance Env.instDecidableRelocOk {T : Type} (E : Env T) (l : List T) :
    Decidable (E.RelocOk l) := by
  unfold Env.RelocOk; infer_instance

/-- Whether move assignment from the values of a list throws can be computed. -/
instance Env.instDecidableMoveAssignOk {T : Type} (E : Env T) (l : List T) :
    Decidable (E.MoveAssignOk l) := by
  unfold Env.MoveAssignOk; infer_instance

/-- Whether copying the values of a list throws can be computed. -/
instance Env.instDecidableCopyOk {T : Type} (E : Env T) (l : List T) :
    Decidable (E.CopyOk l) := by
  unfold Env.CopyOk; infer_instance

/-- Whether moving the values of a list throws can be computed. -/
instance Env.instDecidableMoveOk {T : Type} (E : Env T) (l : List T) :
    Decidable (E.MoveOk l) := by
  unfold Env.MoveOk; infer_instance

/-! ## Concrete element types used as examples -/

/-- An element type like `int`: four bytes, nothing throws, a moved-from object keeps its
value, `T()` is `0`; every allocation is granted. -/
def intEnv : Env Nat where
  sizeofT := 4
  is_nothrow_move_constructible := true
  is_copy_constructible := true
  is_trivially_destructible := true
  copyThrows := fun _ => false
  moveThrows := fun _ => false
  movedFrom := fun x => x
  copyAssignThrows := fun _ => false
  moveAssignThrows := fun _ => false
  valueInit := some 0
  newThrows := fun _ => false

/-- A copyable element type whose move constructor is not `noexcept` (so relocation
copies) and whose copy constructor throws when the value copied is `13`; its destructor
is not trivial. -/
def throwingEnv : Env Nat where
  sizeofT := 4
  is_nothrow_move_constructible := false
  is_copy_constructible := true
  is_trivially_destructible := false
  copyThrows := fun x => x == 13
  moveThrows := fun _ => false
  movedFrom := fun _ => 0
  copyAssignThrows := fun _ => false
  moveAssignThrows := fun _ => false
  valueInit := some 0
  newThrows := fun _ => false

/-- An element type like `int` on a heap that grants no request above 16 bytes. -/
def tightHeapEnv : Env Nat where
  sizeofT := 4
  is_nothrow_move_constructible := true
  is_copy_constructible := true
  is_trivially_destructible := true
  copyThrows := fun _ => false
  moveThrows := fun _ => false
  movedFrom := fun x => x
  copyAssignThrows := fun _ => false
  moveAssignThrows := fun _ => false
  valueInit := some 0
  newThrows := fun bytes => decide (16 < bytes)

/-- An element type like `std::string`: 32 bytes, a `noexcept` move constructor that
leaves the source empty (value `0`), nothing throws, and a destructor that is not trivial
(it releases what the object owns); every allocation is granted. -/
def stringEnv : Env Nat where
  sizeofT := 32
  is_nothrow_move_constructible := true
  is_copy_constructible := true
  is_trivially_destructible := false
  copyThrows := fun _ => false
  moveThrows := fun _ => false
  movedFrom := fun _ => 0
  copyAssignThrows := fun _ => false
  moveAssignThrows := fun _ => false
  valueInit := some 0
  newThrows := fun _ => false

/-- An element type that can only be moved: its copy constructor is deleted, its move
constructor is not declared `noexcept` and throws when the value moved is `13`, and a
moved-from object is empty (value `0`). -/
def moveOnlyEnv : Env Nat where
  sizeofT := 8
  is_nothrow_move_constructible := false
  is_copy_constructible := false
  is_trivially_destructible := false
  copyThrows := fun _ => true
  moveThrows := fun x => x == 13
  movedFrom := fun _ => 0
  copyAssignThrows := fun _ => true
  moveAssignThrows := fun _ => false
  valueInit := some 0
  newThrows := fun _ => false

/-- A container of capacity `cap` whose first slots hold the values of `l`. -/
def mkVector {T : Type} (l : List T) (cap : Nat) : Vector T :=
  ⟨⟨if cap = 0 then none else some (l.map some ++ List.replicate (cap - l.length) none), cap⟩,
    l.length⟩

end AdvancedVector

/-! ## Lemmas on the memory algorithms -/

namespace AdvancedVector

theorem destroy_n_length {T : Type} (n : Nat) : ∀ (b : Block T) (p : Nat),
    (destroy_n b p n).length = b.length := by
  induction n with
  | zero => intro b p; rfl
  | succ n ih => intro b p; simp [destroy_n, ih]

theorem destroy_n_getElem? {T : Type} (n : Nat) : ∀ (b : Block T) (p j : Nat),
    (destroy_n b p n)[j]? =
      if p ≤ j ∧ j < p + n ∧ j < b.length then some none else b[j]? := by
  induction n with
  | zero =>
    intro b p j
    rw [if_neg (by omega)]
    rfl
  | succ n ih =>
    intro b p j
    simp only [destroy_n, ih, List.length_set, List.getElem?_set]
    by_cases h1 : p = j
    · subst h1
      by_cases h2 : p < b.length
      · simp [h2]
      · have h3 : b[p]? = none := List.getElem?_eq_none (by omega)
        simp [h2, h3]
    · by_cases h2 : p + 1 ≤ j ∧ j < p + 1 + n ∧ j < b.length
      · have h3 : p ≤ j ∧ j < p + (n + 1) ∧ j < b.length := by omega
        simp [h2, h3]
      · have h3 : ¬ (p ≤ j ∧ j < p + (n + 1) ∧ j < b.length) := by omega
        simp [h1, h2, h3]

theorem destroy_n_getElem?_outside {T : Type} (b : Block T) (p n j : Nat)
    (h : j < p ∨ p + n ≤ j) : (destroy_n b p n)[j]? = b[j]? := by
  rw [destroy_n_getElem?]
  have : ¬ (p ≤ j ∧ j < p + n ∧ j < b.length) := by omega
  simp [this]

/-- A completed run of the construction loop: no failure, `n` more objects built, the
destination slots `d+done .. d+done+n-1` now hold what the source slots
`s+done .. s+done+n-1` held, and both blocks are otherwise as before. -/
theorem uninitialized_loop_ok {T : Type} (kind : CtorKind) (build : T → Option (T × T)) (s d : Nat) (n : Nat) :
    ∀ (done : Nat) (src dst : Block T),
    (∀ k, k < n → ∃ x, src[s + done + k]? = some (some x) ∧ (build x).map Prod.fst = some x) →
    d + done + n ≤ dst.length →
    (uninitialized_loop kind build s d n done src dst).err = none ∧
    (uninitialized_loop kind build s d n done src dst).built = done + n ∧
    (uninitialized_loop kind build s d n done src dst).dst.length = dst.length ∧
    (uninitialized_loop kind build s d n done src dst).src.length = src.length ∧
    (∀ j, (uninitialized_loop kind build s d n done src dst).dst[j]? =
      if d + done ≤ j ∧ j < d + done + n then src[s + (j - d)]? else dst[j]?) ∧
    (∀ j, (j < s + done ∨ s + done + n ≤ j) →
      (uninitialized_loop kind build s d n done src dst).src[j]? = src[j]?) := by
  induction n with
  | zero =>
    intro done src dst _ _
    refine ⟨rfl, rfl, rfl, rfl, ?_, fun _ _ => rfl⟩
    intro j
    rw [if_neg (by omega)]
    rfl
  | succ n ih =>
    intro done src dst hsrc hlen
    obtain ⟨x, hx, hb⟩ := hsrc 0 (by omega)
    simp only [Nat.add_zero] at hx
    obtain ⟨⟨y, r⟩, hyr, hy⟩ := Option.map_eq_some'.mp hb
    simp only at hy
    subst hy
    have hlt : d + done < dst.length := by omega
    have hstep : uninitialized_loop kind build s d (n + 1) done src dst =
        uninitialized_loop kind build s d n (done + 1)
          (src.set (s + done) (some r)) (dst.set (d + done) (some y)) := by
      simp [uninitialized_loop, hx, hlt, hyr]
    rw [hstep]
    have hsrc2 : ∀ k, k < n → ∃ x, (src.set (s + done) (some r))[s + (done + 1) + k]? =
        some (some x) ∧ (build x).map Prod.fst = some x := by
      intro k hk
      obtain ⟨z, hz, hbz⟩ := hsrc (k + 1) (by omega)
      refine ⟨z, ?_, hbz⟩
      rw [List.getElem?_set_ne (by omega)]
      rw [← hz]
      congr 1
      omega
    have hlen2 : d + (done + 1) + n ≤ (dst.set (d + done) (some y)).length := by
      simp only [List.length_set]; omega
    obtain ⟨h1, h2, h3, h4, h5, h6⟩ := ih (done + 1) _ _ hsrc2 hlen2
    refine ⟨h1, by omega, by simpa using h3, by simpa using h4, ?_, ?_⟩
    · intro j
      rw [h5 j]
      by_cases hj : d + done = j
      · subst hj
        have e1 : ¬ (d + (done + 1) ≤ d + done ∧ d + done < d + (done + 1) + n) := by omega
        have e2 : d + done ≤ d + done ∧ d + done < d + done + (n + 1) := by omega
        have e3 : s + (d + done - d) = s + done := by omega
        simp only [e1, e2, if_false, if_true, e3, hx]
        simp [hlt]
      · by_cases hin : d + (done + 1) ≤ j ∧ j < d + (done + 1) + n
        · have e2 : d + done ≤ j ∧ j < d + done + (n + 1) := by omega
          simp only [hin, e2, and_self, if_true]
          rw [List.getElem?_set_ne (by omega)]
        · have e2 : ¬ (d + done ≤ j ∧ j < d + done + (n + 1)) := by omega
          simp only [hin, e2, if_false]
          rw [List.getElem?_set_ne hj]
    · intro j hj
      rw [h6 j (by omega)]
      rw [List.getElem?_set_ne (by omega)]


theorem create_ok {T : Type} (E : Env T) (n : Nat) (h : E.AllocOk n) (hn : n ≠ 0) :
    RawMemory.create E n = .ok ⟨some (List.replicate n none), n⟩ := by
  obtain ⟨hs, hlt, hnew⟩ := h
  simp [RawMemory.create, RawMemory.Allocate, RawMemory.operator_new, RawMemory.allocBytes, hn,
    Nat.mod_eq_of_lt hlt, hnew, Nat.mul_div_cancel n hs]

theorem InitUninitData_eq {T : Type} (E : Env T) (src : Block T) (s n : Nat) (dst : Block T)
    (d : Nat) :
    Vector.InitUninitData E src s n dst d = uninitialized_loop E.relocKind E.relocCtor s d n 0 src dst := by
  unfold Vector.InitUninitData Env.relocCtor Env.relocKind uninitialized_move_n
    uninitialized_copy_n
  split <;> rfl

theorem relocCtor_fst {T : Type} (E : Env T) (a : T) (h : (E.relocCtor a).isSome = true) :
    (E.relocCtor a).map Prod.fst = some a := by
  unfold Env.relocCtor at *
  by_cases hm : Vector.relocateByMove E = true
  · rw [if_pos hm] at h ⊢
    simp only [Env.moveCtor] at h ⊢
    by_cases ht : E.moveThrows a = true
    · simp [ht] at h
    · simp [ht]
  · rw [if_neg hm] at h ⊢
    simp only [Env.copyCtor] at h ⊢
    by_cases ht : E.copyThrows a = true
    · simp [ht] at h
    · simp [ht]

theorem Holds_getElem? {T : Type} {v : Vector T} {l : List T} (h : v.Holds l) (j : Nat)
    (hj : j < l.length) : v.slots[j]? = (l[j]?).map some := by
  obtain ⟨h1, _, h3⟩ := h
  have := congrArg (fun t => t[j]?) h3
  simp only [List.getElem?_take, List.getElem?_map] at this
  rw [if_pos (by omega)] at this
  exact this

theorem Holds_of_getElem? {T : Type} {v : Vector T} {l : List T} (h1 : v.size_ = l.length)
    (h2 : v.slots.length = v.data_.capacity_)
    (h3 : ∀ j, j < l.length → v.slots[j]? = (l[j]?).map some) : v.Holds l := by
  refine ⟨h1, h2, ?_⟩
  apply List.ext_getElem?
  intro j
  simp only [List.getElem?_take, List.getElem?_map]
  by_cases hj : j < l.length
  · rw [if_pos (by omega)]; exact h3 j hj
  · rw [if_neg (by omega)]
    rw [List.getElem?_eq_none (by omega)]
    rfl

theorem Holds_size_le {T : Type} {v : Vector T} {l : List T} (h : v.Holds l) :
    l.length ≤ v.data_.capacity_ := by
  obtain ⟨h1, h2, h3⟩ := h
  have := congrArg List.length h3
  simp only [List.length_take, List.length_map] at this
  omega

theorem Holds_live {T : Type} {v : Vector T} {l : List T} (h : v.Holds l) (j : Nat)
    (hj : j < l.length) : ∃ x, v.slots[j]? = some (some x) ∧ x ∈ l ∧ l[j]? = some x := by
  refine ⟨l[j], ?_, List.getElem_mem hj, List.getElem?_eq_getElem hj⟩
  rw [Holds_getElem? h j hj, List.getElem?_eq_getElem hj]
  rfl

theorem slots_mk {T : Type} (b : Block T) (c : Nat) :
    (⟨some b, c⟩ : RawMemory T).slots = b := rfl

theorem put_mk {T : Type} (b b2 : Block T) (c : Nat) :
    (⟨some b, c⟩ : RawMemory T).put b2 = ⟨some b2, c⟩ := rfl

theorem Reserve_grow {T : Type} (E : Env T) (v : Vector T) (l : List T) (m : Nat)
    (hv : v.Holds l) (hm : v.Capacity < m) (ha : E.AllocOk m) (hr : E.RelocOk l) :
    (v.Reserve E m).ret = .ok () ∧ (v.Reserve E m).vec.Holds l ∧
      (v.Reserve E m).vec.data_.capacity_ = m := by
  have hloop := uninitialized_loop_ok E.relocKind E.relocCtor 0 0 v.size_ 0 v.data_.slots
    (List.replicate m none)
    (by
      intro k hk
      obtain ⟨x, hx, hmem, _⟩ := Holds_live hv k (by rw [← hv.1]; exact hk)
      refine ⟨x, by simpa using hx, relocCtor_fst E x (hr x hmem)⟩)
    (by
      have := Holds_size_le hv
      have h1 := hv.1
      simp only [Vector.Capacity, RawMemory.Capacity] at hm
      simp only [List.length_replicate]; omega)
  obtain ⟨h1, h2, h3, h4, h5, h6⟩ := hloop
  have hm' : ¬ m ≤ v.data_.Capacity := by
    simp only [Vector.Capacity] at hm; omega
  have hm0 : m ≠ 0 := by omega
  unfold Vector.Reserve
  rw [if_neg hm', create_ok E m ha hm0]
  simp only [InitUninitData_eq, slots_mk, put_mk, h1, RawMemory.Swap]
  refine ⟨trivial, ?_, trivial⟩
  apply Holds_of_getElem?
  · exact hv.1
  · simp only [Vector.slots, slots_mk, h3, List.length_replicate]
  · intro j hj
    simp only [Vector.slots, slots_mk, h5]
    rw [if_pos (by have := hv.1; omega)]
    simpa [Vector.slots] using Holds_getElem? hv j hj


theorem move_range_shift_ok {T : Type} (E : Env T) (n : Nat) : ∀ (b : Block T) (p : Nat),
    (∃ y, b[p]? = some (some y)) →
    (∀ k, k < n → ∃ x, b[p + 1 + k]? = some (some x) ∧ E.moveAssignThrows x = false) →
    (move_range E b (p + 1) p n).2 = none ∧
    (move_range E b (p + 1) p n).1.length = b.length ∧
    (∀ j, j < p → (move_range E b (p + 1) p n).1[j]? = b[j]?) ∧
    (∀ j, p ≤ j → j < p + n → (move_range E b (p + 1) p n).1[j]? = b[j + 1]?) ∧
    (∃ y, (move_range E b (p + 1) p n).1[p + n]? = some (some y)) ∧
    (∀ j, p + n < j → (move_range E b (p + 1) p n).1[j]? = b[j]?) := by
  induction n with
  | zero =>
    intro b p hp _
    refine ⟨rfl, rfl, fun _ _ => rfl, ?_, hp, fun _ _ => rfl⟩
    intro j h1 h2
    omega
  | succ n ih =>
    intro b p ⟨y, hy⟩ hsrc
    obtain ⟨x, hx, hxt⟩ := hsrc 0 (by omega)
    simp only [Nat.add_zero] at hx
    have hp1 : p + 1 < b.length := by
      by_contra hc
      rw [List.getElem?_eq_none (by omega)] at hx
      cases hx
    have hstep : move_range E b (p + 1) p (n + 1) =
        move_range E ((b.set p (some x)).set (p + 1) (some (E.movedFrom x))) (p + 1 + 1) (p + 1) n := by
      simp [move_range, hx, hy, hxt]
    rw [hstep]
    have hd : ∃ y, ((b.set p (some x)).set (p + 1) (some (E.movedFrom x)))[p + 1]? =
        some (some y) := by
      refine ⟨E.movedFrom x, ?_⟩
      rw [List.getElem?_set_self (by simpa using hp1)]
    have hs : ∀ k, k < n → ∃ z, ((b.set p (some x)).set (p + 1) (some (E.movedFrom x)))[p + 1 + 1 + k]?
        = some (some z) ∧ E.moveAssignThrows z = false := by
      intro k hk
      obtain ⟨z, hz, hzt⟩ := hsrc (k + 1) (by omega)
      refine ⟨z, ?_, hzt⟩
      rw [List.getElem?_set_ne (by omega), List.getElem?_set_ne (by omega), ← hz]
      congr 1
      omega
    obtain ⟨h1, h2, h3, h4, h5, h6⟩ := ih _ (p + 1) hd hs
    refine ⟨h1, by simpa using h2, ?_, ?_, ?_, ?_⟩
    · intro j hj
      rw [h3 j (by omega), List.getElem?_set_ne (by omega), List.getElem?_set_ne (by omega)]
    · intro j hj1 hj2
      by_cases hjp : j = p
      · subst hjp
        rw [h3 j (by omega), List.getElem?_set_ne (by omega),
          List.getElem?_set_self (by omega), hx]
      · rw [h4 j (by omega) (by omega), List.getElem?_set_ne (by omega),
          List.getElem?_set_ne (by omega)]
    · obtain ⟨z, hz⟩ := h5
      refine ⟨z, ?_⟩
      rw [← hz]
      congr 1
      omega
    · intro j hj
      rw [h6 j (by omega), List.getElem?_set_ne (by omega), List.getElem?_set_ne (by omega)]

theorem move_backward_shift_ok {T : Type} (E : Env T) (p : Nat) (n : Nat) : ∀ (b : Block T),
    (∃ y, b[p + n]? = some (some y)) →
    (∀ k, k < n → ∃ x, b[p + k]? = some (some x) ∧ E.moveAssignThrows x = false) →
    (move_backward E b (p + n) (p + n + 1) n).2 = none ∧
    (move_backward E b (p + n) (p + n + 1) n).1.length = b.length ∧
    (∀ j, j < p → (move_backward E b (p + n) (p + n + 1) n).1[j]? = b[j]?) ∧
    (∃ y, (move_backward E b (p + n) (p + n + 1) n).1[p]? = some (some y)) ∧
    (∀ j, p < j → j ≤ p + n → (move_backward E b (p + n) (p + n + 1) n).1[j]? = b[j - 1]?) ∧
    (∀ j, p + n < j → (move_backward E b (p + n) (p + n + 1) n).1[j]? = b[j]?) := by
  induction n with
  | zero =>
    intro b hp _
    refine ⟨rfl, rfl, fun _ _ => rfl, hp, ?_, fun _ _ => rfl⟩
    intro j h1 h2
    omega
  | succ n ih =>
    intro b ⟨y, hy⟩ hsrc
    obtain ⟨x, hx, hxt⟩ := hsrc n (by omega)
    have hlen : p + (n + 1) < b.length := by
      by_contra hc
      rw [List.getElem?_eq_none (by omega)] at hy
      cases hy
    have e1 : p + (n + 1) - 1 = p + n := by omega
    have e2 : p + (n + 1) + 1 - 1 = p + (n + 1) := by omega
    have hstep : move_backward E b (p + (n + 1)) (p + (n + 1) + 1) (n + 1) =
        move_backward E ((b.set (p + (n + 1)) (some x)).set (p + n) (some (E.movedFrom x)))
          (p + n) (p + n + 1) n := by
      simp [move_backward, e1, e2, hx, hy, hxt]
      rfl
    rw [hstep]
    have hd : ∃ y, ((b.set (p + (n + 1)) (some x)).set (p + n) (some (E.movedFrom x)))[p + n]? =
        some (some y) := by
      refine ⟨E.movedFrom x, ?_⟩
      rw [List.getElem?_set_self (by simp only [List.length_set]; omega)]
    have hs : ∀ k, k < n → ∃ z,
        ((b.set (p + (n + 1)) (some x)).set (p + n) (some (E.movedFrom x)))[p + k]?
        = some (some z) ∧ E.moveAssignThrows z = false := by
      intro k hk
      obtain ⟨z, hz, hzt⟩ := hsrc k (by omega)
      refine ⟨z, ?_, hzt⟩
      rw [List.getElem?_set_ne (by omega), List.getElem?_set_ne (by omega), ← hz]
    obtain ⟨h1, h2, h3, h4, h5, h6⟩ := ih _ hd hs
    refine ⟨h1, by simpa using h2, ?_, h4, ?_, ?_⟩
    · intro j hj
      rw [h3 j (by omega), List.getElem?_set_ne (by omega), List.getElem?_set_ne (by omega)]
    · intro j hj1 hj2
      by_cases hjp : j = p + (n + 1)
      · subst hjp
        rw [h6 _ (by omega), List.getElem?_set_ne (by omega),
          List.getElem?_set_self (by omega), e1, hx]
      · rw [h5 j (by omega) (by omega), List.getElem?_set_ne (by omega),
          List.getElem?_set_ne (by omega)]
    · intro j hj
      rw [h6 j (by omega), List.getElem?_set_ne (by omega), List.getElem?_set_ne (by omega)]

theorem insert_getElem? {T : Type} (l : List T) (i : Nat) (x : T) (hi : i ≤ l.length) (j : Nat) :
    (l.take i ++ x :: l.drop i)[j]? =
      if j < i then l[j]? else if j = i then some x else l[j - 1]? := by
  rw [List.getElem?_append]
  simp only [List.length_take, Nat.min_eq_left hi, List.getElem?_take]
  by_cases h1 : j < i
  · simp [h1]
  · simp only [h1, if_false, List.getElem?_cons]
    by_cases h2 : j = i
    · simp [h2]
    · have h3 : ¬ j - i = 0 := by omega
      simp only [h2, h3, if_false, List.getElem?_drop]
      congr 1
      omega

theorem erase_getElem? {T : Type} (l : List T) (i : Nat) (hi : i ≤ l.length) (j : Nat) :
    (l.take i ++ l.drop (i + 1))[j]? = if j < i then l[j]? else l[j + 1]? := by
  rw [List.getElem?_append]
  simp only [List.length_take, Nat.min_eq_left hi, List.getElem?_take]
  by_cases h1 : j < i
  · simp [h1]
  · simp only [h1, if_false, List.getElem?_drop]
    congr 1
    omega


theorem end_ok {T : Type} {v : Vector T} {l : List T} (hv : v.Holds l) :
    v.end_ = .ok l.length := by
  have := Holds_size_le hv
  simp [Vector.end_, RawMemory.add, hv.1, this]

theorem slots_put {T : Type} (m : RawMemory T) (b : Block T) (h : b.length = m.slots.length) :
    (m.put b).slots = b := by
  cases m with
  | mk buf c =>
    cases buf with
    | none =>
      simp only [RawMemory.slots, Option.getD_none, List.length_nil, List.length_eq_zero] at h
      simp [RawMemory.put, RawMemory.slots, h]
    | some b0 => rfl

theorem capacity_put {T : Type} (m : RawMemory T) (b : Block T) :
    (m.put b).capacity_ = m.capacity_ := rfl

theorem destroy_defined_one {T : Type} (E : Env T) (b : Block T) (p : Nat) :
    destroy_defined E b p 1 = (E.is_trivially_destructible || isLive b p) := by
  simp [destroy_defined, List.range_succ]

theorem isLive_congr {T : Type} (b1 b2 : Block T) (p q : Nat)
    (h : b1[p]? = b2[q]?) : isLive b1 p = isLive b2 q := by
  unfold isLive
  rw [h]

/-- When the destructor call of `Erase` on slot `size_ + 1` is defined (the element type
is trivially destructible, or that slot holds an object) and the move assignments that
close the gap do not throw, `Erase` at position `i < n` returns position `i` and leaves
the container holding the other elements, with the capacity unchanged. -/
theorem Erase_ok {T : Type} (E : Env T) (v : Vector T) (l : List T) (i : Nat)
    (hv : v.Holds l) (hi : i < l.length) (hm : E.MoveAssignOk (l.drop (i + 1)))
    (hd : E.is_trivially_destructible = true ∨ isLive v.slots (l.length + 1) = true) :
    (v.Erase E i).ret = .ok i ∧ (v.Erase E i).vec.Holds (l.take i ++ l.drop (i + 1)) ∧
      (v.Erase E i).vec.data_.capacity_ = v.data_.capacity_ := by
  have hcap := Holds_size_le hv
  have hloop := move_range_shift_ok E (l.length - (i + 1)) v.slots i
    (by obtain ⟨x, hx, _⟩ := Holds_live hv i hi; exact ⟨x, hx⟩)
    (by
      intro k hk
      obtain ⟨x, hx, _, hlx⟩ := Holds_live hv (i + 1 + k) (by omega)
      refine ⟨x, hx, hm x ?_⟩
      rw [List.mem_iff_getElem?]
      exact ⟨k, by rw [List.getElem?_drop]; exact hlx⟩)
  obtain ⟨h1, h2, h3, h4, h5, h6⟩ := hloop
  unfold Vector.Erase
  simp only [end_ok hv, Vector.begin_, Nat.sub_zero, Nat.zero_add]
  rcases hres : move_range E v.slots (i + 1) i (l.length - (i + 1)) with ⟨b, e⟩
  rw [hres] at h1 h2 h3 h4 h5 h6
  simp only at h1 h2 h3 h4 h5 h6
  subst h1
  have hdd : destroy_defined E b (l.length + 1) 1 = true := by
    rw [destroy_defined_one, isLive_congr b v.slots _ _ (h6 (l.length + 1) (by omega))]
    rcases hd with hd | hd
    · simp [hd]
    · simp [hd]
  simp only [hdd, if_true, Vector.plain, capacity_put]
  refine ⟨trivial, ?_, trivial⟩
  have hsl : (v.data_.put (destroy_n b (l.length + 1) 1)).slots = destroy_n b (l.length + 1) 1 :=
    slots_put _ _ (by rw [destroy_n_length, h2]; rfl)
  apply Holds_of_getElem?
  · simp only [List.length_append, List.length_take, List.length_drop, hv.1]
    omega
  · simp only [Vector.slots, hsl, capacity_put, destroy_n_length, h2]
    exact hv.2.1
  · intro j hj
    simp only [List.length_append, List.length_take, List.length_drop] at hj
    simp only [Vector.slots, hsl]
    rw [destroy_n_getElem?_outside _ _ _ _ (by omega), erase_getElem? l i (by omega)]
    by_cases hji : j < i
    · rw [h3 j hji, if_pos hji]
      exact Holds_getElem? hv j (by omega)
    · rw [h4 j (by omega) (by omega), if_neg hji]
      exact Holds_getElem? hv (j + 1) (by omega)


theorem grownCapacity_eq {T : Type} (E : Env T) (v : Vector T) (n : Nat) (hn : v.size_ = n)
    (ha : E.AllocOk (max 1 (2 * n))) : v.grownCapacity = max 1 (2 * n) := by
  obtain ⟨hs, hlt, _⟩ := ha
  unfold Vector.grownCapacity
  rw [hn]
  by_cases h0 : n = 0
  · simp [h0]
  · rw [if_neg h0]
    have h1 : max 1 (2 * n) = 2 * n := by omega
    rw [h1] at hlt ⊢
    have h2 : 2 * n ≤ 2 * n * E.sizeofT := Nat.le_mul_of_pos_right _ hs
    rw [Nat.mul_comm n 2]
    exact Nat.mod_eq_of_lt (by omega)

theorem catchAll_ok {T : Type} (E : Env T) (x : Xfer T) (p n : Nat) (h : x.err = none) :
    Vector.catchAll E x p n = x := by
  unfold Vector.catchAll
  rw [h]

theorem Emplace_grow_ok {T : Type} (E : Env T) (v : Vector T) (l : List T) (i : Nat) (x : T)
    (hv : v.Holds l) (hi : i ≤ l.length) (hfull : v.size_ = v.Capacity)
    (ha : E.AllocOk (max 1 (2 * l.length))) (hr : E.RelocOk l) :
    (v.Emplace E i (some x)).ret = .ok i ∧
      (v.Emplace E i (some x)).vec.Holds (l.take i ++ x :: l.drop i) ∧
      (v.Emplace E i (some x)).vec.data_.capacity_ = max 1 (2 * l.length) := by
  have hc : max 1 (2 * l.length) ≠ 0 := by omega
  have hic : i ≤ max 1 (2 * l.length) := by omega
  have hic2 : i < max 1 (2 * l.length) := by omega
  have hsz := hv.1
  -- first transfer: the elements before the position
  have hloop1 := uninitialized_loop_ok E.relocKind E.relocCtor 0 0 i 0 v.data_.slots
    ((List.replicate (max 1 (2 * l.length)) none).set i (some x))
    (by
      intro k hk
      obtain ⟨a, ha1, hmem, _⟩ := Holds_live hv k (by omega)
      exact ⟨a, by simpa using ha1, relocCtor_fst E a (hr a hmem)⟩)
    (by simp only [List.length_set, List.length_replicate]; omega)
  simp only [Nat.zero_add, Nat.add_zero, Nat.sub_zero] at hloop1
  obtain ⟨p1, _, p3, p4, p5, p6⟩ := hloop1
  simp only [Nat.zero_le, true_and] at p5
  -- second transfer: the elements from the position on
  have hloop2 := uninitialized_loop_ok E.relocKind E.relocCtor i (i + 1) (l.length - i) 0
    (uninitialized_loop E.relocKind E.relocCtor 0 0 i 0 v.data_.slots
      ((List.replicate (max 1 (2 * l.length)) none).set i (some x))).src
    (uninitialized_loop E.relocKind E.relocCtor 0 0 i 0 v.data_.slots
      ((List.replicate (max 1 (2 * l.length)) none).set i (some x))).dst
    (by
      intro k hk
      obtain ⟨a, ha1, hmem, _⟩ := Holds_live hv (i + k) (by omega)
      refine ⟨a, ?_, relocCtor_fst E a (hr a hmem)⟩
      rw [p6 _ (by omega)]
      simpa using ha1)
    (by rw [p3]; simp only [List.length_set, List.length_replicate]; omega)
  simp only [Nat.zero_add, Nat.add_zero] at hloop2
  obtain ⟨q1, _, q3, q4, q5, q6⟩ := hloop2
  unfold Vector.Emplace
  simp only [Vector.begin_, Nat.sub_zero, Nat.zero_add, hfull, if_true,
    grownCapacity_eq E v l.length hsz ha, create_ok E _ ha hc, RawMemory.add, hic, construct_at,
    slots_mk, List.length_replicate, hic2, InitUninitData_eq, catchAll_ok _ _ _ _ p1, p1, end_ok hv]
  simp only [catchAll_ok _ _ _ _ q1, q1, put_mk, RawMemory.Swap]
  refine ⟨trivial, ?_, trivial⟩
  apply Holds_of_getElem?
  · simp only [List.length_append, List.length_take, List.length_cons, List.length_drop, hsz]
    omega
  · simp only [Vector.slots, slots_mk, q3, p3, List.length_set, List.length_replicate]
  · intro j hj
    simp only [List.length_append, List.length_take, List.length_cons, List.length_drop] at hj
    simp only [Vector.slots, slots_mk]
    rw [q5 j, insert_getElem? l i x hi]
    by_cases h1 : j < i
    · rw [if_neg (by omega), p5 j, if_pos h1, if_pos h1]
      exact Holds_getElem? hv j (by omega)
    · by_cases h2 : j = i
      · subst h2
        rw [if_neg (by omega), p5 j, if_neg h1, if_neg h1, if_pos rfl,
          List.getElem?_set_self (by simp only [List.length_replicate]; omega)]
        rfl
      · rw [if_pos (by omega), if_neg h1, if_neg h2, p6 _ (by omega)]
        have e : i + (j - (i + 1)) = j - 1 := by omega
        rw [e]
        exact Holds_getElem? hv (j - 1) (by omega)


theorem Emplace_end_ok {T : Type} (E : Env T) (v : Vector T) (l : List T) (x : T)
    (hv : v.Holds l) (hroom : v.size_ ≠ v.Capacity) :
    (v.Emplace E l.length (some x)).ret = .ok l.length ∧
      (v.Emplace E l.length (some x)).vec.Holds (l ++ [x]) ∧
      (v.Emplace E l.length (some x)).vec.data_.capacity_ = v.data_.capacity_ := by
  have hcap := Holds_size_le hv
  have hsz := hv.1
  have hlen := hv.2.1
  have hlt : l.length < v.slots.length := by
    simp only [Vector.Capacity, RawMemory.Capacity] at hroom
    omega
  simp only [Vector.slots] at hlt hlen
  unfold Vector.Emplace
  simp only [Vector.begin_, Nat.sub_zero, Nat.zero_add, hroom, if_false, end_ok hv, ne_eq,
    not_true_eq_false, Vector.slots, construct_at, hlt, if_true, Vector.plain, capacity_put]
  refine ⟨trivial, ?_, trivial⟩
  have hsl : (v.data_.put (v.data_.slots.set l.length (some x))).slots =
      v.data_.slots.set l.length (some x) := slots_put _ _ (by simp only [List.length_set])
  apply Holds_of_getElem?
  · simp only [List.length_append, List.length_singleton, hsz]
  · simp only [Vector.slots, hsl, capacity_put, List.length_set]
    exact hlen
  · intro j hj
    simp only [List.length_append, List.length_singleton] at hj
    simp only [Vector.slots, hsl]
    by_cases h1 : j = l.length
    · subst h1
      rw [List.getElem?_set_self hlt, List.getElem?_append_right (Nat.le_refl _)]
      simp
    · rw [List.getElem?_set_ne (by omega), List.getElem?_append_left (by omega)]
      exact Holds_getElem? hv j (by omega)

theorem Emplace_mid_ok {T : Type} (E : Env T) (v : Vector T) (l : List T) (i : Nat) (x : T)
    (hv : v.Holds l) (hi : i < l.length) (hroom : v.size_ ≠ v.Capacity)
    (hm : E.MoveOk (x :: l.drop i)) :
    (v.Emplace E i (some x)).ret = .ok i ∧
      (v.Emplace E i (some x)).vec.Holds (l.take i ++ x :: l.drop i) ∧
      (v.Emplace E i (some x)).vec.data_.capacity_ = v.data_.capacity_ := by
  have hcap := Holds_size_le hv
  have hsz := hv.1
  have hlen := hv.2.1
  have hlt : l.length < v.slots.length := by
    simp only [Vector.Capacity, RawMemory.Capacity] at hroom
    omega
  simp only [Vector.slots] at hlt hlen
  have hdrop : ∀ k a, i ≤ k → l[k]? = some a → a ∈ x :: l.drop i := by
    intro k a hk ha
    apply List.mem_cons_of_mem
    rw [List.mem_iff_getElem?]
    exact ⟨k - i, by rw [List.getElem?_drop, ← ha]; congr 1; omega⟩
  obtain ⟨last, hlast, _, hllast⟩ := Holds_live hv (l.length - 1) (by omega)
  have hlastOk := hm last (hdrop _ _ (by omega) hllast)
  have hxOk := hm x (List.mem_cons_self _ _)
  have e1 : l.length - 1 = i + (l.length - 1 - i) := by omega
  have e2 : l.length - 1 + 1 = l.length := by omega
  simp only [Vector.slots] at hlast
  have hloop := move_backward_shift_ok E i (l.length - 1 - i)
    ((v.data_.slots.set l.length (some last)).set (l.length - 1) (some (E.movedFrom last)))
    (by
      refine ⟨E.movedFrom last, ?_⟩
      rw [← e1, List.getElem?_set_self (by simp only [List.length_set]; omega)])
    (by
      intro k hk
      obtain ⟨a, ha1, _, ha3⟩ := Holds_live hv (i + k) (by omega)
      refine ⟨a, ?_, (hm a (hdrop _ _ (by omega) ha3)).2⟩
      rw [List.getElem?_set_ne (by omega), List.getElem?_set_ne (by omega)]
      exact ha1)
  simp only [Vector.slots] at hloop
  rw [← e1, e2] at hloop
  obtain ⟨h1, h2, h3, h4, h5, h6⟩ := hloop
  unfold Vector.Emplace
  simp only [Vector.begin_, Nat.sub_zero, Nat.zero_add, hroom, if_false, end_ok hv, ne_eq,
    Nat.ne_of_lt hi, not_false_eq_true, if_true, Vector.slots, hlast, construct_at, Env.moveCtor,
    hlastOk.1, Option.map_some', hlt, Bool.false_eq_true, ↓reduceIte]
  rcases hres : move_backward E
    ((v.data_.slots.set l.length (some last)).set (l.length - 1) (some (E.movedFrom last)))
    (l.length - 1) l.length (l.length - 1 - i) with ⟨b, e⟩
  rw [hres] at h1 h2 h3 h4 h5 h6
  simp only at h1 h2 h3 h4 h5 h6
  subst h1
  obtain ⟨y, hy⟩ := h4
  simp only [hy, hxOk.2, Vector.plain, capacity_put, Bool.false_eq_true, ↓reduceIte]
  refine ⟨trivial, ?_, trivial⟩
  have hbl : b.length = v.data_.slots.length := by simpa using h2
  have hsl : (v.data_.put (b.set i (some x))).slots = b.set i (some x) :=
    slots_put _ _ (by simp only [List.length_set, hbl])
  apply Holds_of_getElem?
  · simp only [List.length_append, List.length_take, List.length_cons, List.length_drop, hsz]
    omega
  · simp only [Vector.slots, hsl, capacity_put, List.length_set, hbl]
    exact hlen
  · intro j hj
    simp only [List.length_append, List.length_take, List.length_cons, List.length_drop] at hj
    simp only [Vector.slots, hsl]
    rw [insert_getElem? l i x (by omega)]
    by_cases c1 : j < i
    · rw [if_pos c1, List.getElem?_set_ne (by omega), h3 j c1,
        List.getElem?_set_ne (by omega), List.getElem?_set_ne (by omega)]
      exact Holds_getElem? hv j (by omega)
    · by_cases c2 : j = i
      · subst c2
        rw [if_neg c1, if_pos rfl, List.getElem?_set_self (by omega)]
        rfl
      · rw [if_neg c1, if_neg c2, List.getElem?_set_ne (by omega)]
        by_cases c3 : j = l.length
        · subst c3
          rw [h6 _ (by omega), List.getElem?_set_ne (by omega),
            List.getElem?_set_self (by omega), hllast]
          rfl
        · rw [h5 j (by omega) (by omega), List.getElem?_set_ne (by omega),
            List.getElem?_set_ne (by omega)]
          exact Holds_getElem? hv (j - 1) (by omega)


theorem EmplaceBack_grow_ok {T : Type} (E : Env T) (v : Vector T) (l : List T) (x : T)
    (hv : v.Holds l) (hfull : v.size_ = v.Capacity)
    (ha : E.AllocOk (max 1 (2 * l.length))) (hr : E.RelocOk l) :
    (v.EmplaceBack E (some x)).ret = .ok l.length ∧
      (v.EmplaceBack E (some x)).vec.Holds (l ++ [x]) ∧
      (v.EmplaceBack E (some x)).vec.data_.capacity_ = max 1 (2 * l.length) := by
  have hc : max 1 (2 * l.length) ≠ 0 := by omega
  have hic : l.length ≤ max 1 (2 * l.length) := by omega
  have hic2 : l.length < max 1 (2 * l.length) := by omega
  have hsz := hv.1
  have hloop1 := uninitialized_loop_ok E.relocKind E.relocCtor 0 0 l.length 0 v.data_.slots
    ((List.replicate (max 1 (2 * l.length)) none).set l.length (some x))
    (by
      intro k hk
      obtain ⟨a, ha1, hmem, _⟩ := Holds_live hv k (by omega)
      exact ⟨a, by simpa using ha1, relocCtor_fst E a (hr a hmem)⟩)
    (by simp only [List.length_set, List.length_replicate]; omega)
  simp only [Nat.zero_add, Nat.add_zero, Nat.sub_zero, Nat.zero_le, true_and] at hloop1
  obtain ⟨p1, _, p3, p4, p5, p6⟩ := hloop1
  unfold Vector.EmplaceBack
  rw [if_pos hfull]
  simp only [hsz, if_true, grownCapacity_eq E v l.length hsz ha, create_ok E _ ha hc,
    RawMemory.add, hic, construct_at, slots_mk, List.length_replicate, hic2, InitUninitData_eq,
    p1, put_mk, RawMemory.Swap]
  refine ⟨trivial, ?_, trivial⟩
  apply Holds_of_getElem?
  · simp only [List.length_append, List.length_singleton]
  · simp only [Vector.slots, slots_mk, p3, List.length_set, List.length_replicate]
  · intro j hj
    simp only [List.length_append, List.length_singleton] at hj
    simp only [Vector.slots, slots_mk]
    rw [p5 j]
    by_cases h1 : j < l.length
    · rw [if_pos h1, List.getElem?_append_left h1]
      exact Holds_getElem? hv j h1
    · have h2 : j = l.length := by omega
      subst h2
      rw [if_neg h1, List.getElem?_set_self (by simp only [List.length_replicate]; omega),
        List.getElem?_append_right (Nat.le_refl _)]
      simp

theorem EmplaceBack_room_ok {T : Type} (E : Env T) (v : Vector T) (l : List T) (x : T)
    (hv : v.Holds l) (hroom : v.size_ ≠ v.Capacity) :
    (v.EmplaceBack E (some x)).ret = .ok l.length ∧
      (v.EmplaceBack E (some x)).vec.Holds (l ++ [x]) ∧
      (v.EmplaceBack E (some x)).vec.data_.capacity_ = v.data_.capacity_ := by
  have hcap := Holds_size_le hv
  have hsz := hv.1
  have hlen := hv.2.1
  have hlt : l.length < v.slots.length := by
    simp only [Vector.Capacity, RawMemory.Capacity] at hroom
    omega
  simp only [Vector.slots] at hlt hlen
  unfold Vector.EmplaceBack
  rw [if_neg hroom]
  simp only [RawMemory.add, hsz, hcap, if_true, construct_at, hlt, Vector.plain,
    capacity_put]
  refine ⟨trivial, ?_, trivial⟩
  have hsl : (v.data_.put (v.data_.slots.set l.length (some x))).slots =
      v.data_.slots.set l.length (some x) := slots_put _ _ (by simp only [List.length_set])
  apply Holds_of_getElem?
  · simp only [List.length_append, List.length_singleton]
  · simp only [Vector.slots, hsl, capacity_put, List.length_set]
    exact hlen
  · intro j hj
    simp only [List.length_append, List.length_singleton] at hj
    simp only [Vector.slots, hsl]
    by_cases h1 : j = l.length
    · subst h1
      rw [List.getElem?_set_self hlt, List.getElem?_append_right (Nat.le_refl _)]
      simp
    · rw [List.getElem?_set_ne (by omega), List.getElem?_append_left (by omega)]
      exact Holds_getElem? hv j (by omega)

theorem reduceOption_map_some {T : Type} (l : List T) : (l.map some).reduceOption = l := by
  induction l with
  | nil => rfl
  | cons a t ih => simpa [List.reduceOption_cons_of_some] using ih

theorem Holds_elems {T : Type} {v : Vector T} {l : List T} (h : v.Holds l) : v.elems = l := by
  unfold Vector.elems
  rw [h.2.2]
  exact reduceOption_map_some l

theorem Holds_read {T : Type} {v : Vector T} {l : List T} (h : v.Holds l) (j : Nat)
    (hj : j < l.length) : v.read j = .ok l[j] := by
  have hcap := Holds_size_le h
  have hs := Holds_getElem? h j hj
  simp only [Vector.slots, List.getElem?_eq_getElem hj, Option.map_some'] at hs
  unfold Vector.read Vector.index RawMemory.index
  rw [if_pos (by rw [h.1]; exact hj), if_pos (by omega)]
  simp only [Vector.slots, hs]

theorem set_same {T : Type} (l : List T) (i : Nat) (a : T) (h : l[i]? = some a) :
    l.set i a = l := by
  apply List.ext_getElem?
  intro j
  rw [List.getElem?_set]
  by_cases hij : i = j
  · subst hij
    have hlt : i < l.length := by
      by_contra hc
      rw [List.getElem?_eq_none (by omega)] at h
      cases h
    rw [if_pos rfl, if_pos hlt, h]
  · rw [if_neg hij]

/-- Copying never changes the source block, whether the run completes or not. -/
theorem uninitialized_loop_copy_src {T : Type} {kind : CtorKind} (E : Env T) (s d : Nat) (n : Nat) :
    ∀ (done : Nat) (src dst : Block T),
    (uninitialized_loop kind E.copyCtor s d n done src dst).src = src := by
  induction n with
  | zero => intro done src dst; rfl
  | succ n ih =>
    intro done src dst
    unfold uninitialized_loop
    split
    · rename_i x hx
      split
      · by_cases ht : E.copyThrows x = true
        · have hc : E.copyCtor x = none := by simp [Env.copyCtor, ht]
          simp only [hc]
        · have hc : E.copyCtor x = some (x, x) := by simp [Env.copyCtor, ht]
          simp only [hc]
          rw [ih, set_same _ _ _ hx]
      · rfl
    · rfl

/-- The only failures of the construction loop are undefined behaviour and an exception
of the constructor, the latter only when the constructor can throw. -/
theorem uninitialized_loop_err {T : Type} {kind : CtorKind} (build : T → Option (T × T)) (s d : Nat) (n : Nat) :
    ∀ (done : Nat) (src dst : Block T) (e : Err),
    (uninitialized_loop kind build s d n done src dst).err = some e →
    e = .undefined ∨ (e = .elem_throw ∧ ∃ x, build x = none) := by
  induction n with
  | zero => intro done src dst e h; simp [uninitialized_loop] at h
  | succ n ih =>
    intro done src dst e h
    unfold uninitialized_loop at h
    split at h
    · rename_i x hx
      split at h
      · split at h
        · rename_i hb
          simp only [Option.some.injEq] at h
          exact Or.inr ⟨h.symm, x, hb⟩
        · exact ih _ _ _ e h
      · simp only [Option.some.injEq] at h
        exact Or.inl h.symm
    · simp only [Option.some.injEq] at h
      exact Or.inl h.symm

/-- The construction loop fails with the exception of the constructor when the source
slots are live, the destination has room, and the constructor throws on one of the values. -/
theorem uninitialized_loop_throws {T : Type} {kind : CtorKind} (build : T → Option (T × T)) (s d : Nat) (n : Nat) :
    ∀ (done : Nat) (src dst : Block T),
    (∀ k, k < n → ∃ x, src[s + done + k]? = some (some x)) →
    (∃ k, k < n ∧ ∃ x, src[s + done + k]? = some (some x) ∧ build x = none) →
    d + done + n ≤ dst.length →
    (uninitialized_loop kind build s d n done src dst).err = some .elem_throw := by
  induction n with
  | zero =>
    intro done src dst _ ⟨k, hk, _⟩ _
    omega
  | succ n ih =>
    intro done src dst hlive ⟨k, hk, y, hy, hyb⟩ hlen
    obtain ⟨x, hx⟩ := hlive 0 (by omega)
    simp only [Nat.add_zero] at hx
    have hlt : d + done < dst.length := by omega
    unfold uninitialized_loop
    simp only [hx, hlt, if_true]
    cases hb : build x with
    | none => rfl
    | some yr =>
      obtain ⟨y1, r⟩ := yr
      simp only
      have hk0 : k ≠ 0 := by
        intro h0
        subst h0
        simp only [Nat.add_zero, hx, Option.some.injEq] at hy
        subst hy
        rw [hb] at hyb
        cases hyb
      apply ih
      · intro j hj
        obtain ⟨z, hz⟩ := hlive (j + 1) (by omega)
        refine ⟨z, ?_⟩
        rw [List.getElem?_set_ne (by omega), ← hz]
        congr 1
        omega
      · refine ⟨k - 1, by omega, y, ?_, hyb⟩
        rw [List.getElem?_set_ne (by omega), ← hy]
        congr 1
        omega
      · simp only [List.length_set]
        omega

theorem put_slots {T : Type} (v : Vector T) : v.put v.data_.slots = v := by
  cases v with
  | mk data size =>
    cases data with
    | mk buf c =>
      cases buf <;> rfl

theorem relocCtor_of_copy {T : Type} (E : Env T) (hcopy : E.is_copy_constructible = true)
    (hnt : E.is_nothrow_move_constructible = true → ∀ a, E.moveThrows a = false) :
    (Vector.relocateByMove E = true ∧ ∀ a, E.relocCtor a ≠ none) ∨
    (Vector.relocateByMove E = false ∧ E.relocCtor = E.copyCtor) := by
  by_cases hm : Vector.relocateByMove E = true
  · left
    refine ⟨hm, ?_⟩
    intro a
    have hn : E.is_nothrow_move_constructible = true := by
      simpa [Vector.relocateByMove, hcopy] using hm
    simp [Env.relocCtor, hm, Env.moveCtor, hnt hn a]
  · right
    simp only [Bool.not_eq_true] at hm
    exact ⟨hm, by simp [Env.relocCtor, hm]⟩

/-- A relocation that ends with an exception leaves the source block as it was, for a
copy-constructible element type. -/
theorem InitUninitData_fail_src {T : Type} (E : Env T)
    (hcopy : E.is_copy_constructible = true)
    (hnt : E.is_nothrow_move_constructible = true → ∀ a, E.moveThrows a = false)
    (src : Block T) (s n : Nat) (dst : Block T) (d : Nat) (e : Err)
    (he : (Vector.InitUninitData E src s n dst d).err = some e)
    (hex : e = .bad_alloc ∨ e = .elem_throw) :
    (Vector.InitUninitData E src s n dst d).src = src := by
  rw [InitUninitData_eq] at he ⊢
  rcases relocCtor_of_copy E hcopy hnt with ⟨_, htot⟩ | ⟨_, hc⟩
  · rcases uninitialized_loop_err _ _ _ _ _ _ _ e he with h | ⟨_, x, hx⟩
    · subst h
      rcases hex with h | h <;> cases h
    · exact absurd hx (htot x)
  · rw [hc]
    exact uninitialized_loop_copy_src E s d n 0 src dst

theorem Reserve_fail_unchanged {T : Type} (E : Env T) (v : Vector T) (m : Nat)
    (hcopy : E.is_copy_constructible = true)
    (hnt : E.is_nothrow_move_constructible = true → ∀ a, E.moveThrows a = false)
    (e : Err) (he : (v.Reserve E m).ret = .error e) (hex : e = .bad_alloc ∨ e = .elem_throw) :
    (v.Reserve E m).vec = v := by
  unfold Vector.Reserve at he ⊢
  split at he
  · cases he
  · rename_i hm
    rw [if_neg hm]
    cases hcr : RawMemory.create E m with
    | error e1 => rfl
    | ok new_data =>
      rw [hcr] at he
      simp only at he ⊢
      cases hx : (Vector.InitUninitData E v.data_.slots 0 v.size_ new_data.slots 0).err with
      | none =>
        rw [hx] at he
        cases he
      | some e1 =>
        rw [hx] at he
        simp only [Except.error.injEq] at he
        subst he
        simp only
        rw [InitUninitData_fail_src E hcopy hnt _ _ _ _ _ e1 hx hex]
        exact put_slots v

theorem EmplaceBack_fail_unchanged {T : Type} (E : Env T) (v : Vector T) (args : Option T)
    (hcopy : E.is_copy_constructible = true)
    (hnt : E.is_nothrow_move_constructible = true → ∀ a, E.moveThrows a = false)
    (e : Err) (he : (v.EmplaceBack E args).ret = .error e)
    (hex : e = .bad_alloc ∨ e = .elem_throw) :
    (v.EmplaceBack E args).vec = v := by
  unfold Vector.EmplaceBack at he ⊢
  split at he
  · rename_i hfull
    rw [if_pos hfull]
    cases hcr : RawMemory.create E v.grownCapacity with
    | error e1 => rfl
    | ok new_data =>
      rw [hcr] at he
      simp only at he ⊢
      cases hadd : new_data.add v.size_ with
      | error e1 => rfl
      | ok p =>
        rw [hadd] at he
        simp only at he ⊢
        cases hcon : construct_at new_data.slots p args with
        | error e1 => rfl
        | ok b =>
          rw [hcon] at he
          simp only at he ⊢
          cases hx : (Vector.InitUninitData E v.data_.slots 0 v.size_ b 0).err with
          | none =>
            rw [hx] at he
            cases he
          | some e1 =>
            rw [hx] at he
            simp only [Except.error.injEq] at he
            subst he
            simp only
            rw [InitUninitData_fail_src E hcopy hnt _ _ _ _ _ e1 hx hex]
            exact put_slots v
  · rename_i hroom
    rw [if_neg hroom]
    cases hadd : v.data_.add v.size_ with
    | error e1 => rfl
    | ok p =>
      rw [hadd] at he
      simp only at he ⊢
      cases hcon : construct_at v.data_.slots p args with
      | error e1 => rfl
      | ok b =>
        rw [hcon] at he
        cases he

theorem create_bad_alloc {T : Type} (E : Env T) (n : Nat) (hn : n ≠ 0)
    (hnew : E.newThrows (RawMemory.allocBytes E n) = true) :
    RawMemory.create E n = .error .bad_alloc := by
  simp [RawMemory.create, RawMemory.Allocate, RawMemory.operator_new, hn, hnew]

theorem not_RelocOk {T : Type} (E : Env T) (l : List T) (h : ¬ E.RelocOk l) :
    ∃ k, k < l.length ∧ ∃ a, l[k]? = some a ∧ E.relocCtor a = none := by
  unfold Env.RelocOk at h
  push_neg at h
  obtain ⟨a, hmem, ha⟩ := h
  obtain ⟨k, hk, hka⟩ := List.getElem_of_mem hmem
  refine ⟨k, hk, a, ?_, ?_⟩
  · rw [List.getElem?_eq_getElem hk, hka]
  · cases hr : E.relocCtor a with
    | none => rfl
    | some p => rw [hr] at ha; simp at ha

theorem InitUninitData_throws {T : Type} (E : Env T) (v : Vector T) (l : List T)
    (hv : v.Holds l) (hr : ¬ E.RelocOk l) (dst : Block T) (hd : l.length ≤ dst.length) :
    (Vector.InitUninitData E v.data_.slots 0 v.size_ dst 0).err = some .elem_throw := by
  rw [InitUninitData_eq, hv.1]
  obtain ⟨k, hk, a, hka, hnone⟩ := not_RelocOk E l hr
  apply uninitialized_loop_throws
  · intro j hj
    obtain ⟨x, hx, _⟩ := Holds_live hv j hj
    exact ⟨x, by simpa [Vector.slots] using hx⟩
  · refine ⟨k, hk, a, ?_, hnone⟩
    have := Holds_getElem? hv k hk
    rw [hka] at this
    simpa [Vector.slots] using this
  · omega

theorem Reserve_bad_alloc {T : Type} (E : Env T) (v : Vector T) (m : Nat)
    (hm : v.Capacity < m) (hnew : E.newThrows (RawMemory.allocBytes E m) = true) :
    (v.Reserve E m).ret = .error .bad_alloc := by
  have hm' : ¬ m ≤ v.data_.Capacity := by
    simp only [Vector.Capacity] at hm; omega
  unfold Vector.Reserve
  rw [if_neg hm', create_bad_alloc E m (by omega) hnew]
  rfl

theorem Reserve_throws {T : Type} (E : Env T) (v : Vector T) (l : List T) (m : Nat)
    (hv : v.Holds l) (hm : v.Capacity < m) (ha : E.AllocOk m) (hr : ¬ E.RelocOk l) :
    (v.Reserve E m).ret = .error .elem_throw := by
  have hm' : ¬ m ≤ v.data_.Capacity := by
    simp only [Vector.Capacity] at hm; omega
  have hcap := Holds_size_le hv
  have hx := InitUninitData_throws E v l hv hr (List.replicate m none)
    (by simp only [Vector.Capacity, RawMemory.Capacity] at hm
        simp only [List.length_replicate]; omega)
  unfold Vector.Reserve
  rw [if_neg hm', create_ok E m ha (by omega)]
  simp only [slots_mk, hx]

theorem EmplaceBack_bad_alloc {T : Type} (E : Env T) (v : Vector T) (args : Option T)
    (hfull : v.size_ = v.Capacity)
    (hnew : E.newThrows (RawMemory.allocBytes E v.grownCapacity) = true)
    (hg : v.grownCapacity ≠ 0) :
    (v.EmplaceBack E args).ret = .error .bad_alloc := by
  unfold Vector.EmplaceBack
  rw [if_pos hfull, create_bad_alloc E _ hg hnew]
  rfl

theorem EmplaceBack_ctor_throws {T : Type} (E : Env T) (v : Vector T) (l : List T)
    (hv : v.Holds l) (hfull : v.size_ = v.Capacity) (ha : E.AllocOk (max 1 (2 * l.length))) :
    (v.EmplaceBack E none).ret = .error .elem_throw := by
  have hic : l.length ≤ max 1 (2 * l.length) := by omega
  unfold Vector.EmplaceBack
  rw [if_pos hfull]
  simp only [hv.1, grownCapacity_eq E v l.length hv.1 ha, create_ok E _ ha (by omega),
    RawMemory.add, hic, if_true, construct_at]

theorem EmplaceBack_transfer_throws {T : Type} (E : Env T) (v : Vector T) (l : List T) (x : T)
    (hv : v.Holds l) (hfull : v.size_ = v.Capacity) (ha : E.AllocOk (max 1 (2 * l.length)))
    (hr : ¬ E.RelocOk l) :
    (v.EmplaceBack E (some x)).ret = .error .elem_throw := by
  have hic : l.length ≤ max 1 (2 * l.length) := by omega
  have hic2 : l.length < max 1 (2 * l.length) := by omega
  have hx := InitUninitData_throws E v l hv hr
    ((List.replicate (max 1 (2 * l.length)) none).set l.length (some x))
    (by simp only [List.length_set, List.length_replicate]; omega)
  rw [hv.1] at hx
  unfold Vector.EmplaceBack
  rw [if_pos hfull]
  simp only [hv.1, grownCapacity_eq E v l.length hv.1 ha, create_ok E _ ha (by omega),
    RawMemory.add, hic, if_true, construct_at, slots_mk, List.length_replicate, hic2, hx]

theorem copy_assign_loop_ok {T : Type} (E : Env T) (other : Vector T) (cap : Nat) (n : Nat) :
    ∀ (i : Nat) (b : Block T),
    (∀ k, k < n → ∃ x, other.slots[i + k]? = some (some x) ∧ E.copyAssignThrows x = false) →
    (∀ k, k < n → ∃ y, b[i + k]? = some (some y)) →
    i + n ≤ other.size_ → i + n ≤ other.data_.capacity_ → i + n ≤ cap →
    (Vector.copy_assign_loop E other cap n i b).2 = none ∧
    (Vector.copy_assign_loop E other cap n i b).1.length = b.length ∧
    (∀ j, (Vector.copy_assign_loop E other cap n i b).1[j]? =
      if i ≤ j ∧ j < i + n then other.slots[j]? else b[j]?) := by
  induction n with
  | zero =>
    intro i b _ _ _ _ _
    refine ⟨rfl, rfl, ?_⟩
    intro j
    rw [if_neg (by omega)]
    rfl
  | succ n ih =>
    intro i b hsrc hdst h1 h2 h3
    obtain ⟨x, hx, hxt⟩ := hsrc 0 (by omega)
    obtain ⟨y, hy⟩ := hdst 0 (by omega)
    simp only [Nat.add_zero] at hx hy
    have hib : i < b.length := by
      by_contra hc
      rw [List.getElem?_eq_none (by omega)] at hy
      cases hy
    have hstep : Vector.copy_assign_loop E other cap (n + 1) i b =
        Vector.copy_assign_loop E other cap n (i + 1) (b.set i (some x)) := by
      have c1 : i < other.size_ := by omega
      have c2 : i < other.data_.capacity_ := by omega
      have c3 : i < cap := by omega
      simp only [Vector.copy_assign_loop, Vector.index, RawMemory.index, c1, c2, c3, if_true, hx, hy,
        hxt, Bool.false_eq_true, if_false]
    rw [hstep]
    obtain ⟨q1, q2, q3⟩ := ih (i + 1) (b.set i (some x))
      (by
        intro k hk
        obtain ⟨z, hz, hzt⟩ := hsrc (k + 1) (by omega)
        refine ⟨z, ?_, hzt⟩
        rw [← hz]; congr 1; omega)
      (by
        intro k hk
        obtain ⟨z, hz⟩ := hdst (k + 1) (by omega)
        refine ⟨z, ?_⟩
        rw [List.getElem?_set_ne (by omega), ← hz]; congr 1; omega)
      (by omega) (by omega) (by omega)
    refine ⟨q1, by simpa using q2, ?_⟩
    intro j
    rw [q3 j]
    by_cases hj : j = i
    · subst hj
      rw [if_neg (by omega), if_pos (by omega), List.getElem?_set_self hib, hx]
    · by_cases hin : i + 1 ≤ j ∧ j < i + 1 + n
      · rw [if_pos hin, if_pos (by omega)]
      · rw [if_neg hin, if_neg (by omega), List.getElem?_set_ne (by omega)]

theorem create_zero {T : Type} (E : Env T) : RawMemory.create E 0 = .ok ⟨none, 0⟩ := by
  simp [RawMemory.create, RawMemory.Allocate]

theorem uninitialized_copy_n_ok {T : Type} (E : Env T) (src : Block T) (s n : Nat)
    (dst : Block T) (d : Nat)
    (hsrc : ∀ k, k < n → ∃ x, src[s + k]? = some (some x) ∧ E.copyThrows x = false)
    (hlen : d + n ≤ dst.length) :
    (uninitialized_copy_n E src s n dst d).err = none ∧
    (uninitialized_copy_n E src s n dst d).src = src ∧
    (uninitialized_copy_n E src s n dst d).dst.length = dst.length ∧
    (∀ j, (uninitialized_copy_n E src s n dst d).dst[j]? =
      if d ≤ j ∧ j < d + n then src[s + (j - d)]? else dst[j]?) := by
  have h := uninitialized_loop_ok .copy E.copyCtor s d n 0 src dst
    (by
      intro k hk
      obtain ⟨x, hx, hxt⟩ := hsrc k hk
      exact ⟨x, by simpa using hx, by simp [Env.copyCtor, hxt]⟩)
    (by omega)
  simp only [Nat.add_zero] at h
  exact ⟨h.1, uninitialized_loop_copy_src E s d n 0 src dst, h.2.2.1, h.2.2.2.2.1⟩

theorem copyCtor_ok {T : Type} (E : Env T) (other : Vector T) (l : List T)
    (hv : other.Holds l) (hc : E.CopyOk l) (ha : l ≠ [] → E.AllocOk l.length) :
    ∃ c, Vector.copyCtor E other = (.ok c, other) ∧ c.Holds l ∧
      c.data_.capacity_ = l.length := by
  have hsz := hv.1
  by_cases hnil : l = []
  · subst hnil
    simp only [List.length_nil] at hsz
    refine ⟨⟨⟨none, 0⟩, 0⟩, ?_, ⟨rfl, rfl, rfl⟩, rfl⟩
    unfold Vector.copyCtor
    rw [hsz, create_zero]
    simp only [uninitialized_copy_n, uninitialized_loop]
    rw [put_slots]
    rfl
  · have hpos : l.length ≠ 0 := by
      intro h0
      exact hnil (List.length_eq_zero.mp h0)
    obtain ⟨x1, x2, x3, x4⟩ := uninitialized_copy_n_ok E other.data_.slots 0 l.length
      (List.replicate l.length none) 0
      (by
        intro k hk
        obtain ⟨a, ha1, hmem, _⟩ := Holds_live hv k hk
        exact ⟨a, by simpa [Vector.slots] using ha1, (hc a hmem).1⟩)
      (by simp only [List.length_replicate]; omega)
    refine ⟨⟨⟨some (uninitialized_copy_n E other.data_.slots 0 l.length
      (List.replicate l.length none) 0).dst, l.length⟩, l.length⟩, ?_, ?_, rfl⟩
    · unfold Vector.copyCtor
      rw [hsz, create_ok E _ (ha hnil) hpos]
      simp only [slots_mk, x1, x2, put_mk, put_slots]
    · apply Holds_of_getElem?
      · rfl
      · simp only [Vector.slots, slots_mk, x3, List.length_replicate]
      · intro j hj
        simp only [Vector.slots, slots_mk]
        rw [x4 j, if_pos (by omega)]
        simpa [Vector.slots] using Holds_getElem? hv j hj

theorem write_ok {T : Type} (v : Vector T) (l : List T) (i : Nat) (x : T) (hv : v.Holds l)
    (hi : i < l.length) :
    ∃ c, v.write i x = .ok c ∧ c.Holds (l.set i x) := by
  have hcap := Holds_size_le hv
  obtain ⟨a, ha, _⟩ := Holds_live hv i hi
  simp only [Vector.slots] at ha
  have hil : i < v.data_.slots.length := by
    have := hv.2.1
    simp only [Vector.slots] at this
    omega
  refine ⟨v.put (v.data_.slots.set i (some x)), ?_, ?_⟩
  · unfold Vector.write Vector.index RawMemory.index
    rw [if_pos (by rw [hv.1]; exact hi), if_pos (by omega)]
    simp only [Vector.slots, ha]
  · have hsl : (v.data_.put (v.data_.slots.set i (some x))).slots =
        v.data_.slots.set i (some x) := slots_put _ _ (by simp only [List.length_set])
    apply Holds_of_getElem?
    · simp only [Vector.put, List.length_set]
      exact hv.1
    · simp only [Vector.put, Vector.slots, hsl, List.length_set, capacity_put]
      exact hv.2.1
    · intro j hj
      simp only [List.length_set] at hj
      simp only [Vector.put, Vector.slots, hsl, List.getElem?_set]
      by_cases hij : i = j
      · subst hij
        simp [hil, hi]
      · simp only [hij, if_false]
        simpa [Vector.slots] using Holds_getElem? hv j hj

theorem copyAssign_ok {T : Type} (E : Env T) (dst src : Vector T) (ld l : List T)
    (hd : dst.Holds ld) (hs : src.Holds l) (hc : E.CopyOk l)
    (ha : dst.Capacity < l.length → E.AllocOk l.length) :
    (Vector.copyAssign E dst src false).1.ret = .ok () ∧
      (Vector.copyAssign E dst src false).1.vec.Holds l ∧
      (Vector.copyAssign E dst src false).2 = src ∧
      (Vector.copyAssign E dst src false).1.vec.data_.capacity_ =
        (if dst.data_.capacity_ < l.length then l.length else dst.data_.capacity_) := by
  have hsz := hs.1
  have hdsz := hd.1
  have hdcap := Holds_size_le hd
  have hscap := Holds_size_le hs
  have hdlen := hd.2.1
  simp only [Vector.slots] at hdlen
  unfold Vector.copyAssign
  simp only [Bool.false_eq_true, if_false, RawMemory.Capacity, hsz, hdsz]
  by_cases h1 : dst.data_.capacity_ < l.length
  · have hne : l ≠ [] := by
      intro h0; subst h0; simp at h1
    obtain ⟨c, hcc, hch, hccap⟩ := copyCtor_ok E src l hs hc (fun _ => ha h1)
    rw [if_pos h1, hcc]
    simp only [Vector.Swap, RawMemory.Swap, if_pos h1]
    refine ⟨trivial, ?_, trivial, hccap⟩
    have e : (⟨⟨c.data_.buffer_, c.data_.capacity_⟩, c.size_⟩ : Vector T) = c := rfl
    rw [e]
    exact hch
  · rw [if_neg h1, if_neg h1]
    by_cases h2 : ld.length ≥ l.length
    · rw [if_pos h2]
      obtain ⟨q1, q2, q3⟩ := copy_assign_loop_ok E src dst.data_.capacity_ l.length 0 dst.slots
        (by
          intro k hk
          obtain ⟨a, ha1, hmem, _⟩ := Holds_live hs k hk
          exact ⟨a, by simpa using ha1, (hc a hmem).2⟩)
        (by
          intro k hk
          obtain ⟨a, ha1, _⟩ := Holds_live hd k (by omega)
          exact ⟨a, by simpa using ha1⟩)
        (by omega) (by omega) (by omega)
      simp only [Nat.zero_add, Nat.zero_le, true_and] at q3
      rcases hres : Vector.copy_assign_loop E src dst.data_.capacity_ l.length 0 dst.slots
        with ⟨b, e⟩
      rw [hres] at q1 q2 q3
      simp only at q1 q2 q3
      subst q1
      simp only [Vector.plain, capacity_put]
      refine ⟨trivial, ?_, trivial, trivial⟩
      have hbl : b.length = dst.data_.slots.length := by simpa [Vector.slots] using q2
      have hsl : (dst.data_.put (destroy_n b l.length (ld.length - l.length))).slots =
          destroy_n b l.length (ld.length - l.length) :=
        slots_put _ _ (by rw [destroy_n_length, hbl])
      apply Holds_of_getElem?
      · rfl
      · simp only [Vector.slots, hsl, destroy_n_length, hbl, capacity_put]
        exact hdlen
      · intro j hj
        simp only [Vector.slots, hsl]
        rw [destroy_n_getElem?_outside _ _ _ _ (by omega), q3 j, if_pos hj]
        exact Holds_getElem? hs j hj
    · rw [if_neg h2]
      obtain ⟨q1, q2, q3⟩ := copy_assign_loop_ok E src dst.data_.capacity_ ld.length 0 dst.slots
        (by
          intro k hk
          obtain ⟨a, ha1, hmem, _⟩ := Holds_live hs k (by omega)
          exact ⟨a, by simpa using ha1, (hc a hmem).2⟩)
        (by
          intro k hk
          obtain ⟨a, ha1, _⟩ := Holds_live hd k (by omega)
          exact ⟨a, by simpa using ha1⟩)
        (by omega) (by omega) (by omega)
      simp only [Nat.zero_add, Nat.zero_le, true_and] at q3
      rcases hres : Vector.copy_assign_loop E src dst.data_.capacity_ ld.length 0 dst.slots
        with ⟨b, e⟩
      rw [hres] at q1 q2 q3
      simp only at q1 q2 q3
      subst q1
      have hbl : b.length = dst.data_.slots.length := by simpa [Vector.slots] using q2
      obtain ⟨x1, x2, x3, x4⟩ := uninitialized_copy_n_ok E src.data_.slots ld.length
        (l.length - ld.length) b ld.length
        (by
          intro k hk
          obtain ⟨a, ha1, hmem, _⟩ := Holds_live hs (ld.length + k) (by omega)
          exact ⟨a, by simpa [Vector.slots] using ha1, (hc a hmem).1⟩)
        (by rw [hbl, hdlen]; omega)
      simp only [x1, x2, put_slots, Vector.plain, capacity_put]
      refine ⟨trivial, ?_, trivial, trivial⟩
      have hsl : (dst.data_.put (uninitialized_copy_n E src.data_.slots ld.length
          (l.length - ld.length) b ld.length).dst).slots =
          (uninitialized_copy_n E src.data_.slots ld.length
          (l.length - ld.length) b ld.length).dst :=
        slots_put _ _ (by rw [x3, hbl])
      apply Holds_of_getElem?
      · rfl
      · simp only [Vector.slots, hsl, x3, hbl, capacity_put]
        exact hdlen
      · intro j hj
        simp only [Vector.slots, hsl]
        rw [x4 j]
        by_cases hjd : j < ld.length
        · rw [if_neg (by omega), q3 j, if_pos hjd]
          exact Holds_getElem? hs j hj
        · rw [if_pos (by omega)]
          have e : ld.length + (j - ld.length) = j := by omega
          rw [e]
          simpa [Vector.slots] using Holds_getElem? hs j hj

theorem uninitialized_value_construct_loop_ok {T : Type} (E : Env T) (p0 : Nat) (x : T)
    (hvi : E.valueInit = some x) (n : Nat) : ∀ (done : Nat) (b : Block T),
    p0 + done + n ≤ b.length →
    (uninitialized_value_construct_loop E p0 n done b).2 = none ∧
    (uninitialized_value_construct_loop E p0 n done b).1.length = b.length ∧
    (∀ j, (uninitialized_value_construct_loop E p0 n done b).1[j]? =
      if p0 + done ≤ j ∧ j < p0 + done + n then some (some x) else b[j]?) := by
  induction n with
  | zero =>
    intro done b _
    refine ⟨rfl, rfl, ?_⟩
    intro j
    rw [if_neg (by omega)]
    rfl
  | succ n ih =>
    intro done b hlen
    have hlt : p0 + done < b.length := by omega
    have hstep : uninitialized_value_construct_loop E p0 (n + 1) done b =
        uninitialized_value_construct_loop E p0 n (done + 1) (b.set (p0 + done) (some x)) := by
      simp only [uninitialized_value_construct_loop, hlt, if_true, hvi]
    rw [hstep]
    obtain ⟨q1, q2, q3⟩ := ih (done + 1) (b.set (p0 + done) (some x))
      (by simp only [List.length_set]; omega)
    refine ⟨q1, by simpa using q2, ?_⟩
    intro j
    rw [q3 j]
    by_cases hj : j = p0 + done
    · subst hj
      rw [if_neg (by omega), if_pos (by omega), List.getElem?_set_self hlt]
    · by_cases hin : p0 + (done + 1) ≤ j ∧ j < p0 + (done + 1) + n
      · rw [if_pos hin, if_pos (by omega)]
      · rw [if_neg hin, if_neg (by omega), List.getElem?_set_ne (by omega)]

/-- What `Reserve` leaves when it does not fail, whether it reallocates or not. -/
theorem Reserve_ok {T : Type} (E : Env T) (v : Vector T) (l : List T) (m : Nat)
    (hv : v.Holds l) (hg : v.Capacity < m → E.AllocOk m ∧ E.RelocOk l) :
    (v.Reserve E m).ret = .ok () ∧ (v.Reserve E m).vec.Holds l ∧
      (v.Reserve E m).vec.data_.capacity_ = max v.data_.capacity_ m := by
  by_cases hm : v.Capacity < m
  · obtain ⟨ha, hr⟩ := hg hm
    obtain ⟨h1, h2, h3⟩ := Reserve_grow E v l m hv hm ha hr
    refine ⟨h1, h2, ?_⟩
    simp only [Vector.Capacity, RawMemory.Capacity] at hm
    rw [h3]
    omega
  · have hle : m ≤ v.data_.Capacity := by
      simp only [Vector.Capacity] at hm; omega
    unfold Vector.Reserve
    rw [if_pos hle]
    refine ⟨rfl, hv, ?_⟩
    simp only [Vector.plain, RawMemory.Capacity] at hle ⊢
    omega

theorem Resize_shrink_ok {T : Type} (E : Env T) (v : Vector T) (l : List T) (m : Nat)
    (hv : v.Holds l) (hm : m ≤ l.length) :
    (v.Resize E m).ret = .ok () ∧ (v.Resize E m).vec.Holds (l.take m) ∧
      (v.Resize E m).vec.data_.capacity_ = v.data_.capacity_ := by
  have hsz := hv.1
  have hlen := hv.2.1
  simp only [Vector.slots] at hlen
  unfold Vector.Resize
  by_cases h1 : m < v.size_
  · rw [if_pos h1]
    refine ⟨rfl, ?_, rfl⟩
    simp only [Vector.plain]
    have hsl : (v.data_.put (destroy_n v.data_.slots m (v.size_ - m))).slots =
        destroy_n v.data_.slots m (v.size_ - m) :=
      slots_put _ _ (by rw [destroy_n_length])
    apply Holds_of_getElem?
    · simp only [List.length_take]; omega
    · simp only [Vector.slots, hsl, destroy_n_length, capacity_put]
      exact hlen
    · intro j hj
      simp only [List.length_take] at hj
      simp only [Vector.slots, hsl]
      rw [destroy_n_getElem?_outside _ _ _ _ (by omega), List.getElem?_take, if_pos (by omega)]
      simpa [Vector.slots] using Holds_getElem? hv j (by omega)
  · have h2 : ¬ m > v.size_ := by omega
    have h3 : m = l.length := by omega
    rw [if_neg h1, if_neg h2]
    refine ⟨rfl, ?_, rfl⟩
    simp only [Vector.plain]
    subst h3
    rw [List.take_length]
    exact ⟨rfl, hv.2.1, by rw [← hsz]; exact hv.2.2⟩

theorem Resize_grow_ok {T : Type} (E : Env T) (v : Vector T) (l : List T) (m : Nat) (d : T)
    (hv : v.Holds l) (hm : l.length < m) (hd : E.valueInit = some d)
    (hg : v.Capacity < m → E.AllocOk m ∧ E.RelocOk l) :
    (v.Resize E m).ret = .ok () ∧
      (v.Resize E m).vec.Holds (l ++ List.replicate (m - l.length) d) ∧
      (v.Resize E m).vec.data_.capacity_ = max v.data_.capacity_ m := by
  have hsz := hv.1
  obtain ⟨r1, r2, r3⟩ := Reserve_ok E v l m hv hg
  have rlen := r2.2.1
  simp only [Vector.slots] at rlen
  obtain ⟨q1, q2, q3⟩ := uninitialized_value_construct_loop_ok E l.length d hd (m - l.length) 0
    (v.Reserve E m).vec.data_.slots (by rw [rlen, r3]; omega)
  simp only [Nat.add_zero] at q1 q2 q3
  unfold Vector.Resize
  rw [if_neg (by omega), if_pos (by omega)]
  simp only [r1, uninitialized_value_construct_n, hsz]
  rcases hres : uninitialized_value_construct_loop E l.length (m - l.length) 0
    (v.Reserve E m).vec.data_.slots with ⟨b, e⟩
  rw [hres] at q1 q2 q3
  simp only at q1 q2 q3
  subst q1
  simp only [capacity_put]
  refine ⟨trivial, ?_, r3⟩
  have hsl : ((v.Reserve E m).vec.data_.put b).slots = b := slots_put _ _ q2
  apply Holds_of_getElem?
  · simp only [List.length_append, List.length_replicate]; omega
  · simp only [Vector.slots, hsl, capacity_put, q2]
    exact rlen
  · intro j hj
    simp only [List.length_append, List.length_replicate] at hj
    simp only [Vector.slots, hsl]
    rw [q3 j, List.getElem?_append]
    by_cases hjl : j < l.length
    · rw [if_neg (by omega), if_pos hjl]
      simpa [Vector.slots] using Holds_getElem? r2 j hjl
    · rw [if_pos (by omega), if_neg hjl, List.getElem?_replicate, if_pos (by omega)]
      rfl

theorem insert_then_erase_list {T : Type} (l : List T) (i : Nat) (x : T) (hi : i ≤ l.length) :
    (l.take i ++ x :: l.drop i).take i ++ (l.take i ++ x :: l.drop i).drop (i + 1) = l := by
  apply List.ext_getElem?
  intro j
  rw [erase_getElem? _ i (by
    simp only [List.length_append, List.length_take, List.length_cons, List.length_drop]
    omega)]
  by_cases hj : j < i
  · rw [if_pos hj, insert_getElem? l i x hi, if_pos hj]
  · rw [if_neg hj, insert_getElem? l i x hi, if_neg (by omega), if_neg (by omega)]
    rfl

theorem insert_drop_list {T : Type} (l : List T) (i : Nat) (x : T) (hi : i ≤ l.length) :
    (l.take i ++ x :: l.drop i).drop (i + 1) = l.drop i := by
  apply List.ext_getElem?
  intro j
  rw [List.getElem?_drop, List.getElem?_drop, insert_getElem? l i x hi, if_neg (by omega),
    if_neg (by omega)]
  congr 1
  omega

/-- For a trivially destructible element type, when nothing throws and the allocation is
granted: one insertion followed by the erasure at the same position gives back a
container holding the same elements, with room for one more. -/
theorem insertThenErase_ok {T : Type} (E : Env T) (v : Vector T) (l : List T) (i : Nat) (x : T)
    (hv : v.Holds l) (hi : i ≤ l.length) (hx : E.copyThrows x = false)
    (hgrow : v.size_ = v.Capacity → E.AllocOk (max 1 (2 * l.length)) ∧ E.RelocOk l)
    (hshift : E.MoveOk (x :: l.drop i)) (htriv : E.is_trivially_destructible = true) :
    ∃ v1, insertThenErase E v i x = .ok v1 ∧ v1.Holds l ∧ v1.size_ ≠ v1.Capacity ∧
      v.data_.capacity_ ≤ v1.data_.capacity_ := by
  have hins : v.Insert E i x = v.Emplace E i (some x) := by
    simp [Vector.Insert, Env.copyCtor, hx]
  have key : (v.Emplace E i (some x)).ret = .ok i ∧
      (v.Emplace E i (some x)).vec.Holds (l.take i ++ x :: l.drop i) ∧
      v.data_.capacity_ ≤ (v.Emplace E i (some x)).vec.data_.capacity_ := by
    by_cases hfull : v.size_ = v.Capacity
    · obtain ⟨ha, hr⟩ := hgrow hfull
      obtain ⟨h1, h2, h3⟩ := Emplace_grow_ok E v l i x hv hi hfull ha hr
      refine ⟨h1, h2, ?_⟩
      have := Holds_size_le h2
      have hc : v.data_.capacity_ = l.length := by
        rw [← hv.1]; exact hfull.symm
      rw [h3, hc]
      omega
    · by_cases hlt : i < l.length
      · obtain ⟨h1, h2, h3⟩ := Emplace_mid_ok E v l i x hv hlt hfull hshift
        exact ⟨h1, h2, by rw [h3]⟩
      · have hie : i = l.length := by omega
        subst hie
        obtain ⟨h1, h2, h3⟩ := Emplace_end_ok E v l x hv hfull
        exact ⟨h1, by simpa using h2, by rw [h3]⟩
  obtain ⟨k1, k2, k3⟩ := key
  have hlen : (l.take i ++ x :: l.drop i).length = l.length + 1 := by
    simp only [List.length_append, List.length_take, List.length_cons, List.length_drop]
    omega
  have hma : E.MoveAssignOk ((l.take i ++ x :: l.drop i).drop (i + 1)) := by
    rw [insert_drop_list l i x hi]
    intro a ha
    exact (hshift a (List.mem_cons_of_mem _ ha)).2
  obtain ⟨e1, e2, e3⟩ := Erase_ok E (v.Emplace E i (some x)).vec _ i k2 (by omega) hma
    (Or.inl htriv)
  rw [insert_then_erase_list l i x hi] at e2
  refine ⟨((v.Emplace E i (some x)).vec.Erase E i).vec, ?_, e2, ?_, ?_⟩
  · simp only [insertThenErase, hins, k1, e1]
  · have hcap := Holds_size_le k2
    rw [hlen] at hcap
    simp only [Vector.Capacity, RawMemory.Capacity, e3, e2.1]
    omega
  · rw [e3]
    exact k3

/-- For a trivially destructible element type, when nothing throws and the allocation is
granted: any number of insertions each followed by the erasure at the same position give
back a container holding the same elements. -/
theorem roundTrips_ok {T : Type} (E : Env T) (l : List T) (i : Nat) (x : T)
    (hi : i ≤ l.length) (hx : E.copyThrows x = false) (hshift : E.MoveOk (x :: l.drop i))
    (htriv : E.is_trivially_destructible = true)
    (k : Nat) : ∀ (v : Vector T), v.Holds l →
    (v.size_ = v.Capacity → E.AllocOk (max 1 (2 * l.length)) ∧ E.RelocOk l) →
    ∃ v1, roundTrips E i x k v = .ok v1 ∧ v1.Holds l := by
  induction k with
  | zero =>
    intro v hv _
    exact ⟨v, rfl, hv⟩
  | succ k ih =>
    intro v hv hgrow
    obtain ⟨v1, h1, h2, h3, _⟩ := insertThenErase_ok E v l i x hv hi hx hgrow hshift htriv
    obtain ⟨v2, g1, g2⟩ := ih v1 h2 (fun h => absurd h h3)
    exact ⟨v2, by simp only [roundTrips, h1, g1], g2⟩

/-- The outcome of the construction loop records the constructor the loop was given. -/
theorem uninitialized_loop_kind {T : Type} (kind : CtorKind) (build : T → Option (T × T))
    (s d : Nat) (n : Nat) : ∀ (done : Nat) (src dst : Block T),
    (uninitialized_loop kind build s d n done src dst).kind = kind := by
  induction n with
  | zero => intro done src dst; rfl
  | succ n ih =>
    intro done src dst
    unfold uninitialized_loop
    split
    · split
      · split
        · rfl
        · exact ih _ _ _
      · rfl
    · rfl

theorem InitUninitData_kind {T : Type} (E : Env T) (src : Block T) (s n : Nat) (dst : Block T)
    (d : Nat) : (Vector.InitUninitData E src s n dst d).kind = E.relocKind := by
  rw [InitUninitData_eq, uninitialized_loop_kind]

theorem catchAll_kind {T : Type} (E : Env T) (x : Xfer T) (p n : Nat) :
    (Vector.catchAll E x p n).kind = x.kind := by
  unfold Vector.catchAll
  split
  · split <;> rfl
  · rfl

theorem copies_add_moves {T : Type} (x : Xfer T) :
    Vector.copiesOf x + Vector.movesOf x = x.built := by
  unfold Vector.copiesOf Vector.movesOf
  split <;> simp

theorem EmplaceBack_grow_counts {T : Type} (E : Env T) (v : Vector T) (l : List T) (x : T)
    (hv : v.Holds l) (hfull : v.size_ = v.Capacity)
    (ha : E.AllocOk (max 1 (2 * l.length))) (hr : E.RelocOk l) :
    (v.EmplaceBack E (some x)).copies + (v.EmplaceBack E (some x)).moves = l.length := by
  have hc : max 1 (2 * l.length) ≠ 0 := by omega
  have hic : l.length ≤ max 1 (2 * l.length) := by omega
  have hic2 : l.length < max 1 (2 * l.length) := by omega
  have hsz := hv.1
  have hloop1 := uninitialized_loop_ok E.relocKind E.relocCtor 0 0 l.length 0 v.data_.slots
    ((List.replicate (max 1 (2 * l.length)) none).set l.length (some x))
    (by
      intro k hk
      obtain ⟨a, ha1, hmem, _⟩ := Holds_live hv k (by omega)
      exact ⟨a, by simpa using ha1, relocCtor_fst E a (hr a hmem)⟩)
    (by simp only [List.length_set, List.length_replicate]; omega)
  simp only [Nat.zero_add, Nat.add_zero, Nat.sub_zero, Nat.zero_le, true_and] at hloop1
  obtain ⟨p1, p2, _⟩ := hloop1
  unfold Vector.EmplaceBack
  rw [if_pos hfull]
  simp only [hsz, if_true, grownCapacity_eq E v l.length hsz ha, create_ok E _ ha hc,
    RawMemory.add, hic, construct_at, slots_mk, List.length_replicate, hic2, InitUninitData_eq,
    p1, copies_add_moves, p2]

theorem EmplaceBack_room_counts {T : Type} (E : Env T) (v : Vector T) (args : Option T)
    (hroom : v.size_ ≠ v.Capacity) :
    (v.EmplaceBack E args).copies = 0 ∧ (v.EmplaceBack E args).moves = 0 := by
  unfold Vector.EmplaceBack
  rw [if_neg hroom]
  cases hadd : v.data_.add v.size_ with
  | error e => exact ⟨rfl, rfl⟩
  | ok p =>
    simp only
    cases hcon : construct_at v.data_.slots p args with
    | error e => exact ⟨rfl, rfl⟩
    | ok b => exact ⟨rfl, rfl⟩

theorem clog_succ_of_eq (n : Nat) (hn : 1 ≤ n) (h : n = 2 ^ Nat.clog 2 n) :
    Nat.clog 2 (n + 1) = Nat.clog 2 n + 1 := by
  apply Nat.le_antisymm
  · rw [← Nat.le_pow_iff_clog_le (by norm_num), Nat.pow_succ]
    omega
  · have : Nat.clog 2 n < Nat.clog 2 (n + 1) := by
      rw [← Nat.pow_lt_iff_lt_clog (by norm_num)]
      omega
    omega

theorem clog_succ_of_lt (n : Nat) (h : n < 2 ^ Nat.clog 2 n) :
    Nat.clog 2 (n + 1) = Nat.clog 2 n := by
  apply Nat.le_antisymm
  · rw [← Nat.le_pow_iff_clog_le (by norm_num)]
    omega
  · exact Nat.clog_mono_right 2 (by omega)

theorem pow_clog_lt_double (n : Nat) (hn : 1 ≤ n) : 2 ^ Nat.clog 2 n < 2 * n := by
  by_cases h1 : n = 1
  · subst h1
    simp
  · have h2 : 1 < n := by omega
    have h3 := Nat.pow_pred_clog_lt_self (b := 2) (by norm_num) h2
    have h4 : 0 < Nat.clog 2 n := Nat.clog_pos (by norm_num) (by omega)
    have h5 : Nat.clog 2 n = (Nat.clog 2 n).pred + 1 := by
      rw [Nat.pred_eq_sub_one]; omega
    rw [h5, Nat.pow_succ]
    omega

/-- Appending `xs` to a non-empty container whose capacity is the least power of two
not below its size: the run completes, and capacity, reallocations and transfers follow
the powers of two. -/
theorem appendCount_from {T : Type} (E : Env T) (xs : List T) :
    ∀ (v : Vector T) (l : List T), v.Holds l → 1 ≤ l.length →
    v.data_.capacity_ = 2 ^ Nat.clog 2 l.length →
    (∀ c, 1 ≤ c → c ≤ 2 ^ Nat.clog 2 (l.length + xs.length) → E.AllocOk c) →
    E.RelocOk (l ++ xs) →
    ∃ s, appendCount E v xs = .ok s ∧ s.vec.Holds (l ++ xs) ∧
      s.vec.data_.capacity_ = 2 ^ Nat.clog 2 (l.length + xs.length) ∧
      s.reallocations + Nat.clog 2 l.length = Nat.clog 2 (l.length + xs.length) ∧
      s.transfers + 2 ^ Nat.clog 2 l.length = 2 ^ Nat.clog 2 (l.length + xs.length) := by
  induction xs with
  | nil =>
    intro v l hv _ hcap _ _
    refine ⟨⟨v, 0, 0⟩, rfl, by simpa using hv, by simpa using hcap, by simp, by simp⟩
  | cons x xs ih =>
    intro v l hv hn hcap halloc hreloc
    have hlen : l.length + (x :: xs).length = (l ++ [x]).length + xs.length := by
      simp only [List.length_cons, List.length_append, List.length_nil]; omega
    have hl1 : (l ++ [x]).length = l.length + 1 := by simp
    have hrl : E.RelocOk l := fun a ha => hreloc a (List.mem_append_left _ ha)
    have hmono : Nat.clog 2 (l.length + 1) ≤ Nat.clog 2 (l.length + (x :: xs).length) :=
      Nat.clog_mono_right 2 (by simp only [List.length_cons]; omega)
    have hpmono : 2 ^ Nat.clog 2 (l.length + 1) ≤ 2 ^ Nat.clog 2 (l.length + (x :: xs).length) :=
      Nat.pow_le_pow_right (by norm_num) hmono
    have happ : l ++ x :: xs = (l ++ [x]) ++ xs := by simp
    by_cases hfull : v.size_ = v.Capacity
    · -- the container is full: the call reallocates and relocates all the elements
      have hpow : l.length = 2 ^ Nat.clog 2 l.length := by
        rw [← hcap, ← hv.1]; exact hfull
      have hcl := clog_succ_of_eq l.length hn hpow
      have hmax : max 1 (2 * l.length) = 2 ^ Nat.clog 2 (l.length + 1) := by
        rw [hcl, Nat.pow_succ, ← hpow]; omega
      have ha : E.AllocOk (max 1 (2 * l.length)) := by
        rw [hmax]
        exact halloc _ (Nat.one_le_two_pow) hpmono
      obtain ⟨g1, g2, g3⟩ := EmplaceBack_grow_ok E v l x hv hfull ha hrl
      have g4 := EmplaceBack_grow_counts E v l x hv hfull ha hrl
      obtain ⟨s, s1, s2, s3, s4, s5⟩ := ih _ (l ++ [x]) g2 (by rw [hl1]; omega)
        (by rw [g3, hmax, hl1])
        (by rw [← hlen]; exact halloc)
        (by rw [← happ]; exact hreloc)
      rw [← hlen] at s3 s4 s5
      rw [hl1] at s4 s5
      refine ⟨⟨s.vec, 1 + s.reallocations, l.length + s.transfers⟩, ?_, ?_, s3, ?_, ?_⟩
      · simp only [appendCount, g1, s1, hfull, if_true, g4]
      · rw [happ]; exact s2
      · simp only; omega
      · simp only
        rw [hcl, Nat.pow_succ] at s5
        omega
    · -- the container has room: nothing is relocated
      have hlt : l.length < 2 ^ Nat.clog 2 l.length := by
        have h1 := Holds_size_le hv
        have h2 : l.length ≠ v.data_.capacity_ := by
          rw [← hv.1]; exact hfull
        rw [hcap] at h1 h2
        omega
      have hcl := clog_succ_of_lt l.length hlt
      obtain ⟨g1, g2, g3⟩ := EmplaceBack_room_ok E v l x hv hfull
      obtain ⟨g4, g5⟩ := EmplaceBack_room_counts E v (some x) hfull
      obtain ⟨s, s1, s2, s3, s4, s5⟩ := ih _ (l ++ [x]) g2 (by rw [hl1]; omega)
        (by rw [g3, hcap, hl1, hcl])
        (by rw [← hlen]; exact halloc)
        (by rw [← happ]; exact hreloc)
      rw [← hlen] at s3 s4 s5
      rw [hl1, hcl] at s4 s5
      refine ⟨⟨s.vec, 0 + s.reallocations, 0 + s.transfers⟩, ?_, ?_, s3, ?_, ?_⟩
      · simp only [appendCount, g1, s1, hfull, if_false, g4, g5]
      · rw [happ]; exact s2
      · simp only; omega
      · simp only; omega

/-- The first append to an empty container of capacity 0. -/
theorem EmplaceBack_first {T : Type} (E : Env T) (x : T) (ha : E.AllocOk 1) :
    (Vector.empty.EmplaceBack E (some x)).ret = .ok 0 ∧
      (Vector.empty.EmplaceBack E (some x)).vec.Holds [x] ∧
      (Vector.empty.EmplaceBack E (some x)).vec.data_.capacity_ = 1 ∧
      (Vector.empty.EmplaceBack E (some x)).copies +
        (Vector.empty.EmplaceBack E (some x)).moves = 0 := by
  have hv : (Vector.empty : Vector T).Holds [] := ⟨rfl, rfl, rfl⟩
  have hr : E.RelocOk ([] : List T) := fun a h => by cases h
  obtain ⟨g1, g2, g3⟩ := EmplaceBack_grow_ok E Vector.empty [] x hv rfl ha hr
  exact ⟨g1, by simpa using g2, g3, EmplaceBack_grow_counts E Vector.empty [] x hv rfl ha hr⟩

theorem copiesOf_move {T : Type} (x : Xfer T) (h : x.kind = .move) :
    Vector.copiesOf x = 0 ∧ Vector.movesOf x = x.built := by
  simp [Vector.copiesOf, Vector.movesOf, h]

theorem movesOf_copy {T : Type} (x : Xfer T) (h : x.kind = .copy) :
    Vector.movesOf x = 0 ∧ Vector.copiesOf x = x.built := by
  simp [Vector.copiesOf, Vector.movesOf, h]

theorem relocKind_move {T : Type} (E : Env T) (h : Vector.relocateByMove E = true) :
    E.relocKind = .move := by
  simp [Env.relocKind, h]

theorem relocKind_copy {T : Type} (E : Env T) (h : Vector.relocateByMove E = false) :
    E.relocKind = .copy := by
  simp [Env.relocKind, h]

/-- No copy constructor call is recorded by `InitUninitData` when it relocates by move. -/
theorem copiesOf_zero {T : Type} (E : Env T) (h : Vector.relocateByMove E = true)
    (src : Block T) (s n : Nat) (dst : Block T) (d : Nat) :
    Vector.copiesOf (Vector.InitUninitData E src s n dst d) = 0 :=
  (copiesOf_move _ (by rw [InitUninitData_kind, relocKind_move E h])).1

/-- No move constructor call is recorded by `InitUninitData` when it relocates by copy. -/
theorem movesOf_zero {T : Type} (E : Env T) (h : Vector.relocateByMove E = false)
    (src : Block T) (s n : Nat) (dst : Block T) (d : Nat) :
    Vector.movesOf (Vector.InitUninitData E src s n dst d) = 0 :=
  (movesOf_copy _ (by rw [InitUninitData_kind, relocKind_copy E h])).1

theorem copiesOf_catchAll_zero {T : Type} (E : Env T) (h : Vector.relocateByMove E = true)
    (src : Block T) (s n : Nat) (dst : Block T) (d p k : Nat) :
    Vector.copiesOf (Vector.catchAll E (Vector.InitUninitData E src s n dst d) p k) = 0 :=
  (copiesOf_move _ (by rw [catchAll_kind, InitUninitData_kind, relocKind_move E h])).1

theorem movesOf_catchAll_zero {T : Type} (E : Env T) (h : Vector.relocateByMove E = false)
    (src : Block T) (s n : Nat) (dst : Block T) (d p k : Nat) :
    Vector.movesOf (Vector.catchAll E (Vector.InitUninitData E src s n dst d) p k) = 0 :=
  (movesOf_copy _ (by rw [catchAll_kind, InitUninitData_kind, relocKind_copy E h])).1

theorem Reserve_copies_zero {T : Type} (E : Env T) (v : Vector T) (m : Nat)
    (h : Vector.relocateByMove E = true) : (v.Reserve E m).copies = 0 := by
  unfold Vector.Reserve
  simp only [copiesOf_zero E h, copiesOf_catchAll_zero E h, Vector.plain]
  repeat' split
  all_goals rfl

theorem Reserve_moves_zero {T : Type} (E : Env T) (v : Vector T) (m : Nat)
    (h : Vector.relocateByMove E = false) : (v.Reserve E m).moves = 0 := by
  unfold Vector.Reserve
  simp only [movesOf_zero E h, movesOf_catchAll_zero E h, Vector.plain]
  repeat' split
  all_goals rfl

theorem EmplaceBack_copies_zero {T : Type} (E : Env T) (v : Vector T) (args : Option T)
    (h : Vector.relocateByMove E = true) : (v.EmplaceBack E args).copies = 0 := by
  unfold Vector.EmplaceBack
  simp only [copiesOf_zero E h, copiesOf_catchAll_zero E h, Vector.plain]
  repeat' split
  all_goals rfl

theorem EmplaceBack_moves_zero {T : Type} (E : Env T) (v : Vector T) (args : Option T)
    (h : Vector.relocateByMove E = false) : (v.EmplaceBack E args).moves = 0 := by
  unfold Vector.EmplaceBack
  simp only [movesOf_zero E h, movesOf_catchAll_zero E h, Vector.plain]
  repeat' split
  all_goals rfl

theorem Emplace_copies_zero {T : Type} (E : Env T) (v : Vector T) (pos : Nat)
    (args : Option T) (h : Vector.relocateByMove E = true) :
    (v.Emplace E pos args).copies = 0 := by
  unfold Vector.Emplace
  simp only [copiesOf_zero E h, copiesOf_catchAll_zero E h, Vector.plain]
  repeat' split
  all_goals rfl

theorem Emplace_moves_zero {T : Type} (E : Env T) (v : Vector T) (pos : Nat)
    (args : Option T) (h : Vector.relocateByMove E = false) :
    (v.Emplace E pos args).moves = 0 := by
  unfold Vector.Emplace
  simp only [movesOf_zero E h, movesOf_catchAll_zero E h, Vector.plain]
  repeat' split
  all_goals rfl

theorem Reserve_grow_counts {T : Type} (E : Env T) (v : Vector T) (l : List T) (m : Nat)
    (hv : v.Holds l) (hm : v.Capacity < m) (ha : E.AllocOk m) (hr : E.RelocOk l) :
    (v.Reserve E m).copies + (v.Reserve E m).moves = l.length := by
  have hloop := uninitialized_loop_ok E.relocKind E.relocCtor 0 0 l.length 0 v.data_.slots
    (List.replicate m none)
    (by
      intro k hk
      obtain ⟨x, hx, hmem, _⟩ := Holds_live hv k hk
      refine ⟨x, by simpa using hx, relocCtor_fst E x (hr x hmem)⟩)
    (by
      have := Holds_size_le hv
      simp only [Vector.Capacity, RawMemory.Capacity] at hm
      simp only [List.length_replicate]; omega)
  obtain ⟨h1, h2, _⟩ := hloop
  have hm' : ¬ m ≤ v.data_.Capacity := by
    simp only [Vector.Capacity] at hm; omega
  have hm0 : m ≠ 0 := by omega
  unfold Vector.Reserve
  rw [if_neg hm', create_ok E m ha hm0]
  simp only [InitUninitData_eq, slots_mk, hv.1, h1, copies_add_moves, h2, Nat.zero_add]

theorem Emplace_grow_counts {T : Type} (E : Env T) (v : Vector T) (l : List T) (i : Nat) (x : T)
    (hv : v.Holds l) (hi : i ≤ l.length) (hfull : v.size_ = v.Capacity)
    (ha : E.AllocOk (max 1 (2 * l.length))) (hr : E.RelocOk l) :
    (v.Emplace E i (some x)).copies + (v.Emplace E i (some x)).moves = l.length := by
  have hc : max 1 (2 * l.length) ≠ 0 := by omega
  have hic : i ≤ max 1 (2 * l.length) := by omega
  have hic2 : i < max 1 (2 * l.length) := by omega
  have hsz := hv.1
  have hloop1 := uninitialized_loop_ok E.relocKind E.relocCtor 0 0 i 0 v.data_.slots
    ((List.replicate (max 1 (2 * l.length)) none).set i (some x))
    (by
      intro k hk
      obtain ⟨a, ha1, hmem, _⟩ := Holds_live hv k (by omega)
      exact ⟨a, by simpa using ha1, relocCtor_fst E a (hr a hmem)⟩)
    (by simp only [List.length_set, List.length_replicate]; omega)
  simp only [Nat.zero_add, Nat.add_zero, Nat.sub_zero] at hloop1
  obtain ⟨p1, p2, p3, p4, p5, p6⟩ := hloop1
  have hloop2 := uninitialized_loop_ok E.relocKind E.relocCtor i (i + 1) (l.length - i) 0
    (uninitialized_loop E.relocKind E.relocCtor 0 0 i 0 v.data_.slots
      ((List.replicate (max 1 (2 * l.length)) none).set i (some x))).src
    (uninitialized_loop E.relocKind E.relocCtor 0 0 i 0 v.data_.slots
      ((List.replicate (max 1 (2 * l.length)) none).set i (some x))).dst
    (by
      intro k hk
      obtain ⟨a, ha1, hmem, _⟩ := Holds_live hv (i + k) (by omega)
      refine ⟨a, ?_, relocCtor_fst E a (hr a hmem)⟩
      rw [p6 _ (by omega)]
      simpa using ha1)
    (by rw [p3]; simp only [List.length_set, List.length_replicate]; omega)
  simp only [Nat.zero_add, Nat.add_zero] at hloop2
  obtain ⟨q1, q2, _⟩ := hloop2
  unfold Vector.Emplace
  simp only [Vector.begin_, Nat.sub_zero, Nat.zero_add, hfull, if_true,
    grownCapacity_eq E v l.length hsz ha, create_ok E _ ha hc, RawMemory.add, hic, construct_at,
    slots_mk, List.length_replicate, hic2, InitUninitData_eq, catchAll_ok _ _ _ _ p1, p1, end_ok hv]
  simp only [catchAll_ok _ _ _ _ q1, q1]
  have e1 := copies_add_moves (uninitialized_loop E.relocKind E.relocCtor 0 0 i 0 v.data_.slots
      ((List.replicate (max 1 (2 * l.length)) none).set i (some x)))
  have e2 := copies_add_moves (uninitialized_loop E.relocKind E.relocCtor i (i + 1) (l.length - i) 0
    (uninitialized_loop E.relocKind E.relocCtor 0 0 i 0 v.data_.slots
      ((List.replicate (max 1 (2 * l.length)) none).set i (some x))).src
    (uninitialized_loop E.relocKind E.relocCtor 0 0 i 0 v.data_.slots
      ((List.replicate (max 1 (2 * l.length)) none).set i (some x))).dst)
  rw [p2] at e1
  rw [q2] at e2
  omega

theorem InitUninitData_ignores_copy {T : Type} (E : Env T)
    (h : Vector.relocateByMove E = true) (f : T → Bool) (src : Block T) (s n : Nat)
    (dst : Block T) (d : Nat) :
    Vector.InitUninitData { E with copyThrows := f } src s n dst d =
      Vector.InitUninitData E src s n dst d := by
  have h2 : Vector.relocateByMove { E with copyThrows := f } = true := h
  simp only [Vector.InitUninitData, h, h2, if_true]
  rfl

theorem InitUninitData_ignores_move {T : Type} (E : Env T)
    (h : Vector.relocateByMove E = false) (f : T → Bool) (g : T → T) (src : Block T) (s n : Nat)
    (dst : Block T) (d : Nat) :
    Vector.InitUninitData { E with moveThrows := f, movedFrom := g } src s n dst d =
      Vector.InitUninitData E src s n dst d := by
  have h2 : Vector.relocateByMove { E with moveThrows := f, movedFrom := g } = false := h
  simp only [Vector.InitUninitData, h, h2, Bool.false_eq_true, if_false]
  rfl

theorem InitUninitData_zero {T : Type} (E : Env T) (src : Block T) (s : Nat) (dst : Block T)
    (d : Nat) : Vector.InitUninitData E src s 0 dst d = ⟨src, dst, 0, none, E.relocKind⟩ := by
  rw [InitUninitData_eq]
  rfl

theorem add_eq_ok {T : Type} (m : RawMemory T) (k p : Nat) (h : m.add k = .ok p) : p = k := by
  unfold RawMemory.add at h
  split at h
  · simp only [Except.ok.injEq] at h
    exact h.symm
  · cases h

/-- Whenever `EmplaceBack` returns normally, `Emplace` at `end()` does exactly the same. -/
theorem Emplace_end_eq_EmplaceBack {T : Type} (E : Env T) (v : Vector T) (args : Option T)
    (p : Nat) (h : (v.EmplaceBack E args).ret = .ok p) :
    v.Emplace E v.size_ args = v.EmplaceBack E args := by
  unfold Vector.EmplaceBack at h ⊢
  unfold Vector.Emplace
  simp only [Vector.begin_, Nat.sub_zero, Nat.zero_add]
  by_cases hfull : v.size_ = v.Capacity
  · rw [if_pos hfull] at h ⊢
    rw [if_pos hfull]
    cases hcr : RawMemory.create E v.grownCapacity with
    | error e => rfl
    | ok new_data =>
      rw [hcr] at h
      simp only at h ⊢
      cases hadd : new_data.add v.size_ with
      | error e => rfl
      | ok q =>
        rw [hadd] at h
        simp only at h ⊢
        cases hcon : construct_at new_data.slots q args with
        | error e => rfl
        | ok b =>
          rw [hcon] at h
          simp only at h ⊢
          cases hx : (Vector.InitUninitData E v.data_.slots 0 v.size_ b 0).err with
          | some e =>
            rw [hx] at h
            cases h
          | none =>
            have hend : v.end_ = .ok v.size_ := by
              have : v.size_ ≤ v.data_.capacity_ := by
                simp only [Vector.Capacity, RawMemory.Capacity] at hfull
                omega
              simp [Vector.end_, RawMemory.add, this]
            simp only [catchAll_ok _ _ _ _ hx, hx, hend, Nat.sub_self, InitUninitData_zero]
            simp only [Vector.catchAll, Vector.copiesOf, Vector.movesOf, Nat.add_zero]
            cases E.relocKind <;> rfl
  · rw [if_neg hfull] at h ⊢
    rw [if_neg hfull]
    simp only [Vector.end_, Vector.slots]
    cases hadd : v.data_.add v.size_ with
    | error e => rfl
    | ok q =>
      have hq := add_eq_ok _ _ _ hadd
      subst hq
      simp [Vector.plain]

theorem create_capacity {T : Type} (E : Env T) (n : Nat) (m : RawMemory T)
    (h : RawMemory.create E n = .ok m) : m.capacity_ = n := by
  unfold RawMemory.create at h
  split at h
  · simp only [Except.ok.injEq] at h
    rw [← h]
  · cases h

theorem Reserve_capacity_le {T : Type} (E : Env T) (v : Vector T) (m : Nat)
    (h : (v.Reserve E m).ret = .ok ()) :
    v.data_.capacity_ ≤ (v.Reserve E m).vec.data_.capacity_ := by
  unfold Vector.Reserve at h ⊢
  by_cases hm : m ≤ v.data_.Capacity
  · rw [if_pos hm]
    exact Nat.le_refl _
  · rw [if_neg hm] at h ⊢
    cases hcr : RawMemory.create E m with
    | error e =>
      rw [hcr] at h
      cases h
    | ok new_data =>
      have hc := create_capacity E m new_data hcr
      rw [hcr] at h
      simp only at h ⊢
      cases hx : (Vector.InitUninitData E v.data_.slots 0 v.size_ new_data.slots 0).err with
      | some e =>
        rw [hx] at h
        cases h
      | none =>
        simp only [RawMemory.Swap, capacity_put, hc]
        simp only [RawMemory.Capacity] at hm
        omega

theorem Resize_capacity_le {T : Type} (E : Env T) (v : Vector T) (m : Nat)
    (h : (v.Resize E m).ret = .ok ()) :
    v.data_.capacity_ ≤ (v.Resize E m).vec.data_.capacity_ := by
  unfold Vector.Resize at h ⊢
  by_cases h1 : m < v.size_
  · rw [if_pos h1]
    exact Nat.le_refl _
  · rw [if_neg h1] at h ⊢
    by_cases h2 : m > v.size_
    · rw [if_pos h2] at h ⊢
      simp only at h ⊢
      cases hr : (v.Reserve E m).ret with
      | error e =>
        rw [hr] at h
        cases h
      | ok u =>
        have hle := Reserve_capacity_le E v m hr
        rw [hr] at h
        simp only at h ⊢
        rcases hres : uninitialized_value_construct_n E (v.Reserve E m).vec.data_.slots v.size_
          (m - v.size_) with ⟨b, e⟩
        rw [hres] at h
        cases e with
        | some e1 => cases h
        | none => exact hle
    · rw [if_neg h2]
      exact Nat.le_refl _

theorem EmplaceBack_capacity_le {T : Type} (E : Env T) (v : Vector T) (args : Option T)
    (p : Nat) (h : (v.EmplaceBack E args).ret = .ok p) :
    v.data_.capacity_ ≤ (v.EmplaceBack E args).vec.data_.capacity_ := by
  unfold Vector.EmplaceBack at h ⊢
  by_cases hfull : v.size_ = v.Capacity
  · rw [if_pos hfull] at h ⊢
    cases hcr : RawMemory.create E v.grownCapacity with
    | error e =>
      rw [hcr] at h
      cases h
    | ok new_data =>
      rw [hcr] at h
      simp only at h ⊢
      cases hadd : new_data.add v.size_ with
      | error e =>
        rw [hadd] at h
        try cases h
      | ok q =>
        have hle : v.size_ ≤ new_data.capacity_ := by
          unfold RawMemory.add at hadd
          split at hadd
          · assumption
          · cases hadd
        rw [hadd] at h
        simp only at h ⊢
        cases hcon : construct_at new_data.slots q args with
        | error e =>
          rw [hcon] at h
          try cases h
        | ok b =>
          rw [hcon] at h
          simp only at h ⊢
          cases hx : (Vector.InitUninitData E v.data_.slots 0 v.size_ b 0).err with
          | some e =>
            rw [hx] at h
            try cases h
          | none =>
            simp only [RawMemory.Swap, capacity_put]
            simp only [Vector.Capacity, RawMemory.Capacity] at hfull
            omega
  · rw [if_neg hfull]
    cases hadd : v.data_.add v.size_ with
    | error e => exact Nat.le_refl _
    | ok q =>
      simp only
      cases hcon : construct_at v.data_.slots q args with
      | error e => exact Nat.le_refl _
      | ok b => exact Nat.le_refl _

theorem Erase_capacity_eq {T : Type} (E : Env T) (v : Vector T) (pos : Nat) :
    (v.Erase E pos).vec.data_.capacity_ = v.data_.capacity_ := by
  unfold Vector.Erase
  simp only
  cases hend : v.end_ with
  | error e => rfl
  | ok q =>
    simp only
    rcases hres : move_range E v.slots (v.begin_ + (pos - v.begin_) + 1)
      (v.begin_ + (pos - v.begin_)) (q - (v.begin_ + (pos - v.begin_) + 1)) with ⟨b, e⟩
    cases e
    · simp only
      split <;> rfl
    · rfl

theorem copyCtor_capacity {T : Type} (E : Env T) (other c o2 : Vector T)
    (h : Vector.copyCtor E other = (.ok c, o2)) : c.data_.capacity_ = other.size_ := by
  unfold Vector.copyCtor at h
  cases hcr : RawMemory.create E other.size_ with
  | error e =>
    rw [hcr] at h
    simp at h
  | ok data =>
    have hc := create_capacity E _ data hcr
    rw [hcr] at h
    simp only at h
    split at h
    · simp only [Prod.mk.injEq, Except.ok.injEq] at h
      rw [← h.1]
      exact hc
    · simp at h

theorem copyAssign_capacity_le {T : Type} (E : Env T) (v other : Vector T) (same : Bool)
    (h : (Vector.copyAssign E v other same).1.ret = .ok ()) :
    v.data_.capacity_ ≤ (Vector.copyAssign E v other same).1.vec.data_.capacity_ := by
  unfold Vector.copyAssign at h ⊢
  by_cases hs : same = true
  · rw [if_pos hs]
    exact Nat.le_refl _
  · rw [if_neg hs] at h ⊢
    by_cases h1 : v.data_.Capacity < other.size_
    · rw [if_pos h1] at h ⊢
      rcases hcc : Vector.copyCtor E other with ⟨r, o2⟩
      rw [hcc] at h
      cases r with
      | error e =>
        cases h
      | ok c =>
        have hc := copyCtor_capacity E other c o2 hcc
        simp only [Vector.Swap, RawMemory.Swap, hc]
        simp only [RawMemory.Capacity] at h1
        omega
    · rw [if_neg h1] at h ⊢
      by_cases h2 : v.size_ ≥ other.size_
      · rw [if_pos h2]
        rcases hres : Vector.copy_assign_loop E other v.data_.capacity_ other.size_ 0 v.slots
          with ⟨b, e⟩
        cases e <;> exact Nat.le_refl _
      · rw [if_neg h2]
        rcases hres : Vector.copy_assign_loop E other v.data_.capacity_ v.size_ 0 v.slots
          with ⟨b, e⟩
        cases e with
        | some e1 => exact Nat.le_refl _
        | none =>
          simp only
          split <;> exact Nat.le_refl _

theorem grownCapacity_ge {T : Type} (v : Vector T) (h : 2 * v.size_ < SIZE_MOD) :
    v.size_ ≤ v.grownCapacity := by
  unfold Vector.grownCapacity
  split
  · omega
  · rw [Nat.mod_eq_of_lt (by omega)]
    omega

theorem Emplace_capacity_le {T : Type} (E : Env T) (v : Vector T) (pos : Nat)
    (args : Option T) (h : 2 * v.size_ < SIZE_MOD) :
    v.data_.capacity_ ≤ (v.Emplace E pos args).vec.data_.capacity_ := by
  unfold Vector.Emplace
  simp only [Vector.plain]
  by_cases hfull : v.size_ = v.Capacity
  · rw [if_pos hfull]
    cases hcr : RawMemory.create E v.grownCapacity with
    | error e => exact Nat.le_refl _
    | ok new_data =>
      have hc := create_capacity E _ new_data hcr
      have hg := grownCapacity_ge v h
      have hle : v.data_.capacity_ ≤ new_data.capacity_ := by
        simp only [Vector.Capacity, RawMemory.Capacity] at hfull
        omega
      simp only
      repeat' split
      all_goals first
        | exact Nat.le_refl _
        | (simp only [RawMemory.Swap, capacity_put]; exact hle)
  · rw [if_neg hfull]
    repeat' split
    all_goals exact Nat.le_refl _

/-- A completed run of the construction loop leaves in each source slot what the
constructor leaves in its source: `g x` for an object of value `x`. -/
theorem uninitialized_loop_src {T : Type} (kind : CtorKind) (build : T → Option (T × T))
    (g : T → T) (s d : Nat) (n : Nat) :
    ∀ (done : Nat) (src dst : Block T),
    (∀ k, k < n → ∃ x, src[s + done + k]? = some (some x) ∧ build x = some (x, g x)) →
    d + done + n ≤ dst.length →
    ∀ k, k < n → (uninitialized_loop kind build s d n done src dst).src[s + done + k]? =
      (src[s + done + k]?).map (Option.map g) := by
  induction n with
  | zero =>
    intro done src dst _ _ k hk
    omega
  | succ n ih =>
    intro done src dst hsrc hlen k hk
    obtain ⟨x, hx, hb⟩ := hsrc 0 (by omega)
    simp only [Nat.add_zero] at hx
    have hlt : d + done < dst.length := by omega
    have hstep : uninitialized_loop kind build s d (n + 1) done src dst =
        uninitialized_loop kind build s d n (done + 1)
          (src.set (s + done) (some (g x))) (dst.set (d + done) (some x)) := by
      simp [uninitialized_loop, hx, hlt, hb]
    rw [hstep]
    have hsrc2 : ∀ k, k < n → ∃ z, (src.set (s + done) (some (g x)))[s + (done + 1) + k]? =
        some (some z) ∧ build z = some (z, g z) := by
      intro k hk
      obtain ⟨z, hz, hbz⟩ := hsrc (k + 1) (by omega)
      refine ⟨z, ?_, hbz⟩
      rw [List.getElem?_set_ne (by omega)]
      rw [← hz]
      congr 1
      omega
    have hlen2 : d + (done + 1) + n ≤ (dst.set (d + done) (some x)).length := by
      simp only [List.length_set]; omega
    cases k with
    | zero =>
      have hok := uninitialized_loop_ok kind build s d n (done + 1)
        (src.set (s + done) (some (g x))) (dst.set (d + done) (some x))
        (by
          intro k hk
          obtain ⟨z, hz, hbz⟩ := hsrc2 k hk
          exact ⟨z, hz, by rw [hbz]; rfl⟩)
        hlen2
      simp only [Nat.add_zero]
      rw [hok.2.2.2.2.2 (s + done) (Or.inl (by omega)), hx]
      have hin : s + done < src.length := by
        by_contra hcon
        rw [List.getElem?_eq_none (by omega)] at hx
        cases hx
      simp [hin]
    | succ k =>
      have e := ih (done + 1) _ _ hsrc2 hlen2 k (by omega)
      have hidx : s + done + (k + 1) = s + (done + 1) + k := by omega
      rw [hidx, e, List.getElem?_set_ne (by omega)]

theorem relocateByMove_iff {T : Type} (E : Env T) :
    Vector.relocateByMove E = true ↔
      (E.is_nothrow_move_constructible = true ∨ E.is_copy_constructible = false) := by
  unfold Vector.relocateByMove
  cases E.is_nothrow_move_constructible <;> cases E.is_copy_constructible <;> simp

/-- Relocation by move, when no move throws: every element is move-constructed in the
destination, the source objects are left moved-from, and the constructor calls recorded
are `n` moves and no copy. -/
theorem InitUninitData_move_ok {T : Type} (E : Env T) (h : Vector.relocateByMove E = true)
    (src : Block T) (s n : Nat) (dst : Block T) (d : Nat)
    (hsrc : ∀ k, k < n → ∃ x, src[s + k]? = some (some x) ∧ E.moveThrows x = false)
    (hlen : d + n ≤ dst.length) :
    (Vector.InitUninitData E src s n dst d).err = none ∧
      Vector.movesOf (Vector.InitUninitData E src s n dst d) = n ∧
      Vector.copiesOf (Vector.InitUninitData E src s n dst d) = 0 ∧
      (∀ k, k < n → (Vector.InitUninitData E src s n dst d).dst[d + k]? = src[s + k]?) ∧
      (∀ k, k < n → (Vector.InitUninitData E src s n dst d).src[s + k]? =
        (src[s + k]?).map (Option.map E.movedFrom)) := by
  have hk := InitUninitData_kind E src s n dst d
  rw [relocKind_move E h] at hk
  have hc : E.relocCtor = E.moveCtor := by
    unfold Env.relocCtor
    rw [if_pos h]
  have hb : ∀ k, k < n → ∃ x, src[s + 0 + k]? = some (some x) ∧
      E.moveCtor x = some (x, E.movedFrom x) := by
    intro k hk
    obtain ⟨x, hx, hm⟩ := hsrc k hk
    exact ⟨x, by simpa using hx, by simp [Env.moveCtor, hm]⟩
  have hok := uninitialized_loop_ok .move E.moveCtor s d n 0 src dst
    (by
      intro k hk
      obtain ⟨x, hx, hm⟩ := hb k hk
      exact ⟨x, hx, by rw [hm]; rfl⟩)
    (by omega)
  have hs := uninitialized_loop_src .move E.moveCtor E.movedFrom s d n 0 src dst hb (by omega)
  obtain ⟨cm1, cm2⟩ := copiesOf_move _ hk
  rw [InitUninitData_eq, hc, relocKind_move E h] at *
  refine ⟨hok.1, ?_, cm1, ?_, ?_⟩
  · rw [cm2, hok.2.1, Nat.zero_add]
  · intro k hk
    rw [hok.2.2.2.2.1 (d + k), if_pos (by omega)]
    congr 1
    omega
  · intro k hk
    simpa using hs k hk

/-- Relocation by copy, when no copy throws: every element is copy-constructed in the
destination, the source block is untouched, and the constructor calls recorded are `n`
copies and no move. -/
theorem InitUninitData_copy_ok {T : Type} (E : Env T) (h : Vector.relocateByMove E = false)
    (src : Block T) (s n : Nat) (dst : Block T) (d : Nat)
    (hsrc : ∀ k, k < n → ∃ x, src[s + k]? = some (some x) ∧ E.copyThrows x = false)
    (hlen : d + n ≤ dst.length) :
    (Vector.InitUninitData E src s n dst d).err = none ∧
      Vector.copiesOf (Vector.InitUninitData E src s n dst d) = n ∧
      Vector.movesOf (Vector.InitUninitData E src s n dst d) = 0 ∧
      (∀ k, k < n → (Vector.InitUninitData E src s n dst d).dst[d + k]? = src[s + k]?) ∧
      (Vector.InitUninitData E src s n dst d).src = src := by
  have hk := InitUninitData_kind E src s n dst d
  rw [relocKind_copy E h] at hk
  have hc : E.relocCtor = E.copyCtor := by
    unfold Env.relocCtor
    rw [if_neg (by simp [h])]
  have hok := uninitialized_loop_ok .copy E.copyCtor s d n 0 src dst
    (by
      intro k hk
      obtain ⟨x, hx, hm⟩ := hsrc k hk
      exact ⟨x, by simpa using hx, by simp [Env.copyCtor, hm]⟩)
    (by omega)
  have hs := @uninitialized_loop_copy_src T CtorKind.copy E s d n 0 src dst
  obtain ⟨cm1, cm2⟩ := movesOf_copy _ hk
  rw [InitUninitData_eq, hc, relocKind_copy E h] at *
  refine ⟨hok.1, ?_, cm1, ?_, hs⟩
  · rw [cm2, hok.2.1, Nat.zero_add]
  · intro k hk
    rw [hok.2.2.2.2.1 (d + k), if_pos (by omega)]
    congr 1
    omega

/-- Relocation fails with the exception of the constructor it runs: of the move
constructor when it relocates by move, of the copy constructor otherwise. -/
theorem InitUninitData_ctor_throws {T : Type} (E : Env T)
    (src : Block T) (s n : Nat) (dst : Block T) (d : Nat)
    (hlive : ∀ k, k < n → ∃ x, src[s + k]? = some (some x))
    (hthrow : ∃ k, k < n ∧ ∃ x, src[s + k]? = some (some x) ∧
      (if Vector.relocateByMove E then E.moveThrows x else E.copyThrows x) = true)
    (hlen : d + n ≤ dst.length) :
    (Vector.InitUninitData E src s n dst d).err = some .elem_throw := by
  rw [InitUninitData_eq]
  apply uninitialized_loop_throws
  · intro k hk
    obtain ⟨x, hx⟩ := hlive k hk
    exact ⟨x, by simpa using hx⟩
  · obtain ⟨k, hk, x, hx, ht⟩ := hthrow
    refine ⟨k, hk, x, by simpa using hx, ?_⟩
    unfold Env.relocCtor
    by_cases hm : Vector.relocateByMove E = true
    · rw [if_pos hm] at ht ⊢
      simp [Env.moveCtor, ht]
    · rw [if_neg hm] at ht ⊢
      simp [Env.copyCtor, ht]
  · omega

/-- For an element type that is not trivially destructible, `Erase` at a position `i < n`
of a container that holds its `n` elements, with no object in slot `n + 1`, ends in
undefined behaviour: after the elements are shifted, the destructor is called on slot
`n + 1`, which holds no object or lies outside the block. -/
theorem Erase_undefined {T : Type} (E : Env T) (v : Vector T) (l : List T) (i : Nat)
    (hv : v.Holds l) (hi : i < l.length) (hm : E.MoveAssignOk (l.drop (i + 1)))
    (hnt : E.is_trivially_destructible = false) (hraw : isLive v.slots (l.length + 1) = false) :
    (v.Erase E i).ret = .error .undefined := by
  have hcap := Holds_size_le hv
  have hloop := move_range_shift_ok E (l.length - (i + 1)) v.slots i
    (by obtain ⟨x, hx, _⟩ := Holds_live hv i hi; exact ⟨x, hx⟩)
    (by
      intro k hk
      obtain ⟨x, hx, _, hlx⟩ := Holds_live hv (i + 1 + k) (by omega)
      refine ⟨x, hx, hm x ?_⟩
      rw [List.mem_iff_getElem?]
      exact ⟨k, by rw [List.getElem?_drop]; exact hlx⟩)
  obtain ⟨h1, h2, h3, h4, h5, h6⟩ := hloop
  unfold Vector.Erase
  simp only [end_ok hv, Vector.begin_, Nat.sub_zero, Nat.zero_add]
  rcases hres : move_range E v.slots (i + 1) i (l.length - (i + 1)) with ⟨b, e⟩
  rw [hres] at h1 h2 h3 h4 h5 h6
  simp only at h1 h2 h3 h4 h5 h6
  subst h1
  have hdd : destroy_defined E b (l.length + 1) 1 = false := by
    rw [destroy_defined_one, isLive_congr b v.slots _ _ (h6 (l.length + 1) (by omega)), hnt, hraw]
    rfl
  simp only [hdd, Bool.false_eq_true, if_false, Vector.plain]

/-- When nothing fails, `Emplace` at position `i ≤ n` of a value `x` returns position `i`
and leaves a container of size `n+1` holding `[a0..ai-1, x, ai..an-1]`, in each of the
three code paths: growth (`size_ == capacity`, the allocation of `max(1, 2n)` elements
being granted and the relocation not throwing), insertion at the end and interior
insertion without growth (moving the shifted elements and `x` not throwing).  `Insert`
of `x`, by copy or by move, is that `Emplace`. -/
theorem Emplace_ok {T : Type} (E : Env T) (v : Vector T) (l : List T)
    (i : Nat) (x : T) (hv : v.Holds l) (hi : i ≤ l.length)
    (hgrow : v.size_ = v.Capacity → E.AllocOk (max 1 (2 * l.length)) ∧ E.RelocOk l)
    (hshift : v.size_ ≠ v.Capacity → i < l.length → E.MoveOk (x :: l.drop i)) :
    (v.Emplace E i (some x)).ret = .ok i ∧
      (v.Emplace E i (some x)).vec.Size = l.length + 1 ∧
      (v.Emplace E i (some x)).vec.Holds (l.take i ++ x :: l.drop i) ∧
      (E.copyThrows x = false → v.Insert E i x = v.Emplace E i (some x)) ∧
      (E.moveThrows x = false → v.InsertMove E i x = v.Emplace E i (some x)) := by
  have key : (v.Emplace E i (some x)).ret = .ok i ∧
      (v.Emplace E i (some x)).vec.Holds (l.take i ++ x :: l.drop i) := by
    by_cases hfull : v.size_ = v.Capacity
    · obtain ⟨ha, hr⟩ := hgrow hfull
      exact ⟨(Emplace_grow_ok E v l i x hv hi hfull ha hr).1,
        (Emplace_grow_ok E v l i x hv hi hfull ha hr).2.1⟩
    · by_cases hlt : i < l.length
      · have h := Emplace_mid_ok E v l i x hv hlt hfull (hshift hfull hlt)
        exact ⟨h.1, h.2.1⟩
      · have hie : i = l.length := by omega
        subst hie
        have h := Emplace_end_ok E v l x hv hfull
        refine ⟨h.1, ?_⟩
        simpa using h.2.1
  refine ⟨key.1, ?_, key.2, ?_, ?_⟩
  · have h := key.2.1
    simp only [List.length_append, List.length_take, List.length_cons, List.length_drop] at h
    simp only [Vector.Size, h]
    omega
  · intro hc
    simp [Vector.Insert, Env.copyCtor, hc]
  · intro hc
    simp [Vector.InsertMove, Env.moveCtor, hc]

end AdvancedVector

/-! ## The claims -/

namespace AdvancedVector

/-- C1 (the code departs from it): on the full container `[13, 2]` (capacity 2) of a
copyable type whose copy constructor throws on 13, `Emplace(begin() + i, 7)` takes the
growth path, the allocation of 4 elements is granted, the relocation throws, the
exception is swallowed, and the call returns position `i` normally with size 3, for
`i = 0, 1, 2`.  The container left does not hold `[7, 13, 2]`, `[13, 7, 2]` or
`[13, 2, 7]`: for `i = 1` only slot 2 holds an object (the value 2) and reading index 0
or 1 is undefined; for `i = 0` and `i = 2` no slot holds an object.  The elements of the
old storage were destroyed and the storage released.  `Insert(begin() + 1, 7)` is the
call with `i = 1`. -/
theorem Emplace_growth_returns_without_the_elements :
    (mkVector [13, 2] 2).Holds [13, 2] ∧
      (mkVector [13, 2] 2).Size = (mkVector [13, 2] 2).Capacity ∧
      throwingEnv.AllocOk 4 ∧
      ((mkVector [13, 2] 2).Emplace throwingEnv 1 (some 7)).ret = .ok 1 ∧
      ((mkVector [13, 2] 2).Emplace throwingEnv 1 (some 7)).vec.Size = 3 ∧
      ¬ ((mkVector [13, 2] 2).Emplace throwingEnv 1 (some 7)).vec.Holds [13, 7, 2] ∧
      ((mkVector [13, 2] 2).Emplace throwingEnv 1 (some 7)).vec.slots =
        [none, none, some 2, none] ∧
      ((mkVector [13, 2] 2).Emplace throwingEnv 1 (some 7)).vec.read 0 = .error .undefined ∧
      ((mkVector [13, 2] 2).Emplace throwingEnv 1 (some 7)).vec.read 1 = .error .undefined ∧
      ((mkVector [13, 2] 2).Emplace throwingEnv 1 (some 7)).freed = [[none, none]] ∧
      (mkVector [13, 2] 2).Insert throwingEnv 1 7 =
        (mkVector [13, 2] 2).Emplace throwingEnv 1 (some 7) ∧
      ((mkVector [13, 2] 2).Emplace throwingEnv 0 (some 7)).ret = .ok 0 ∧
      ((mkVector [13, 2] 2).Emplace throwingEnv 0 (some 7)).vec.Size = 3 ∧
      ¬ ((mkVector [13, 2] 2).Emplace throwingEnv 0 (some 7)).vec.Holds [7, 13, 2] ∧
      ((mkVector [13, 2] 2).Emplace throwingEnv 0 (some 7)).vec.slots =
        [none, none, none, none] ∧
      ((mkVector [13, 2] 2).Emplace throwingEnv 2 (some 7)).ret = .ok 2 ∧
      ((mkVector [13, 2] 2).Emplace throwingEnv 2 (some 7)).vec.Size = 3 ∧
      ¬ ((mkVector [13, 2] 2).Emplace throwingEnv 2 (some 7)).vec.Holds [13, 2, 7] ∧
      ((mkVector [13, 2] 2).Emplace throwingEnv 2 (some 7)).vec.slots =
        [none, none, none, none] := by
  decide

/-- C2 (the code departs from it): `Erase` at position 1 of `[1, 2, 3]` for an element
type like `std::string`, whose destructor is not trivial.  After the elements have been
shifted, `std::destroy_n(std::next(end()), 1)` calls the destructor on slot
`size_ + 1 = 4`: with capacity 4 that slot lies outside the block, with capacity 5 it is
inside the block and holds no object.  The call is undefined in both cases, so `Erase`
does not yield the container `[1, 3]`; when it is reached the container still has size 3
and its last slot still holds the moved-from object.  The same happens when the last
element is erased, and on a container of one element.  For an `int`-like type the same
call returns position 1 and leaves `[1, 3]`. -/
theorem Erase_calls_destructor_on_a_slot_without_object :
    (mkVector [1, 2, 3] 4).Holds [1, 2, 3] ∧
      stringEnv.MoveAssignOk [1, 2, 3] ∧
      isLive (mkVector [1, 2, 3] 4).slots 4 = false ∧
      ((mkVector [1, 2, 3] 4).Erase stringEnv 1).ret = .error .undefined ∧
      ((mkVector [1, 2, 3] 4).Erase stringEnv 1).vec =
        ⟨⟨some [some 1, some 3, some 0, none], 4⟩, 3⟩ ∧
      (mkVector [1, 2, 3] 5).Holds [1, 2, 3] ∧
      isLive (mkVector [1, 2, 3] 5).slots 4 = false ∧
      ((mkVector [1, 2, 3] 5).Erase stringEnv 1).ret = .error .undefined ∧
      ((mkVector [1, 2, 3] 5).Erase stringEnv 1).vec =
        ⟨⟨some [some 1, some 3, some 0, none, none], 5⟩, 3⟩ ∧
      ((mkVector [1, 2, 3] 3).Erase stringEnv 2).ret = .error .undefined ∧
      ((mkVector [1] 1).Erase stringEnv 0).ret = .error .undefined ∧
      ((mkVector [1, 2, 3] 4).Erase intEnv 1).ret = .ok 1 ∧
      ((mkVector [1, 2, 3] 4).Erase intEnv 1).vec.Holds [1, 3] := by
  decide

/-- C3: on a container holding `l = [a0..an-1]` with capacity `c`, `EmplaceBack` of `x`
returns the new last element and leaves a container of size `n+1` holding `[a0..an-1, x]`
whose capacity is `max(1, 2c)` when `n = c` and `c` otherwise (when `n = c`, the
allocation of `max(1, 2n)` elements being granted and the relocation not throwing);
`PushBack` of `x` leaves the same container.  Starting empty, appending 1, 2, 3, 4, 5 gives
the capacities 1, 2, 4, 4, 8 and the content `[1, 2, 3, 4, 5]`. -/
theorem EmplaceBack_appends_and_doubles :
    (∀ {T : Type} (E : Env T) (v : Vector T) (l : List T) (x : T), v.Holds l →
      (v.size_ = v.Capacity → E.AllocOk (max 1 (2 * l.length)) ∧ E.RelocOk l) →
      (v.EmplaceBack E (some x)).ret = .ok l.length ∧
      (v.EmplaceBack E (some x)).vec.Size = l.length + 1 ∧
      (v.EmplaceBack E (some x)).vec.Holds (l ++ [x]) ∧
      (v.EmplaceBack E (some x)).vec.Capacity =
        (if l.length = v.Capacity then max 1 (2 * v.Capacity) else v.Capacity) ∧
      (E.copyThrows x = false → (v.PushBack E x).vec = (v.EmplaceBack E (some x)).vec ∧
        (v.PushBack E x).ret = .ok ())) ∧
    (Vector.appendAll intEnv Vector.empty [1, 2, 3, 4, 5]).2 = [1, 2, 4, 4, 8] ∧
    (Vector.appendAll intEnv Vector.empty [1, 2, 3, 4, 5]).1.elems = [1, 2, 3, 4, 5] ∧
    (Vector.appendAll intEnv Vector.empty [1, 2, 3, 4, 5]).1.Holds [1, 2, 3, 4, 5] := by
  refine ⟨?_, by decide, by decide, by decide⟩
  intro T E v l x hv hgrow
  have key : (v.EmplaceBack E (some x)).ret = .ok l.length ∧
      (v.EmplaceBack E (some x)).vec.Holds (l ++ [x]) ∧
      (v.EmplaceBack E (some x)).vec.Capacity =
        (if l.length = v.Capacity then max 1 (2 * v.Capacity) else v.Capacity) := by
    by_cases hfull : v.size_ = v.Capacity
    · obtain ⟨ha, hr⟩ := hgrow hfull
      obtain ⟨h1, h2, h3⟩ := EmplaceBack_grow_ok E v l x hv hfull ha hr
      refine ⟨h1, h2, ?_⟩
      have e : l.length = v.Capacity := by rw [← hv.1]; exact hfull
      rw [if_pos e, ← e]
      exact h3
    · obtain ⟨h1, h2, h3⟩ := EmplaceBack_room_ok E v l x hv hfull
      refine ⟨h1, h2, ?_⟩
      have e : ¬ l.length = v.Capacity := by rw [← hv.1]; exact hfull
      rw [if_neg e]
      exact h3
  refine ⟨key.1, ?_, key.2.1, key.2.2, ?_⟩
  · have h := key.2.1.1
    simp only [List.length_append, List.length_singleton] at h
    exact h
  · intro hc
    simp [Vector.PushBack, Env.copyCtor, hc, key.1, Except.map]

/-- C3 at a concrete input: appending to a full container of capacity 2. -/
theorem EmplaceBack_appends_and_doubles_witness :
    ((mkVector [1, 2] 2).EmplaceBack intEnv (some 3)).vec.Holds [1, 2, 3] ∧
      ((mkVector [1, 2] 2).EmplaceBack intEnv (some 3)).vec.Capacity = 4 :=
  ⟨(EmplaceBack_appends_and_doubles.1 intEnv (mkVector [1, 2] 2) [1, 2] 3 (by decide)
      (by decide)).2.2.1,
    (EmplaceBack_appends_and_doubles.1 intEnv (mkVector [1, 2] 2) [1, 2] 3 (by decide)
      (by decide)).2.2.2.1⟩

/-- C4: `Reserve(m)` with `m ≤ capacity` returns leaving the container exactly as it was;
with `m > capacity` (the allocation of `m` elements being granted and the relocation
not throwing) it returns leaving the capacity equal to `m`, the size unchanged and the
same elements `[a0..an-1]`, each index reading the value it read before. -/
theorem Reserve_sets_capacity {T : Type} (E : Env T) (v : Vector T) (l : List T) (m : Nat)
    (hv : v.Holds l) :
    (m ≤ v.Capacity → (v.Reserve E m).ret = .ok () ∧ (v.Reserve E m).vec = v) ∧
    (v.Capacity < m → E.AllocOk m → E.RelocOk l →
      (v.Reserve E m).ret = .ok () ∧ (v.Reserve E m).vec.Capacity = m ∧
      (v.Reserve E m).vec.Size = v.Size ∧ (v.Reserve E m).vec.Holds l ∧
      ∀ j, j < v.Size → (v.Reserve E m).vec.read j = v.read j) := by
  constructor
  · intro hm
    unfold Vector.Reserve
    rw [if_pos (show m ≤ v.data_.Capacity from hm)]
    exact ⟨rfl, rfl⟩
  · intro hm ha hr
    obtain ⟨h1, h2, h3⟩ := Reserve_grow E v l m hv hm ha hr
    refine ⟨h1, h3, ?_, h2, ?_⟩
    · simp only [Vector.Size, h2.1, hv.1]
    · intro j hj
      have hj2 : j < l.length := by rw [← hv.1]; exact hj
      rw [Holds_read h2 j hj2, Holds_read hv j hj2]

/-- C4 at a concrete input: reserving 5 on `[1, 2]` of capacity 2. -/
theorem Reserve_sets_capacity_witness :
    ((mkVector [1, 2] 2).Reserve intEnv 5).ret = .ok () ∧
      ((mkVector [1, 2] 2).Reserve intEnv 5).vec.Capacity = 5 ∧
      ((mkVector [1, 2] 2).Reserve intEnv 5).vec.Size = (mkVector [1, 2] 2).Size ∧
      ((mkVector [1, 2] 2).Reserve intEnv 5).vec.Holds [1, 2] ∧
      ∀ j, j < (mkVector [1, 2] 2).Size →
        ((mkVector [1, 2] 2).Reserve intEnv 5).vec.read j = (mkVector [1, 2] 2).read j :=
  (Reserve_sets_capacity intEnv (mkVector [1, 2] 2) [1, 2] 5 (by decide)).2 (by decide)
    (by decide) (by decide)


/-- C5 (the code departs from it): for a copyable element type whose copy constructor
throws on the value 13 and whose move constructor is not `noexcept`, the calls
`Reserve(2)`, `EmplaceBack(13)`, `EmplaceBack(2)` on an empty container, all within their
preconditions, return normally and leave `[13, 2]` at capacity 2.  `Emplace` at position
1 of the value 7 then returns normally, with position 1, and leaves size 3 within
capacity 4 but no object in slots 0 and 1: reading index 0 or 1, both below the size,
finds uninitialised memory instead of the values 13 and 7 last constructed there. -/
theorem Emplace_leaves_dead_slots_below_size :
    (Vector.empty.Reserve throwingEnv 2).ret = .ok () ∧
      ((Vector.empty.Reserve throwingEnv 2).vec.EmplaceBack throwingEnv (some 13)).ret = .ok 0 ∧
      (((Vector.empty.Reserve throwingEnv 2).vec.EmplaceBack throwingEnv (some 13)).vec.EmplaceBack
        throwingEnv (some 2)).ret = .ok 1 ∧
      (((Vector.empty.Reserve throwingEnv 2).vec.EmplaceBack throwingEnv (some 13)).vec.EmplaceBack
        throwingEnv (some 2)).vec = mkVector [13, 2] 2 ∧
      (mkVector [13, 2] 2).Holds [13, 2] ∧
      ((mkVector [13, 2] 2).Emplace throwingEnv 1 (some 7)).ret = .ok 1 ∧
      ((mkVector [13, 2] 2).Emplace throwingEnv 1 (some 7)).vec.Size = 3 ∧
      ((mkVector [13, 2] 2).Emplace throwingEnv 1 (some 7)).vec.Capacity = 4 ∧
      ((mkVector [13, 2] 2).Emplace throwingEnv 1 (some 7)).vec.read 0 = .error .undefined ∧
      ((mkVector [13, 2] 2).Emplace throwingEnv 1 (some 7)).vec.read 1 = .error .undefined ∧
      ((mkVector [13, 2] 2).Emplace throwingEnv 1 (some 7)).vec.read 2 = .ok 2 := by
  decide

/-- C6 (the code departs from it): on a full container `[13, 2]` of a copyable element
type whose copy constructor throws on 13, `Emplace` at position 1 meets the exception
while transferring the elements before the position; on `[1, 13]` it meets it while
transferring the elements from the position on.  In both cases the call returns normally
with position 1, the new storage of capacity 4 is swapped in and the size becomes 3; the
container is not left as it was. -/
theorem Emplace_swallows_transfer_exception :
    ((mkVector [13, 2] 2).Emplace throwingEnv 1 (some 7)).ret = .ok 1 ∧
      ((mkVector [13, 2] 2).Emplace throwingEnv 1 (some 7)).vec =
        ⟨⟨some [none, none, some 2, none], 4⟩, 3⟩ ∧
      ((mkVector [1, 13] 2).Emplace throwingEnv 1 (some 7)).ret = .ok 1 ∧
      ((mkVector [1, 13] 2).Emplace throwingEnv 1 (some 7)).vec =
        ⟨⟨some [none, none, none, none], 4⟩, 3⟩ ∧
      ((mkVector [13, 2] 2).Emplace throwingEnv 1 (some 7)).vec ≠ mkVector [13, 2] 2 ∧
      ((mkVector [1, 13] 2).Emplace throwingEnv 1 (some 7)).vec ≠ mkVector [1, 13] 2 := by
  decide

/-- C7: for a copy-constructible element type (a `noexcept` move constructor does not
throw), on a container holding `l`: when the allocation of the new storage fails, when
the construction of the new element throws, or when the transfer of an element throws,
during `Reserve(m)` beyond the capacity or during `EmplaceBack` on a full container, the
call ends with that failure and the container is exactly as before the call.  More
generally every `Reserve` or `EmplaceBack` that ends with an exception leaves the
container as it was. -/
theorem growth_failure_leaves_container_unchanged {T : Type} (E : Env T) (v : Vector T)
    (l : List T) (m : Nat) (x : T) (hv : v.Holds l) (hcopy : E.is_copy_constructible = true)
    (hnt : E.is_nothrow_move_constructible = true → ∀ a, E.moveThrows a = false) :
    (v.Capacity < m → E.newThrows (RawMemory.allocBytes E m) = true →
      (v.Reserve E m).ret = .error .bad_alloc ∧ (v.Reserve E m).vec = v) ∧
    (v.Capacity < m → E.AllocOk m → ¬ E.RelocOk l →
      (v.Reserve E m).ret = .error .elem_throw ∧ (v.Reserve E m).vec = v) ∧
    (v.size_ = v.Capacity → v.grownCapacity ≠ 0 →
      E.newThrows (RawMemory.allocBytes E v.grownCapacity) = true →
      (v.EmplaceBack E (some x)).ret = .error .bad_alloc ∧ (v.EmplaceBack E (some x)).vec = v) ∧
    (v.size_ = v.Capacity → E.AllocOk (max 1 (2 * l.length)) →
      (v.EmplaceBack E none).ret = .error .elem_throw ∧ (v.EmplaceBack E none).vec = v) ∧
    (v.size_ = v.Capacity → E.AllocOk (max 1 (2 * l.length)) → ¬ E.RelocOk l →
      (v.EmplaceBack E (some x)).ret = .error .elem_throw ∧ (v.EmplaceBack E (some x)).vec = v) ∧
    (∀ e, e = .bad_alloc ∨ e = .elem_throw → (v.Reserve E m).ret = .error e →
      (v.Reserve E m).vec = v) ∧
    (∀ args e, e = .bad_alloc ∨ e = .elem_throw → (v.EmplaceBack E args).ret = .error e →
      (v.EmplaceBack E args).vec = v) := by
  have hR : ∀ e, e = .bad_alloc ∨ e = .elem_throw → (v.Reserve E m).ret = .error e →
      (v.Reserve E m).vec = v :=
    fun e hex he => Reserve_fail_unchanged E v m hcopy hnt e he hex
  have hB : ∀ args e, e = .bad_alloc ∨ e = .elem_throw → (v.EmplaceBack E args).ret = .error e →
      (v.EmplaceBack E args).vec = v :=
    fun args e hex he => EmplaceBack_fail_unchanged E v args hcopy hnt e he hex
  refine ⟨?_, ?_, ?_, ?_, ?_, hR, hB⟩
  · intro hm hnew
    have h := Reserve_bad_alloc E v m hm hnew
    exact ⟨h, hR _ (Or.inl rfl) h⟩
  · intro hm ha hr
    have h := Reserve_throws E v l m hv hm ha hr
    exact ⟨h, hR _ (Or.inr rfl) h⟩
  · intro hfull hg hnew
    have h := EmplaceBack_bad_alloc E v (some x) hfull hnew hg
    exact ⟨h, hB _ _ (Or.inl rfl) h⟩
  · intro hfull ha
    have h := EmplaceBack_ctor_throws E v l hv hfull ha
    exact ⟨h, hB _ _ (Or.inr rfl) h⟩
  · intro hfull ha hr
    have h := EmplaceBack_transfer_throws E v l x hv hfull ha hr
    exact ⟨h, hB _ _ (Or.inr rfl) h⟩

/-- C7 at concrete inputs: `EmplaceBack` on the full container `[1, 13]` whose element 13
throws when copied, and `Reserve(5)` on a heap that refuses 20 bytes. -/
theorem growth_failure_leaves_container_unchanged_witness :
    (((mkVector [1, 13] 2).EmplaceBack throwingEnv (some 7)).ret = .error .elem_throw ∧
      ((mkVector [1, 13] 2).EmplaceBack throwingEnv (some 7)).vec = mkVector [1, 13] 2) ∧
    (((mkVector [1, 2] 2).Reserve tightHeapEnv 5).ret = .error .bad_alloc ∧
      ((mkVector [1, 2] 2).Reserve tightHeapEnv 5).vec = mkVector [1, 2] 2) :=
  ⟨(growth_failure_leaves_container_unchanged throwingEnv (mkVector [1, 13] 2) [1, 13] 5 7
      (by decide) rfl (fun h => absurd h (by decide))).2.2.2.2.1 (by decide) (by decide)
      (by decide),
    (growth_failure_leaves_container_unchanged tightHeapEnv (mkVector [1, 2] 2) [1, 2] 5 7
      (by decide) rfl (fun _ _ => rfl)).1 (by decide) (by decide)⟩

/-- C8: move-constructing from a container that holds `l = [a0..an-1]` with capacity `c`
gives a new container holding `l`, of size `n` and capacity `c` (it is the source as it
was), and leaves the source with size 0, capacity 0 and no block. -/
theorem moveCtor_steals_storage {T : Type} (v : Vector T) (l : List T) (hv : v.Holds l) :
    (Vector.moveCtor v).1.Holds l ∧
      (Vector.moveCtor v).1.Size = l.length ∧
      (Vector.moveCtor v).1.Capacity = v.Capacity ∧
      (Vector.moveCtor v).1 = v ∧
      (Vector.moveCtor v).2.Size = 0 ∧
      (Vector.moveCtor v).2.Capacity = 0 ∧
      (Vector.moveCtor v).2.data_.buffer_ = none := by
  have h1 : (Vector.moveCtor v).1 = v := rfl
  refine ⟨?_, ?_, ?_, h1, rfl, rfl, rfl⟩
  · rw [h1]; exact hv
  · rw [h1]; exact hv.1
  · rw [h1]

/-- C8 at a concrete input: moving from `[1, 2, 3]` of capacity 4. -/
theorem moveCtor_steals_storage_witness :
    (Vector.moveCtor (mkVector [1, 2, 3] 4)).1.Holds [1, 2, 3] ∧
      (Vector.moveCtor (mkVector [1, 2, 3] 4)).1.Size = 3 ∧
      (Vector.moveCtor (mkVector [1, 2, 3] 4)).1.Capacity = (mkVector [1, 2, 3] 4).Capacity ∧
      (Vector.moveCtor (mkVector [1, 2, 3] 4)).1 = mkVector [1, 2, 3] 4 ∧
      (Vector.moveCtor (mkVector [1, 2, 3] 4)).2.Size = 0 ∧
      (Vector.moveCtor (mkVector [1, 2, 3] 4)).2.Capacity = 0 ∧
      (Vector.moveCtor (mkVector [1, 2, 3] 4)).2.data_.buffer_ = none :=
  moveCtor_steals_storage (mkVector [1, 2, 3] 4) [1, 2, 3] (by decide)

/-- C9 as stated fails: move-assigning a `RawMemory` of capacity 3 to one of capacity 2
leaves the source with the destination's block of capacity 2, not empty. -/
theorem RawMemory_moveAssign_source_not_empty :
    ¬ ((RawMemory.moveAssign (⟨some [none, none], 2⟩ : RawMemory Nat)
          ⟨some [none, none, none], 3⟩).2.buffer_ = none ∧
        (RawMemory.moveAssign (⟨some [none, none], 2⟩ : RawMemory Nat)
          ⟨some [none, none, none], 3⟩).2.capacity_ = 0) := by
  decide

/-- C9 amended: move construction of a `RawMemory` gives the new object the block and
capacity of the source and leaves the source empty (null block, capacity 0); move
assignment exchanges the two objects, so the destination receives the block and capacity
of the source and the source is left with those the destination had, and is empty
exactly when the destination was empty before. -/
theorem RawMemory_move_exchanges (T : Type) :
    (∀ other : RawMemory T, (RawMemory.moveCtor other).1 = other ∧
      (RawMemory.moveCtor other).2.buffer_ = none ∧
      (RawMemory.moveCtor other).2.capacity_ = 0) ∧
    (∀ this other : RawMemory T, (RawMemory.moveAssign this other).1 = other ∧
      (RawMemory.moveAssign this other).2 = this ∧
      (((RawMemory.moveAssign this other).2.buffer_ = none ∧
          (RawMemory.moveAssign this other).2.capacity_ = 0) ↔
        (this.buffer_ = none ∧ this.capacity_ = 0))) :=
  ⟨fun _ => ⟨rfl, rfl, rfl⟩, fun _ _ => ⟨rfl, rfl, Iff.rfl⟩⟩


/-- C10: from a source holding `l = [a0..an-1]` (copying its values not throwing, the
allocations asked for being granted), copy construction returns a container holding `l`,
of size `n` and capacity exactly `n`; copy assignment to a destination holding anything
returns leaving the destination holding `l` with size `n`, in each of its branches
(destination capacity below `n`, destination size at least `n`, destination size below
`n` within capacity); both leave the source as it was; and writing `x` at an index `i < n`
of the copy gives a copy holding `l` with `x` at `i`, the source, a separate object with
its own block, still being the container it was. -/
theorem copy_gives_equal_independent_container {T : Type} (E : Env T) (src : Vector T)
    (l : List T) (hs : src.Holds l) (hc : E.CopyOk l) :
    ((l ≠ [] → E.AllocOk l.length) →
      ∃ c, Vector.copyCtor E src = (.ok c, src) ∧ c.Holds l ∧ c.Size = l.length ∧
        c.Capacity = l.length ∧
        ∀ i x, i < l.length → ∃ c2, c.write i x = .ok c2 ∧ c2.Holds (l.set i x)) ∧
    (∀ (dst : Vector T) (ld : List T), dst.Holds ld →
      (dst.Capacity < l.length → E.AllocOk l.length) →
      (Vector.copyAssign E dst src false).1.ret = .ok () ∧
      (Vector.copyAssign E dst src false).1.vec.Holds l ∧
      (Vector.copyAssign E dst src false).1.vec.Size = l.length ∧
      (Vector.copyAssign E dst src false).2 = src ∧
      ∀ i x, i < l.length →
        ∃ c2, (Vector.copyAssign E dst src false).1.vec.write i x = .ok c2 ∧
          c2.Holds (l.set i x)) := by
  constructor
  · intro ha
    obtain ⟨c, h1, h2, h3⟩ := copyCtor_ok E src l hs hc ha
    exact ⟨c, h1, h2, h2.1, h3, fun i x hi => write_ok c l i x h2 hi⟩
  · intro dst ld hd ha
    obtain ⟨h1, h2, h3, _⟩ := copyAssign_ok E dst src ld l hd hs hc ha
    exact ⟨h1, h2, h2.1, h3, fun i x hi => write_ok _ l i x h2 hi⟩

/-- C10 at concrete inputs: copying `[1, 2, 3]` of capacity 4, assigning it to
destinations in each of the three branches, and writing 9 at index 0 of the copy, after
which the copy reads 9 and the source still reads 1 there. -/
theorem copy_gives_equal_independent_container_witness :
    (∃ c, Vector.copyCtor intEnv (mkVector [1, 2, 3] 4) = (.ok c, mkVector [1, 2, 3] 4) ∧
      c.Holds [1, 2, 3] ∧ c.Size = 3 ∧ c.Capacity = 3 ∧
      ∀ i x, i < 3 → ∃ c2, c.write i x = .ok c2 ∧ c2.Holds ([1, 2, 3].set i x)) ∧
    (Vector.copyAssign intEnv (mkVector [7] 1) (mkVector [1, 2, 3] 4) false).1.vec.Holds
      [1, 2, 3] ∧
    (Vector.copyAssign intEnv (mkVector [7, 8, 9, 10] 4) (mkVector [1, 2, 3] 4) false).1.vec.Holds
      [1, 2, 3] ∧
    (Vector.copyAssign intEnv (mkVector [7] 5) (mkVector [1, 2, 3] 4) false).1.vec.Holds
      [1, 2, 3] ∧
    (Vector.copyCtor intEnv (mkVector [1, 2, 3] 4)).1 = .ok (mkVector [1, 2, 3] 3) ∧
    (mkVector [1, 2, 3] 3).write 0 9 = .ok (mkVector [9, 2, 3] 3) ∧
    (mkVector [9, 2, 3] 3).read 0 = .ok 9 ∧
    (Vector.copyCtor intEnv (mkVector [1, 2, 3] 4)).2.read 0 = .ok 1 :=
  ⟨(copy_gives_equal_independent_container intEnv (mkVector [1, 2, 3] 4) [1, 2, 3] (by decide)
      (by decide)).1 (by decide),
    ((copy_gives_equal_independent_container intEnv (mkVector [1, 2, 3] 4) [1, 2, 3] (by decide)
      (by decide)).2 (mkVector [7] 1) [7] (by decide) (by decide)).2.1,
    ((copy_gives_equal_independent_container intEnv (mkVector [1, 2, 3] 4) [1, 2, 3] (by decide)
      (by decide)).2 (mkVector [7, 8, 9, 10] 4) [7, 8, 9, 10] (by decide) (by decide)).2.1,
    ((copy_gives_equal_independent_container intEnv (mkVector [1, 2, 3] 4) [1, 2, 3] (by decide)
      (by decide)).2 (mkVector [7] 5) [7] (by decide) (by decide)).2.1,
    by decide, by decide, by decide, by decide⟩

/-- C11: on a container holding `l = [a0..an-1]` with capacity `c`, `Resize(m)` returns
leaving size `m`; when `m ≤ n` the elements are `[a0..am-1]` and the capacity is still
`c`; when `m > n` (value-initialisation building `d` without throwing and, if `m > c`,
the allocation of `m` elements being granted and the relocation not throwing) the
elements are `[a0..an-1]` followed by `m-n` copies of `d`, and the capacity is
`max(c, m)`. -/
theorem Resize_sets_size {T : Type} (E : Env T) (v : Vector T) (l : List T) (m : Nat)
    (hv : v.Holds l) :
    (m ≤ l.length →
      (v.Resize E m).ret = .ok () ∧ (v.Resize E m).vec.Size = m ∧
      (v.Resize E m).vec.Holds (l.take m) ∧ (v.Resize E m).vec.Capacity = v.Capacity) ∧
    (∀ d, l.length < m → E.valueInit = some d →
      (v.Capacity < m → E.AllocOk m ∧ E.RelocOk l) →
      (v.Resize E m).ret = .ok () ∧ (v.Resize E m).vec.Size = m ∧
      (v.Resize E m).vec.Holds (l ++ List.replicate (m - l.length) d) ∧
      (v.Resize E m).vec.Capacity = max v.Capacity m) := by
  constructor
  · intro hm
    obtain ⟨h1, h2, h3⟩ := Resize_shrink_ok E v l m hv hm
    refine ⟨h1, ?_, h2, h3⟩
    have h := h2.1
    simp only [List.length_take] at h
    simp only [Vector.Size, h]
    omega
  · intro d hm hd hg
    obtain ⟨h1, h2, h3⟩ := Resize_grow_ok E v l m d hv hm hd hg
    refine ⟨h1, ?_, h2, h3⟩
    have h := h2.1
    simp only [List.length_append, List.length_replicate] at h
    simp only [Vector.Size, h]
    omega

/-- C11 at concrete inputs: `[1, 2, 3]` of capacity 4 resized to 2, to 4 and to 6. -/
theorem Resize_sets_size_witness :
    ((mkVector [1, 2, 3] 4).Resize intEnv 2).vec.Holds [1, 2] ∧
      ((mkVector [1, 2, 3] 4).Resize intEnv 2).vec.Capacity = 4 ∧
      ((mkVector [1, 2, 3] 4).Resize intEnv 4).vec.Holds [1, 2, 3, 0] ∧
      ((mkVector [1, 2, 3] 4).Resize intEnv 4).vec.Capacity = 4 ∧
      ((mkVector [1, 2, 3] 4).Resize intEnv 6).vec.Holds [1, 2, 3, 0, 0, 0] ∧
      ((mkVector [1, 2, 3] 4).Resize intEnv 6).vec.Capacity = 6 :=
  ⟨((Resize_sets_size intEnv (mkVector [1, 2, 3] 4) [1, 2, 3] 2 (by decide)).1 (by decide)).2.2.1,
    ((Resize_sets_size intEnv (mkVector [1, 2, 3] 4) [1, 2, 3] 2 (by decide)).1 (by decide)).2.2.2,
    ((Resize_sets_size intEnv (mkVector [1, 2, 3] 4) [1, 2, 3] 4 (by decide)).2 0 (by decide) rfl
      (by decide)).2.2.1,
    ((Resize_sets_size intEnv (mkVector [1, 2, 3] 4) [1, 2, 3] 4 (by decide)).2 0 (by decide) rfl
      (by decide)).2.2.2,
    ((Resize_sets_size intEnv (mkVector [1, 2, 3] 4) [1, 2, 3] 6 (by decide)).2 0 (by decide) rfl
      (by decide)).2.2.1,
    ((Resize_sets_size intEnv (mkVector [1, 2, 3] 4) [1, 2, 3] 6 (by decide)).2 0 (by decide) rfl
      (by decide)).2.2.2⟩

/-- C12 (the code departs from it).  On the full container `[13, 2]` of a copyable type
whose copy constructor throws on 13, `Insert(begin() + 1, 7)` returns position 1
normally, but the exception of the relocation was swallowed: the container has size 3
with only slot 2 holding an object, the old storage was released with its elements
destroyed, and the value 13 is lost.  The `Erase(begin() + 1)` that follows move-assigns
into slot 1, which holds no object: undefined behaviour; no number of round trips gives
back `[13, 2]`.  On `[1, 2, 3]` (capacity 4) of a `std::string`-like type, `Insert`
returns leaving `[1, 7, 2, 3]`, and the `Erase` that follows calls the destructor on
slot `size_ + 1 = 5`, outside the block: undefined behaviour again.  For an `int`-like
type three round trips on `[1, 2, 3]` give back the elements `[1, 2, 3]`. -/
theorem Insert_then_Erase_does_not_restore :
    (mkVector [13, 2] 2).Holds [13, 2] ∧
      ((mkVector [13, 2] 2).Insert throwingEnv 1 7).ret = .ok 1 ∧
      ((mkVector [13, 2] 2).Insert throwingEnv 1 7).vec =
        ⟨⟨some [none, none, some 2, none], 4⟩, 3⟩ ∧
      ((mkVector [13, 2] 2).Insert throwingEnv 1 7).vec.elems = [2] ∧
      ((mkVector [13, 2] 2).Insert throwingEnv 1 7).freed = [[none, none]] ∧
      (((mkVector [13, 2] 2).Insert throwingEnv 1 7).vec.Erase throwingEnv 1).ret =
        .error .undefined ∧
      insertThenErase throwingEnv (mkVector [13, 2] 2) 1 7 = .error .undefined ∧
      (∀ k, roundTrips throwingEnv 1 7 (k + 1) (mkVector [13, 2] 2) = .error .undefined) ∧
      (mkVector [1, 2, 3] 4).Holds [1, 2, 3] ∧
      ((mkVector [1, 2, 3] 4).Insert stringEnv 1 7).ret = .ok 1 ∧
      ((mkVector [1, 2, 3] 4).Insert stringEnv 1 7).vec.Holds [1, 7, 2, 3] ∧
      (((mkVector [1, 2, 3] 4).Insert stringEnv 1 7).vec.Erase stringEnv 1).ret =
        .error .undefined ∧
      insertThenErase stringEnv (mkVector [1, 2, 3] 4) 1 7 = .error .undefined ∧
      (∀ k, roundTrips stringEnv 1 7 (k + 1) (mkVector [1, 2, 3] 4) = .error .undefined) ∧
      ((roundTrips intEnv 1 7 3 (mkVector [1, 2, 3] 4)).map Vector.elems) = .ok [1, 2, 3] := by
  have h1 : insertThenErase throwingEnv (mkVector [13, 2] 2) 1 7 = .error .undefined := by
    decide
  have h2 : insertThenErase stringEnv (mkVector [1, 2, 3] 4) 1 7 = .error .undefined := by
    decide
  refine ⟨by decide, by decide, by decide, by decide, by decide, by decide, h1, ?_, by decide,
    by decide, by decide, by decide, h2, ?_, by decide⟩
  · intro k
    simp only [roundTrips, h1]
  · intro k
    simp only [roundTrips, h2]

/-- C13: appending the `N ≥ 1` values of `ys` with `EmplaceBack` to an empty container of
capacity 0 (the allocations of fewer than `2N` elements being granted and the
relocations not throwing) completes and leaves the container holding `ys` with capacity
`2 ^ ⌈log2 N⌉`, the least power of two that is at least `N`; exactly `⌈log2 N⌉ + 1` of
the calls reallocate, and together they relocate `2 ^ ⌈log2 N⌉ - 1` existing elements,
fewer than `2N`. -/
theorem append_growth_is_amortized {T : Type} (E : Env T) (ys : List T) (hN : 1 ≤ ys.length)
    (hal : ∀ c, 1 ≤ c → c < 2 * ys.length → E.AllocOk c) (hr : E.RelocOk ys) :
    ∃ s, appendCount E Vector.empty ys = .ok s ∧ s.vec.Holds ys ∧
      s.vec.Capacity = 2 ^ Nat.clog 2 ys.length ∧
      ys.length ≤ s.vec.Capacity ∧
      (∀ j, ys.length ≤ 2 ^ j → s.vec.Capacity ≤ 2 ^ j) ∧
      s.reallocations = Nat.clog 2 ys.length + 1 ∧
      s.transfers = 2 ^ Nat.clog 2 ys.length - 1 ∧
      s.transfers < 2 * ys.length := by
  cases ys with
  | nil => simp at hN
  | cons x xs =>
    have hlt := pow_clog_lt_double (x :: xs).length hN
    have hlen : (x :: xs).length = [x].length + xs.length := by
      simp only [List.length_cons, List.length_nil]; omega
    obtain ⟨g1, g2, g3, g4⟩ := EmplaceBack_first E x (hal 1 (Nat.le_refl 1) (by omega))
    obtain ⟨s, s1, s2, s3, s4, s5⟩ := appendCount_from E xs _ [x] g2 (Nat.le_refl 1)
      (by rw [g3]; simp)
      (by
        intro c hc1 hc2
        rw [← hlen] at hc2
        exact hal c hc1 (by omega))
      (by simpa using hr)
    rw [← hlen] at s3 s4 s5
    simp only [List.length_singleton, Nat.clog_one_right, Nat.add_zero, Nat.pow_zero] at s4 s5
    have hpos : 0 < 2 ^ Nat.clog 2 (x :: xs).length := Nat.pow_pos (by norm_num)
    refine ⟨⟨s.vec, 1 + s.reallocations,
      (Vector.empty.EmplaceBack E (some x)).copies + (Vector.empty.EmplaceBack E (some x)).moves
        + s.transfers⟩, ?_, ?_, s3, ?_, ?_, ?_, ?_, ?_⟩
    · have hfull : (Vector.empty : Vector T).size_ = (Vector.empty : Vector T).Capacity := rfl
      simp only [appendCount, g1, s1, hfull, if_true]
    · simpa using s2
    · simp only [Vector.Capacity, RawMemory.Capacity, s3]
      exact Nat.le_pow_clog (by norm_num) _
    · intro j hj
      simp only [Vector.Capacity, RawMemory.Capacity, s3]
      exact Nat.pow_le_pow_right (by norm_num) ((Nat.le_pow_iff_clog_le (by norm_num)).mp hj)
    · simp only; omega
    · simp only; omega
    · simp only; omega

/-- C13 at a concrete input: appending 1, 2, 3, 4, 5 to an empty container of `int`. -/
theorem append_growth_is_amortized_witness :
    (∃ s, appendCount intEnv Vector.empty [1, 2, 3, 4, 5] = .ok s ∧ s.vec.Holds [1, 2, 3, 4, 5] ∧
      s.vec.Capacity = 2 ^ Nat.clog 2 5 ∧ 5 ≤ s.vec.Capacity ∧
      (∀ j, 5 ≤ 2 ^ j → s.vec.Capacity ≤ 2 ^ j) ∧
      s.reallocations = Nat.clog 2 5 + 1 ∧ s.transfers = 2 ^ Nat.clog 2 5 - 1 ∧
      s.transfers < 2 * 5) ∧
    appendCount intEnv Vector.empty [1, 2, 3, 4, 5] = .ok ⟨mkVector [1, 2, 3, 4, 5] 8, 4, 7⟩ :=
  ⟨append_growth_is_amortized intEnv [1, 2, 3, 4, 5] (by decide)
    (fun c _ h2 => ⟨by decide, by
      have h3 : c < 10 := h2
      show c * 4 < 2 ^ 64
      omega, rfl⟩)
    (by decide), by decide⟩

/-- C14: `InitUninitData`, the relocation used by `Reserve` and by the growth of
`EmplaceBack` and `Emplace`, runs `std::uninitialized_move_n` exactly when `T` is
nothrow-move-constructible or not copy-constructible, and `std::uninitialized_copy_n`
otherwise, and the constructor calls are those the construction loop itself records.
When it relocates by move and no move throws, each of the `n` elements is
move-constructed in the destination, the source objects are left moved-from, and `n`
move constructions and no copy construction are recorded; for a type that can only be
moved, a move that throws ends the relocation with that exception.  When it relocates by copy and no copy throws, each
element is copy-constructed in the destination, the source is untouched, and `n` copy
constructions and no move construction are recorded; a copy that throws ends the
relocation with that exception.  Hence for a nothrow-move-constructible `T` the calls
`Reserve`, `EmplaceBack` and `Emplace` record no copy construction by relocation in any
state, and the relocation does not depend on the copy constructor; for a
copy-constructible `T` whose move constructor may throw they record no move construction
by relocation, and the relocation does not depend on the move constructor.  When the
growth succeeds on a container of `n` elements, the calls recorded are `n` moves in the
first case and `n` copies in the second. -/
theorem relocation_moves_exactly_when_safe {T : Type} (E : Env T) :
    (∀ src s n dst d, Vector.InitUninitData E src s n dst d =
      if E.is_nothrow_move_constructible = true ∨ E.is_copy_constructible = false then
        uninitialized_move_n E src s n dst d
      else uninitialized_copy_n E src s n dst d) ∧
    (E.is_nothrow_move_constructible = true → ∀ (v : Vector T) m pos args,
      (v.Reserve E m).copies = 0 ∧ (v.EmplaceBack E args).copies = 0 ∧
      (v.Emplace E pos args).copies = 0) ∧
    (E.is_nothrow_move_constructible = true → ∀ f src s n dst d,
      Vector.InitUninitData { E with copyThrows := f } src s n dst d =
        Vector.InitUninitData E src s n dst d) ∧
    (E.is_copy_constructible = true → E.is_nothrow_move_constructible = false →
      ∀ (v : Vector T) m pos args,
      (v.Reserve E m).moves = 0 ∧ (v.EmplaceBack E args).moves = 0 ∧
      (v.Emplace E pos args).moves = 0) ∧
    (E.is_copy_constructible = true → E.is_nothrow_move_constructible = false →
      ∀ f g src s n dst d,
      Vector.InitUninitData { E with moveThrows := f, movedFrom := g } src s n dst d =
        Vector.InitUninitData E src s n dst d) ∧
    (∀ (v : Vector T) l m, v.Holds l → v.Capacity < m → E.AllocOk m → E.RelocOk l →
      (v.Reserve E m).copies + (v.Reserve E m).moves = l.length) ∧
    (∀ (v : Vector T) l i x, v.Holds l → i ≤ l.length → v.size_ = v.Capacity →
      E.AllocOk (max 1 (2 * l.length)) → E.RelocOk l →
      (v.EmplaceBack E (some x)).copies + (v.EmplaceBack E (some x)).moves = l.length ∧
      (v.Emplace E i (some x)).copies + (v.Emplace E i (some x)).moves = l.length) ∧
    (E.is_nothrow_move_constructible = true ∨ E.is_copy_constructible = false →
      ∀ (src : Block T) s n (dst : Block T) d,
      (∀ k, k < n → ∃ x, src[s + k]? = some (some x) ∧ E.moveThrows x = false) →
      d + n ≤ dst.length →
      (Vector.InitUninitData E src s n dst d).err = none ∧
      (Vector.InitUninitData E src s n dst d).kind = .move ∧
      (Vector.InitUninitData E src s n dst d).built = n ∧
      Vector.movesOf (Vector.InitUninitData E src s n dst d) = n ∧
      Vector.copiesOf (Vector.InitUninitData E src s n dst d) = 0 ∧
      (∀ k, k < n → (Vector.InitUninitData E src s n dst d).dst[d + k]? = src[s + k]?) ∧
      (∀ k, k < n → (Vector.InitUninitData E src s n dst d).src[s + k]? =
        (src[s + k]?).map (Option.map E.movedFrom))) ∧
    (E.is_copy_constructible = true → E.is_nothrow_move_constructible = false →
      ∀ (src : Block T) s n (dst : Block T) d,
      (∀ k, k < n → ∃ x, src[s + k]? = some (some x) ∧ E.copyThrows x = false) →
      d + n ≤ dst.length →
      (Vector.InitUninitData E src s n dst d).err = none ∧
      (Vector.InitUninitData E src s n dst d).kind = .copy ∧
      (Vector.InitUninitData E src s n dst d).built = n ∧
      Vector.copiesOf (Vector.InitUninitData E src s n dst d) = n ∧
      Vector.movesOf (Vector.InitUninitData E src s n dst d) = 0 ∧
      (∀ k, k < n → (Vector.InitUninitData E src s n dst d).dst[d + k]? = src[s + k]?) ∧
      (Vector.InitUninitData E src s n dst d).src = src) ∧
    (E.is_copy_constructible = false → E.is_nothrow_move_constructible = false →
      ∀ (src : Block T) s n (dst : Block T) d,
      (∀ k, k < n → ∃ x, src[s + k]? = some (some x)) → d + n ≤ dst.length →
      (∃ k, k < n ∧ ∃ x, src[s + k]? = some (some x) ∧ E.moveThrows x = true) →
      (Vector.InitUninitData E src s n dst d).err = some .elem_throw) ∧
    (E.is_copy_constructible = true → E.is_nothrow_move_constructible = false →
      ∀ (src : Block T) s n (dst : Block T) d,
      (∀ k, k < n → ∃ x, src[s + k]? = some (some x)) → d + n ≤ dst.length →
      (∃ k, k < n ∧ ∃ x, src[s + k]? = some (some x) ∧ E.copyThrows x = true) →
      (Vector.InitUninitData E src s n dst d).err = some .elem_throw) ∧
    (∀ (v : Vector T) l m i x, v.Holds l → E.RelocOk l →
      (v.Capacity < m → E.AllocOk m →
        (v.Reserve E m).moves =
          (if E.is_nothrow_move_constructible = true ∨ E.is_copy_constructible = false
            then l.length else 0) ∧
        (v.Reserve E m).copies =
          (if E.is_nothrow_move_constructible = true ∨ E.is_copy_constructible = false
            then 0 else l.length)) ∧
      (i ≤ l.length → v.size_ = v.Capacity → E.AllocOk (max 1 (2 * l.length)) →
        (v.EmplaceBack E (some x)).moves =
          (if E.is_nothrow_move_constructible = true ∨ E.is_copy_constructible = false
            then l.length else 0) ∧
        (v.EmplaceBack E (some x)).copies =
          (if E.is_nothrow_move_constructible = true ∨ E.is_copy_constructible = false
            then 0 else l.length) ∧
        (v.Emplace E i (some x)).moves =
          (if E.is_nothrow_move_constructible = true ∨ E.is_copy_constructible = false
            then l.length else 0) ∧
        (v.Emplace E i (some x)).copies =
          (if E.is_nothrow_move_constructible = true ∨ E.is_copy_constructible = false
            then 0 else l.length))) := by
  have hiff := relocateByMove_iff E
  refine ⟨?_, ?_, ?_, ?_, ?_, ?_, ?_, ?_, ?_, ?_, ?_, ?_⟩
  · intro src s n dst d
    unfold Vector.InitUninitData Vector.relocateByMove
    by_cases h1 : E.is_nothrow_move_constructible = true
    · simp [h1]
    · by_cases h2 : E.is_copy_constructible = true
      · simp [h1, h2]
      · simp [h1, h2]
  · intro h v m pos args
    have hm : Vector.relocateByMove E = true := by simp [Vector.relocateByMove, h]
    exact ⟨Reserve_copies_zero E v m hm, EmplaceBack_copies_zero E v args hm,
      Emplace_copies_zero E v pos args hm⟩
  · intro h f src s n dst d
    have hm : Vector.relocateByMove E = true := by simp [Vector.relocateByMove, h]
    exact InitUninitData_ignores_copy E hm f src s n dst d
  · intro h1 h2 v m pos args
    have hm : Vector.relocateByMove E = false := by simp [Vector.relocateByMove, h1, h2]
    exact ⟨Reserve_moves_zero E v m hm, EmplaceBack_moves_zero E v args hm,
      Emplace_moves_zero E v pos args hm⟩
  · intro h1 h2 f g src s n dst d
    have hm : Vector.relocateByMove E = false := by simp [Vector.relocateByMove, h1, h2]
    exact InitUninitData_ignores_move E hm f g src s n dst d
  · intro v l m hv hm ha hr
    exact Reserve_grow_counts E v l m hv hm ha hr
  · intro v l i x hv hi hfull ha hr
    exact ⟨EmplaceBack_grow_counts E v l x hv hfull ha hr,
      Emplace_grow_counts E v l i x hv hi hfull ha hr⟩
  · intro h src s n dst d hsrc hlen
    have hm : Vector.relocateByMove E = true := hiff.mpr h
    obtain ⟨r1, r2, r3, r4, r5⟩ := InitUninitData_move_ok E hm src s n dst d hsrc hlen
    have hk : (Vector.InitUninitData E src s n dst d).kind = .move := by
      rw [InitUninitData_kind, relocKind_move E hm]
    refine ⟨r1, hk, ?_, r2, r3, r4, r5⟩
    rw [← (copiesOf_move _ hk).2]
    exact r2
  · intro h1 h2 src s n dst d hsrc hlen
    have hm : Vector.relocateByMove E = false := by simp [Vector.relocateByMove, h1, h2]
    obtain ⟨r1, r2, r3, r4, r5⟩ := InitUninitData_copy_ok E hm src s n dst d hsrc hlen
    have hk : (Vector.InitUninitData E src s n dst d).kind = .copy := by
      rw [InitUninitData_kind, relocKind_copy E hm]
    refine ⟨r1, hk, ?_, r2, r3, r4, r5⟩
    rw [← (movesOf_copy _ hk).2]
    exact r2
  · intro h1 _ src s n dst d hlive hlen hthrow
    have hm : Vector.relocateByMove E = true := hiff.mpr (Or.inr h1)
    apply InitUninitData_ctor_throws E src s n dst d hlive ?_ hlen
    obtain ⟨k, hk, x, hx, ht⟩ := hthrow
    refine ⟨k, hk, x, hx, ?_⟩
    rw [if_pos hm]
    exact ht
  · intro h1 h2 src s n dst d hlive hlen hthrow
    have hm : Vector.relocateByMove E = false := by simp [Vector.relocateByMove, h1, h2]
    apply InitUninitData_ctor_throws E src s n dst d hlive ?_ hlen
    obtain ⟨k, hk, x, hx, ht⟩ := hthrow
    refine ⟨k, hk, x, hx, ?_⟩
    rw [if_neg (by simp [hm])]
    exact ht
  · intro v l m i x hv hr
    by_cases hm : Vector.relocateByMove E = true
    · have hp := hiff.mp hm
      simp only [if_pos hp]
      refine ⟨?_, ?_⟩
      · intro hcap ha
        have hs := Reserve_grow_counts E v l m hv hcap ha hr
        have hz := Reserve_copies_zero E v m hm
        omega
      · intro hi hfull ha
        have hs1 := EmplaceBack_grow_counts E v l x hv hfull ha hr
        have hz1 := EmplaceBack_copies_zero E v (some x) hm
        have hs2 := Emplace_grow_counts E v l i x hv hi hfull ha hr
        have hz2 := Emplace_copies_zero E v i (some x) hm
        omega
    · have hp : ¬ (E.is_nothrow_move_constructible = true ∨ E.is_copy_constructible = false) :=
        fun h => hm (hiff.mpr h)
      have hm2 : Vector.relocateByMove E = false := by simpa using hm
      simp only [if_neg hp]
      refine ⟨?_, ?_⟩
      · intro hcap ha
        have hs := Reserve_grow_counts E v l m hv hcap ha hr
        have hz := Reserve_moves_zero E v m hm2
        omega
      · intro hi hfull ha
        have hs1 := EmplaceBack_grow_counts E v l x hv hfull ha hr
        have hz1 := EmplaceBack_moves_zero E v (some x) hm2
        have hs2 := Emplace_grow_counts E v l i x hv hi hfull ha hr
        have hz2 := Emplace_moves_zero E v i (some x) hm2
        omega


/-- C14 at concrete inputs.  Growing `[1, 2]` of an `int`-like type records no copy, and
growing `[1, 2]` of a copyable type whose move may throw records no move.  Relocating
the two objects `1, 2` of a `std::string`-like type runs two move constructions and no
copy: the destination holds `1, 2` and the source objects are left empty (`0`).
Relocating them for the copyable type whose move may throw runs two copy constructions
and no move, and leaves the source as it was.  Relocating `1, 13` of a move-only type
whose move constructor throws on 13 fails with that exception after one move, and of
the copyable type whose copy constructor throws on 13 after one copy. -/
theorem relocation_moves_exactly_when_safe_witness :
    (((mkVector [1, 2] 2).Reserve intEnv 5).copies = 0 ∧
      ((mkVector [1, 2] 2).EmplaceBack intEnv (some 3)).copies = 0 ∧
      ((mkVector [1, 2] 2).Emplace intEnv 1 (some 3)).copies = 0) ∧
    (((mkVector [1, 2] 2).Reserve throwingEnv 5).moves = 0 ∧
      ((mkVector [1, 2] 2).EmplaceBack throwingEnv (some 3)).moves = 0 ∧
      ((mkVector [1, 2] 2).Emplace throwingEnv 1 (some 3)).moves = 0) ∧
    ((Vector.InitUninitData stringEnv [some 1, some 2] 0 2 [none, none, none] 0).err = none ∧
      (Vector.InitUninitData stringEnv [some 1, some 2] 0 2 [none, none, none] 0).kind = .move ∧
      (Vector.InitUninitData stringEnv [some 1, some 2] 0 2 [none, none, none] 0).built = 2 ∧
      Vector.movesOf (Vector.InitUninitData stringEnv [some 1, some 2] 0 2 [none, none, none] 0)
        = 2 ∧
      Vector.copiesOf (Vector.InitUninitData stringEnv [some 1, some 2] 0 2 [none, none, none] 0)
        = 0) ∧
    ((Vector.InitUninitData throwingEnv [some 1, some 2] 0 2 [none, none, none] 0).err = none ∧
      (Vector.InitUninitData throwingEnv [some 1, some 2] 0 2 [none, none, none] 0).kind
        = .copy ∧
      (Vector.InitUninitData throwingEnv [some 1, some 2] 0 2 [none, none, none] 0).built = 2 ∧
      Vector.copiesOf
        (Vector.InitUninitData throwingEnv [some 1, some 2] 0 2 [none, none, none] 0) = 2 ∧
      Vector.movesOf
        (Vector.InitUninitData throwingEnv [some 1, some 2] 0 2 [none, none, none] 0) = 0) ∧
    (Vector.InitUninitData moveOnlyEnv [some 1, some 13] 0 2 [none, none] 0).err =
      some .elem_throw ∧
    (Vector.InitUninitData throwingEnv [some 1, some 13] 0 2 [none, none] 0).err =
      some .elem_throw ∧
    (((mkVector [1, 2] 2).Reserve stringEnv 5).moves = 2 ∧
      ((mkVector [1, 2] 2).Reserve stringEnv 5).copies = 0) ∧
    (((mkVector [1, 2] 2).EmplaceBack throwingEnv (some 3)).moves = 0 ∧
      ((mkVector [1, 2] 2).EmplaceBack throwingEnv (some 3)).copies = 2 ∧
      ((mkVector [1, 2] 2).Emplace throwingEnv 1 (some 3)).moves = 0 ∧
      ((mkVector [1, 2] 2).Emplace throwingEnv 1 (some 3)).copies = 2) ∧
    Vector.InitUninitData stringEnv [some 1, some 2] 0 2 [none, none, none] 0 =
      ⟨[some 0, some 0], [some 1, some 2, none], 2, none, .move⟩ ∧
    Vector.InitUninitData throwingEnv [some 1, some 2] 0 2 [none, none, none] 0 =
      ⟨[some 1, some 2], [some 1, some 2, none], 2, none, .copy⟩ ∧
    Vector.InitUninitData moveOnlyEnv [some 1, some 13] 0 2 [none, none] 0 =
      ⟨[some 0, some 13], [none, none], 1, some .elem_throw, .move⟩ ∧
    Vector.InitUninitData throwingEnv [some 1, some 13] 0 2 [none, none] 0 =
      ⟨[some 1, some 13], [none, none], 1, some .elem_throw, .copy⟩ ∧
    ((mkVector [1, 2] 2).Reserve intEnv 5).moves = 2 ∧
    ((mkVector [1, 2] 2).Reserve throwingEnv 5).copies = 2 :=
  ⟨(relocation_moves_exactly_when_safe intEnv).2.1 rfl (mkVector [1, 2] 2) 5 1 (some 3),
    (relocation_moves_exactly_when_safe throwingEnv).2.2.2.1 rfl rfl (mkVector [1, 2] 2) 5 1
      (some 3),
    ⟨((relocation_moves_exactly_when_safe stringEnv).2.2.2.2.2.2.2.1 (Or.inl rfl)
        [some 1, some 2] 0 2 [none, none, none] 0
        (fun k hk => by
          interval_cases k
          · exact ⟨1, rfl, rfl⟩
          · exact ⟨2, rfl, rfl⟩)
        (by decide)).1,
      ((relocation_moves_exactly_when_safe stringEnv).2.2.2.2.2.2.2.1 (Or.inl rfl)
        [some 1, some 2] 0 2 [none, none, none] 0
        (fun k hk => by
          interval_cases k
          · exact ⟨1, rfl, rfl⟩
          · exact ⟨2, rfl, rfl⟩)
        (by decide)).2.1,
      ((relocation_moves_exactly_when_safe stringEnv).2.2.2.2.2.2.2.1 (Or.inl rfl)
        [some 1, some 2] 0 2 [none, none, none] 0
        (fun k hk => by
          interval_cases k
          · exact ⟨1, rfl, rfl⟩
          · exact ⟨2, rfl, rfl⟩)
        (by decide)).2.2.1,
      ((relocation_moves_exactly_when_safe stringEnv).2.2.2.2.2.2.2.1 (Or.inl rfl)
        [some 1, some 2] 0 2 [none, none, none] 0
        (fun k hk => by
          interval_cases k
          · exact ⟨1, rfl, rfl⟩
          · exact ⟨2, rfl, rfl⟩)
        (by decide)).2.2.2.1,
      ((relocation_moves_exactly_when_safe stringEnv).2.2.2.2.2.2.2.1 (Or.inl rfl)
        [some 1, some 2] 0 2 [none, none, none] 0
        (fun k hk => by
          interval_cases k
          · exact ⟨1, rfl, rfl⟩
          · exact ⟨2, rfl, rfl⟩)
        (by decide)).2.2.2.2.1⟩,
    ⟨((relocation_moves_exactly_when_safe throwingEnv).2.2.2.2.2.2.2.2.1 rfl rfl
        [some 1, some 2] 0 2 [none, none, none] 0
        (fun k hk => by
          interval_cases k
          · exact ⟨1, rfl, rfl⟩
          · exact ⟨2, rfl, rfl⟩)
        (by decide)).1,
      ((relocation_moves_exactly_when_safe throwingEnv).2.2.2.2.2.2.2.2.1 rfl rfl
        [some 1, some 2] 0 2 [none, none, none] 0
        (fun k hk => by
          interval_cases k
          · exact ⟨1, rfl, rfl⟩
          · exact ⟨2, rfl, rfl⟩)
        (by decide)).2.1,
      ((relocation_moves_exactly_when_safe throwingEnv).2.2.2.2.2.2.2.2.1 rfl rfl
        [some 1, some 2] 0 2 [none, none, none] 0
        (fun k hk => by
          interval_cases k
          · exact ⟨1, rfl, rfl⟩
          · exact ⟨2, rfl, rfl⟩)
        (by decide)).2.2.1,
      ((relocation_moves_exactly_when_safe throwingEnv).2.2.2.2.2.2.2.2.1 rfl rfl
        [some 1, some 2] 0 2 [none, none, none] 0
        (fun k hk => by
          interval_cases k
          · exact ⟨1, rfl, rfl⟩
          · exact ⟨2, rfl, rfl⟩)
        (by decide)).2.2.2.1,
      ((relocation_moves_exactly_when_safe throwingEnv).2.2.2.2.2.2.2.2.1 rfl rfl
        [some 1, some 2] 0 2 [none, none, none] 0
        (fun k hk => by
          interval_cases k
          · exact ⟨1, rfl, rfl⟩
          · exact ⟨2, rfl, rfl⟩)
        (by decide)).2.2.2.2.1⟩,
    (relocation_moves_exactly_when_safe moveOnlyEnv).2.2.2.2.2.2.2.2.2.1 rfl rfl
      [some 1, some 13] 0 2 [none, none] 0
      (fun k hk => by
        interval_cases k
        · exact ⟨1, rfl⟩
        · exact ⟨13, rfl⟩)
      (by decide) ⟨1, by decide, 13, rfl, rfl⟩,
    (relocation_moves_exactly_when_safe throwingEnv).2.2.2.2.2.2.2.2.2.2.1 rfl rfl
      [some 1, some 13] 0 2 [none, none] 0
      (fun k hk => by
        interval_cases k
        · exact ⟨1, rfl⟩
        · exact ⟨13, rfl⟩)
      (by decide) ⟨1, by decide, 13, rfl, rfl⟩,
    ((relocation_moves_exactly_when_safe stringEnv).2.2.2.2.2.2.2.2.2.2.2 (mkVector [1, 2] 2)
      [1, 2] 5 1 3 (by decide) (by decide)).1 (by decide) (by decide),
    ((relocation_moves_exactly_when_safe throwingEnv).2.2.2.2.2.2.2.2.2.2.2 (mkVector [1, 2] 2)
      [1, 2] 5 1 3 (by decide) (by decide)).2 (by decide) (by decide) (by decide),
    by decide, by decide, by decide, by decide, by decide, by decide⟩

/-- C15 (the code departs from it): `Erase` at position 1 of `[1, 2, 3]` (capacity 4)
returns leaving size 2 with slot 2, the vacated last slot, still holding an object: the
call destroys the slot at index `size_ + 1 = 4` instead.  On the container reached from
`[1, 2, 3, 4, 5]` (capacity 5) by `Erase` at position 4 and `PopBack`, which holds
`[1, 2, 3]` with a stale object left in slot 4, `Erase` at position 1 destroys that
object in slot 4 and again leaves slot 2 live. -/
theorem Erase_destroys_wrong_slot :
    (mkVector [1, 2, 3] 4).Holds [1, 2, 3] ∧
      ((mkVector [1, 2, 3] 4).Erase intEnv 1).ret = .ok 1 ∧
      ((mkVector [1, 2, 3] 4).Erase intEnv 1).vec =
        ⟨⟨some [some 1, some 3, some 3, none], 4⟩, 2⟩ ∧
      ((mkVector [1, 2, 3, 4, 5] 5).Erase intEnv 4).ret = .ok 4 ∧
      ((mkVector [1, 2, 3, 4, 5] 5).Erase intEnv 4).vec.PopBack =
        ⟨⟨some [some 1, some 2, some 3, none, some 5], 5⟩, 3⟩ ∧
      ((mkVector [1, 2, 3, 4, 5] 5).Erase intEnv 4).vec.PopBack.Holds [1, 2, 3] ∧
      (((mkVector [1, 2, 3, 4, 5] 5).Erase intEnv 4).vec.PopBack.Erase intEnv 1).ret = .ok 1 ∧
      (((mkVector [1, 2, 3, 4, 5] 5).Erase intEnv 4).vec.PopBack.Erase intEnv 1).vec =
        ⟨⟨some [some 1, some 3, some 3, none, none], 5⟩, 2⟩ := by
  decide

/-- C16 (the code departs from it): move-assigning `b = [1, 2, 3]` (capacity 4) to
`a = [7, 8]` (capacity 2) gives `a` the size, capacity and elements of `b` and leaves `b`
with size 0, but `b` is left with the former block of `a`, of capacity 2, whose slots 0
and 1 still hold the objects 7 and 8: they were not destroyed, and the destructor of `b`
releases the block with both still alive. -/
theorem moveAssign_keeps_old_elements_alive :
    (Vector.moveAssign (mkVector [7, 8] 2) (mkVector [1, 2, 3] 4)).1 = mkVector [1, 2, 3] 4 ∧
      (Vector.moveAssign (mkVector [7, 8] 2) (mkVector [1, 2, 3] 4)).1.Holds [1, 2, 3] ∧
      (Vector.moveAssign (mkVector [7, 8] 2) (mkVector [1, 2, 3] 4)).2.Size = 0 ∧
      (Vector.moveAssign (mkVector [7, 8] 2) (mkVector [1, 2, 3] 4)).2.Capacity = 2 ∧
      (Vector.moveAssign (mkVector [7, 8] 2) (mkVector [1, 2, 3] 4)).2.slots =
        [some 7, some 8] ∧
      (Vector.moveAssign (mkVector [7, 8] 2) (mkVector [1, 2, 3] 4)).2.destroy =
        [[some 7, some 8]] := by
  decide

/-- C17 (the code departs from it): `EmplaceBack(7)` on the full container `[1, 13]` of a
copyable type whose copy constructor throws on 13 builds 7 in slot 2 of the new storage,
copies 1 into slot 0, meets the exception on 13 and destroys the copy of 1; the failure
reaches the caller with the container unchanged, and the new storage is released with
the object 7 still alive in slot 2: two objects were constructed there and one destroyed. -/
theorem EmplaceBack_failure_leaks_new_element :
    ((mkVector [1, 13] 2).EmplaceBack throwingEnv (some 7)).ret = .error .elem_throw ∧
      ((mkVector [1, 13] 2).EmplaceBack throwingEnv (some 7)).vec = mkVector [1, 13] 2 ∧
      ((mkVector [1, 13] 2).EmplaceBack throwingEnv (some 7)).copies = 1 ∧
      ((mkVector [1, 13] 2).EmplaceBack throwingEnv (some 7)).freed =
        [[none, none, some 7, none]] := by
  decide

/-- C19 (the code departs from it): for `n = 2^62` elements of size 4 the byte count
computed by `Allocate` is `2^62 * 4` modulo `2^64`, that is 0, not the product `2^64`;
`Allocate` returns a block that is not null and has room for no element, and
`RawMemory(2^62)` records capacity `2^62` on it.  `Reserve(2^62)` on an empty container
so returns normally with capacity `2^62`, and the next `EmplaceBack` writes outside the
block. -/
theorem Allocate_byte_count_wraps :
    RawMemory.allocBytes intEnv (2 ^ 62) = 0 ∧
      2 ^ 62 * intEnv.sizeofT = 2 ^ 64 ∧
      RawMemory.Allocate intEnv (2 ^ 62) = .ok (some []) ∧
      RawMemory.create intEnv (2 ^ 62) = .ok ⟨some [], 2 ^ 62⟩ ∧
      (Vector.empty.Reserve intEnv (2 ^ 62)).ret = .ok () ∧
      (Vector.empty.Reserve intEnv (2 ^ 62)).vec.Capacity = 2 ^ 62 ∧
      (Vector.empty.Reserve intEnv (2 ^ 62)).vec.slots = [] ∧
      ((Vector.empty.Reserve intEnv (2 ^ 62)).vec.EmplaceBack intEnv (some 1)).ret =
        .error .undefined := by
  decide

/-- C18: for every container state and every constructor argument, whenever
`EmplaceBack` returns normally, `Emplace` at `end()` leaves the same container (size,
capacity, slots) and returns the same slot.  On a container holding `l` (when it is
full, the allocation of `max(1, 2n)` elements being granted and the relocation not
throwing) both do return normally, `end()` being position `n`: they return slot `n`, the
last element of the container they leave, which reads `x`. -/
theorem Emplace_at_end_is_EmplaceBack {T : Type} (E : Env T) (v : Vector T) :
    (∀ args p, (v.EmplaceBack E args).ret = .ok p →
      (v.Emplace E v.size_ args).ret = .ok p ∧
      (v.Emplace E v.size_ args).vec = (v.EmplaceBack E args).vec ∧
      (v.Emplace E v.size_ args).vec.Size = (v.EmplaceBack E args).vec.Size ∧
      (v.Emplace E v.size_ args).vec.Capacity = (v.EmplaceBack E args).vec.Capacity ∧
      (v.Emplace E v.size_ args).vec.elems = (v.EmplaceBack E args).vec.elems) ∧
    (∀ (l : List T) (x : T), v.Holds l →
      (v.size_ = v.Capacity → E.AllocOk (max 1 (2 * l.length)) ∧ E.RelocOk l) →
      v.end_ = .ok l.length ∧
      (v.EmplaceBack E (some x)).ret = .ok l.length ∧
      (v.Emplace E l.length (some x)).ret = .ok l.length ∧
      (v.Emplace E l.length (some x)).vec = (v.EmplaceBack E (some x)).vec ∧
      (v.EmplaceBack E (some x)).vec.Size = l.length + 1 ∧
      (v.EmplaceBack E (some x)).vec.read l.length = .ok x) := by
  constructor
  · intro args p h
    have e := Emplace_end_eq_EmplaceBack E v args p h
    rw [e]
    exact ⟨h, rfl, rfl, rfl, rfl⟩
  · intro l x hv hgrow
    have key : (v.EmplaceBack E (some x)).ret = .ok l.length ∧
        (v.EmplaceBack E (some x)).vec.Holds (l ++ [x]) := by
      by_cases hfull : v.size_ = v.Capacity
      · obtain ⟨ha, hr⟩ := hgrow hfull
        obtain ⟨h1, h2, _⟩ := EmplaceBack_grow_ok E v l x hv hfull ha hr
        exact ⟨h1, h2⟩
      · obtain ⟨h1, h2, _⟩ := EmplaceBack_room_ok E v l x hv hfull
        exact ⟨h1, h2⟩
    obtain ⟨k1, k2⟩ := key
    have e := Emplace_end_eq_EmplaceBack E v (some x) l.length k1
    rw [hv.1] at e
    have hlen : (l ++ [x]).length = l.length + 1 := by simp
    refine ⟨end_ok hv, k1, by rw [e]; exact k1, by rw [e], ?_, ?_⟩
    · simp only [Vector.Size, k2.1, hlen]
    · rw [Holds_read k2 l.length (by omega)]
      simp

/-- C18 at concrete inputs: a full container and one with room. -/
theorem Emplace_at_end_is_EmplaceBack_witness :
    (((mkVector [1, 2] 2).Emplace intEnv 2 (some 3)).ret = .ok 2 ∧
      ((mkVector [1, 2] 2).Emplace intEnv 2 (some 3)).vec =
        ((mkVector [1, 2] 2).EmplaceBack intEnv (some 3)).vec) ∧
    (((mkVector [1, 2] 3).Emplace intEnv 2 (some 3)).ret = .ok 2 ∧
      ((mkVector [1, 2] 3).Emplace intEnv 2 (some 3)).vec =
        ((mkVector [1, 2] 3).EmplaceBack intEnv (some 3)).vec) ∧
    ((mkVector [1, 2] 2).EmplaceBack intEnv (some 3)).vec = mkVector [1, 2, 3] 4 :=
  ⟨⟨((Emplace_at_end_is_EmplaceBack intEnv (mkVector [1, 2] 2)).2 [1, 2] 3 (by decide)
      (by decide)).2.2.1,
    ((Emplace_at_end_is_EmplaceBack intEnv (mkVector [1, 2] 2)).2 [1, 2] 3 (by decide)
      (by decide)).2.2.2.1⟩,
   ⟨((Emplace_at_end_is_EmplaceBack intEnv (mkVector [1, 2] 3)).1 (some 3) 2 (by decide)).1,
    ((Emplace_at_end_is_EmplaceBack intEnv (mkVector [1, 2] 3)).1 (some 3) 2 (by decide)).2.1⟩,
   by decide⟩

/-- C20: for every container state, each call of `Reserve`, `Resize`, `EmplaceBack`,
`PushBack`, `Emplace`, `Insert`, `Erase` or copy assignment that returns normally, and
`PopBack`, leaves a capacity at least the capacity before the call (for `Emplace` and
`Insert` on a container whose doubled size `2 * size_` is representable in `size_t`, as
it is for every container that fits in memory). -/
theorem capacity_never_decreases {T : Type} (E : Env T) (v : Vector T) :
    (∀ m, (v.Reserve E m).ret = .ok () → v.Capacity ≤ (v.Reserve E m).vec.Capacity) ∧
    (∀ m, (v.Resize E m).ret = .ok () → v.Capacity ≤ (v.Resize E m).vec.Capacity) ∧
    (∀ args p, (v.EmplaceBack E args).ret = .ok p →
      v.Capacity ≤ (v.EmplaceBack E args).vec.Capacity) ∧
    (∀ x, (v.PushBack E x).ret = .ok () → v.Capacity ≤ (v.PushBack E x).vec.Capacity) ∧
    (∀ x, (v.PushBackMove E x).ret = .ok () → v.Capacity ≤ (v.PushBackMove E x).vec.Capacity) ∧
    v.Capacity ≤ v.PopBack.Capacity ∧
    (2 * v.size_ < SIZE_MOD → ∀ pos args p, (v.Emplace E pos args).ret = .ok p →
      v.Capacity ≤ (v.Emplace E pos args).vec.Capacity) ∧
    (2 * v.size_ < SIZE_MOD → ∀ pos x p, (v.Insert E pos x).ret = .ok p →
      v.Capacity ≤ (v.Insert E pos x).vec.Capacity) ∧
    (2 * v.size_ < SIZE_MOD → ∀ pos x p, (v.InsertMove E pos x).ret = .ok p →
      v.Capacity ≤ (v.InsertMove E pos x).vec.Capacity) ∧
    (∀ pos p, (v.Erase E pos).ret = .ok p → v.Capacity ≤ (v.Erase E pos).vec.Capacity) ∧
    (∀ other same, (Vector.copyAssign E v other same).1.ret = .ok () →
      v.Capacity ≤ (Vector.copyAssign E v other same).1.vec.Capacity) := by
  have hpush : ∀ (args : Option T) (r : Except Err Unit),
      (v.EmplaceBack E args).ret.map (fun _ => ()) = r → r = .ok () →
      ∃ p, (v.EmplaceBack E args).ret = .ok p := by
    intro args r h1 h2
    cases hr : (v.EmplaceBack E args).ret with
    | error e =>
      rw [hr] at h1
      rw [← h1] at h2
      cases h2
    | ok p => exact ⟨p, rfl⟩
  refine ⟨?_, ?_, ?_, ?_, ?_, ?_, ?_, ?_, ?_, ?_, ?_⟩
  · intro m h
    exact Reserve_capacity_le E v m h
  · intro m h
    exact Resize_capacity_le E v m h
  · intro args p h
    exact EmplaceBack_capacity_le E v args p h
  · intro x h
    obtain ⟨p, hp⟩ := hpush _ _ rfl h
    exact EmplaceBack_capacity_le E v _ p hp
  · intro x h
    obtain ⟨p, hp⟩ := hpush _ _ rfl h
    exact EmplaceBack_capacity_le E v _ p hp
  · exact Nat.le_refl _
  · intro h pos args p _
    exact Emplace_capacity_le E v pos args h
  · intro h pos x p _
    exact Emplace_capacity_le E v pos _ h
  · intro h pos x p _
    exact Emplace_capacity_le E v pos _ h
  · intro pos p _
    exact Nat.le_of_eq (Erase_capacity_eq E v pos).symm
  · intro other same h
    exact copyAssign_capacity_le E v other same h

/-- C20 at concrete inputs: calls on `[1, 2]` of capacity 2 that return normally; and, by
contrast, the capacity of a moved-from container, of the target of a move assignment
and of a swapped container going down from 4. -/
theorem capacity_never_decreases_witness :
    (mkVector [1, 2] 2).Capacity ≤ ((mkVector [1, 2] 2).Reserve intEnv 5).vec.Capacity ∧
      (mkVector [1, 2] 2).Capacity ≤ ((mkVector [1, 2] 2).Resize intEnv 1).vec.Capacity ∧
      (mkVector [1, 2] 2).Capacity ≤
        ((mkVector [1, 2] 2).EmplaceBack intEnv (some 3)).vec.Capacity ∧
      (mkVector [1, 2] 2).Capacity ≤ ((mkVector [1, 2] 2).Emplace intEnv 1 (some 3)).vec.Capacity ∧
      (mkVector [1, 2] 2).Capacity ≤ ((mkVector [1, 2] 2).Erase intEnv 0).vec.Capacity ∧
      (mkVector [1, 2] 2).Capacity ≤
        (Vector.copyAssign intEnv (mkVector [1, 2] 2) (mkVector [4, 5, 6] 3) false).1.vec.Capacity ∧
      (Vector.moveCtor (mkVector [1, 2] 4)).2.Capacity = 0 ∧
      (Vector.moveAssign (mkVector [1, 2] 4) (mkVector [3] 1)).1.Capacity = 1 ∧
      (Vector.Swap (mkVector [1, 2] 4) (mkVector [3] 1)).1.Capacity = 1 :=
  ⟨(capacity_never_decreases intEnv (mkVector [1, 2] 2)).1 5 (by decide),
    (capacity_never_decreases intEnv (mkVector [1, 2] 2)).2.1 1 (by decide),
    (capacity_never_decreases intEnv (mkVector [1, 2] 2)).2.2.1 (some 3) 2 (by decide),
    (capacity_never_decreases intEnv (mkVector [1, 2] 2)).2.2.2.2.2.2.1 (by decide) 1 (some 3) 1
      (by decide),
    (capacity_never_decreases intEnv (mkVector [1, 2] 2)).2.2.2.2.2.2.2.2.2.1 0 0 (by decide),
    (capacity_never_decreases intEnv (mkVector [1, 2] 2)).2.2.2.2.2.2.2.2.2.2
      (mkVector [4, 5, 6] 3) false (by decide),
    by decide, by decide, by decide⟩

end AdvancedVector
